import Mathlib

/-!
# OSMINT: the hybrid mint engine of `new5.js` and its callers

A shallow embedding of the dispatch / reconciliation engine of
`src/new5.js` (`checkDropStatus`, `trickyMintHybrid` and the wallet loop of
`main` that calls it), of the gas price resolver of the three variants, of
`getProviderWithFallback` of `src/main.js`, and of the mint of `src/new.js`
and `src/main.js`, followed by theorems about them.

Conventions of the embedding

* JavaScript numbers that hold counters and timestamps are integers far below
  `2^53`, where double arithmetic is exact; they are `Nat` or `Int` here.
* `total` comes from `parseInt`, so it is an `Int`. A `NaN` total makes every
  comparison of the engine false, exactly as a negative total does. Where a
  `NaN` is handed to ethers, which throws on it, the value is an `Option Int`
  and `none` is `NaN`.
* The outside world is an explicit argument: the clock value returned by
  `Date.now()`, the outcome of every `mintMulti` call, and the answer to every
  `getTransactionReceipt` call.
* What the engine does to the outside world is an explicit result: the list of
  `Effect`s in program order, and the lines it prints.
-/

namespace OSMINT

/-! ## Data model -/

/-- One element of `pendingTxs`: the object literal
`{ hash: tx.hash, index: attemptCount, checked: false }`. -/
structure PendingTx where
  hash : String
  index : Nat
  checked : Bool
deriving DecidableEq, Repr

/-- The tuple returned by `getPublicDrop`. `startTime` and `endTime` are
`uint48`, which ethers decodes to plain numbers; `mintPrice` is a `uint80`. -/
structure PublicDrop where
  mintPrice : Nat
  startTime : Nat
  endTime : Nat
deriving DecidableEq, Repr

/-- The three values of the `reason` field built by `checkDropStatus`. -/
inductive DropReason where
  | DROP_NOT_STARTED
  | DROP_ENDED
  | DROP_ACTIVE
deriving DecidableEq, Repr

/-- The `message` field of a drop status; the timestamp is kept as the number
of seconds that the source formats with `toLocaleString`. -/
inductive DropMessage where
  | hasNotStarted (startsAt : Nat)
  | hasEnded (endedAt : Nat)
  | isActive
deriving DecidableEq, Repr

/-- The object returned by `checkDropStatus`. The field `startTime` exists only
in the `DROP_NOT_STARTED` object. -/
structure DropStatus where
  valid : Bool
  reason : DropReason
  message : DropMessage
  startTime : Option Nat
deriving DecidableEq, Repr

/-- The per-transaction arguments that `trickyMintHybrid` passes on unchanged.
The gas price is what the resolver returned, which can be negative. -/
structure MintParams where
  nftAddr : String
  price : Nat
  gasPrice : Int
  gasLimit : Int
deriving DecidableEq, Repr

/-- Calls that leave the process, in program order. -/
inductive Effect where
  /-- A timed wait, `await new Promise(resolve => setTimeout(resolve, ms))`:
  `ms` is the argument handed to `setTimeout`. How long the wait lasts is
  `timerDelay ms`. -/
  | sleep (ms : Int)
  /-- The call `multiContract.mintMulti(quantity, nftAddr, { value, gasPrice, gasLimit })`. -/
  | mintMulti (quantity : Nat) (nftAddr : String) (value : Nat) (gasPrice gasLimit : Int)
  /-- The call `connectedWallet.provider.getTransactionReceipt(hash)`. -/
  | getTransactionReceipt (hash : String)
deriving DecidableEq, Repr

/-- Whether an effect is a `mintMulti` submission. -/
def Effect.isMint : Effect → Bool
  | .mintMulti _ _ _ _ _ => true
  | _ => false

/-- Number of `mintMulti` submissions in a list of effects. -/
def countMint (es : List Effect) : Nat :=
  (es.filter Effect.isMint).length

/-! ## Drop gate -/

/-- The function `checkDropStatus(publicDrop)`, with the value of `Date.now()`
(milliseconds) as an argument. -/
def checkDropStatus (publicDrop : PublicDrop) (dateNow : Nat) : DropStatus :=
  let now := dateNow / 1000
  let startTime := publicDrop.startTime
  let endTime := publicDrop.endTime
  if startTime > now then
    { valid := false
      reason := .DROP_NOT_STARTED
      message := .hasNotStarted startTime
      startTime := some startTime }
  else if endTime < now then
    { valid := false
      reason := .DROP_ENDED
      message := .hasEnded endTime
      startTime := none }
  else
    { valid := true
      reason := .DROP_ACTIVE
      message := .isActive
      startTime := none }

/-- The block `if (dropStatus.reason === "DROP_NOT_STARTED") { ... }` of
`trickyMintHybrid`: the effects it performs when `Date.now()` reads `dateNow`.
The wait carries `waitTime`, the argument handed to `setTimeout`; the time the
flow is suspended is `timerDelay waitTime`. A status object without `startTime`
makes `waitTime` a `NaN`, and `NaN > 0` is false. -/
def waitForDrop (dropStatus : DropStatus) (dateNow : Nat) : List Effect :=
  if dropStatus.reason = .DROP_NOT_STARTED then
    match dropStatus.startTime with
    | some startTime =>
      let waitTime : Int := ((startTime : Int) - ((dateNow / 1000 : Nat) : Int)) * 1000
      if waitTime > 0 then [.sleep waitTime] else []
    | none => []
  else []

/-! ## Dispatch loop (phase 1) -/

/-- The variables of the dispatch loop. -/
structure DispatchState where
  successCount : Nat
  attemptCount : Nat
  pendingTxs : List PendingTx
deriving DecidableEq, Repr

/-- The values of the loop variables before the first iteration. -/
def DispatchState.init : DispatchState :=
  { successCount := 0, attemptCount := 0, pendingTxs := [] }

/-- The condition of `while (successCount < total && attemptCount < maxAttempts)`
with `maxAttempts = total * 2`. -/
def loopGuard (total : Int) (st : DispatchState) : Bool :=
  decide ((st.successCount : Int) < total) && decide ((st.attemptCount : Int) < total * 2)

/-- The state change of one iteration: `attemptCount++`, then the `try` block.
`outcome` is `some hash` when `mintMulti` resolves to a transaction with that
hash and `none` when it throws (the `catch` only prints). -/
def attempt (outcome : Option String) (st : DispatchState) : DispatchState :=
  let attemptCount := st.attemptCount + 1
  match outcome with
  | some hash =>
    { successCount := st.successCount + 1
      attemptCount := attemptCount
      pendingTxs := st.pendingTxs ++ [{ hash := hash, index := attemptCount, checked := false }] }
  | none =>
    { st with attemptCount := attemptCount }

/-- The `mintMulti` call of every iteration. -/
def mintCall (p : MintParams) : Effect :=
  .mintMulti 1 p.nftAddr p.price p.gasPrice p.gasLimit

/-- The `while` loop of phase 1. `submit k` is the outcome of the `k`-th
`mintMulti` call. Returns the loop variables at exit and the effects performed.
The recursion is bounded by `fuel`; `fuel = 0` stands for a loop cut short. -/
def dispatchLoop (p : MintParams) (total : Int) (submit : Nat → Option String) :
    Nat → DispatchState → DispatchState × List Effect
  | 0, st => (st, [])
  | fuel + 1, st =>
    if loopGuard total st then
      let outcome := submit (st.attemptCount + 1)
      let st1 := attempt outcome st
      if outcome.isSome && decide ((st1.successCount : Int) ≥ total) then
        -- `if (successCount >= total) break;`
        (st1, [mintCall p])
      else
        let r := dispatchLoop p total submit fuel st1
        (r.1, mintCall p :: .sleep 50 :: r.2)
    else (st, [])

/-- Phase 1 of `trickyMintHybrid`: everything up to the line that prints
`Sent ... transactions!`. `dateNow` is what `Date.now()` reads inside the
waiting block. The loop is given `total * 2` iterations of fuel; it stops by
its own condition before the fuel runs out (`dispatchLoop_exact`). -/
def trickyMintHybridSend (p : MintParams) (total : Int) (dropStatus : DropStatus)
    (dateNow : Nat) (submit : Nat → Option String) : DispatchState × List Effect :=
  let r := dispatchLoop p total submit (total * 2).toNat DispatchState.init
  (r.1, waitForDrop dropStatus dateNow ++ r.2)

/-- The loop variables after `n` iterations of the loop body, whatever the
loop condition says. -/
def afterAttempts (submit : Nat → Option String) : Nat → DispatchState
  | 0 => DispatchState.init
  | n + 1 => attempt (submit (n + 1)) (afterAttempts submit n)

/-! ## Reconciliation poller (phase 2) -/

/-- How one `getTransactionReceipt` call ends: it resolves to `null`, it
resolves to a receipt carrying `status`, or it rejects. A receipt without a
`status` field fails the test `receipt.status === 1` like any status other
than 1. -/
inductive ReceiptAnswer where
  | noReceipt
  | receipt (status : Nat)
  | throws
deriving DecidableEq, Repr

/-- Lines that phase 2 writes to the terminal. -/
inductive LogLine where
  /-- The line `Confirmed: hash... (confirmedCount)`. -/
  | confirmed (hash : String) (confirmedCount : Nat)
  /-- The line `Failed: hash...`. -/
  | failed (hash : String)
  /-- The call `progressBar.update(confirmedCount, { pending: stillPending })`. -/
  | progress (confirmedCount stillPending : Nat)
  /-- The line `Final Result: confirmedCount/successCount transactions confirmed!`. -/
  | finalResult (confirmedCount successCount : Nat)
  /-- The line `Some transactions may still be pending. Check your wallet later.` -/
  | pendingWarning
deriving DecidableEq, Repr

/-- What the interval callback can read and write, apart from the ledger:
the shared `confirmedCount`, its own `stillPending`, the terminal and the
endpoint. -/
structure TickVars where
  confirmedCount : Nat
  stillPending : Nat
  output : List LogLine
  effects : List Effect
deriving DecidableEq, Repr

/-- The statements that follow `await getTransactionReceipt(tx.hash)` in the
loop body, the `catch` included, for the answer `ans`. -/
def afterAwait (ans : ReceiptAnswer) (tx : PendingTx) (v : TickVars) : PendingTx × TickVars :=
  match ans with
  | .receipt status =>
    if status = 1 then
      ({ tx with checked := true },
       { v with confirmedCount := v.confirmedCount + 1
                output := v.output ++ [.confirmed tx.hash (v.confirmedCount + 1)] })
    else
      ({ tx with checked := true }, { v with output := v.output ++ [.failed tx.hash] })
  | .noReceipt => (tx, { v with stillPending := v.stillPending + 1 })
  | .throws => (tx, { v with stillPending := v.stillPending + 1 })

/-- Issuing the receipt query for `tx`. -/
def query (tx : PendingTx) (v : TickVars) : TickVars :=
  { v with effects := v.effects ++ [.getTransactionReceipt tx.hash] }

/-- One iteration of `for (let i = 0; i < pendingTxs.length; i++)` when
nothing else runs while the callback waits for the answer. -/
def visit (ans : ReceiptAnswer) (tx : PendingTx) (v : TickVars) : PendingTx × TickVars :=
  if tx.checked then (tx, v) else afterAwait ans tx (query tx v)

/-- The `for` loop over the ledger from position `i` on; `answer j` is the
answer to the query for the entry at position `j`. -/
def forLoop (answer : Nat → ReceiptAnswer) : Nat → List PendingTx → TickVars →
    List PendingTx × TickVars
  | _, [], v => ([], v)
  | i, tx :: rest, v =>
    let r := visit (answer i) tx v
    let r2 := forLoop answer (i + 1) rest r.2
    (r.1 :: r2.1, r2.2)

/-- The state shared by all runs of the interval callback. `intervalActive`
is true until `clearInterval(checkInterval)` has been called. -/
structure PollerState where
  pendingTxs : List PendingTx
  confirmedCount : Nat
  intervalActive : Bool
  output : List LogLine
  effects : List Effect
deriving DecidableEq, Repr

/-- The state in which `setInterval` is called: the ledger left by phase 1 and
`confirmedCount = 0`. -/
def PollerState.start (d : DispatchState) : PollerState :=
  { pendingTxs := d.pendingTxs, confirmedCount := 0, intervalActive := true,
    output := [], effects := [] }

/-- The end of the callback, from `progressBar.update` on. -/
def finishTick (total : Int) (successCount : Nat) (pendingTxs : List PendingTx)
    (intervalActive : Bool) (v : TickVars) : PollerState :=
  let output := v.output ++ [.progress v.confirmedCount v.stillPending]
  if v.stillPending = 0 ∨ (v.confirmedCount : Int) = total then
    { pendingTxs := pendingTxs
      confirmedCount := v.confirmedCount
      intervalActive := false
      output := output ++ [.finalResult v.confirmedCount successCount] ++
        (if (v.confirmedCount : Int) < total then [.pendingWarning] else [])
      effects := v.effects }
  else
    { pendingTxs := pendingTxs
      confirmedCount := v.confirmedCount
      intervalActive := intervalActive
      output := output
      effects := v.effects }

/-- One run of the interval callback that is not interleaved with another
run: every answer arrives before the timer fires again. A cleared interval
fires no more. -/
def pollTick (total : Int) (successCount : Nat) (answer : Nat → ReceiptAnswer)
    (st : PollerState) : PollerState :=
  if st.intervalActive then
    let r := forLoop answer 0 st.pendingTxs
      { confirmedCount := st.confirmedCount, stillPending := 0,
        output := st.output, effects := st.effects }
    finishTick total successCount r.1 st.intervalActive r.2
  else st

/-- Ticks one after another; `answers t` holds the answers of tick `t`. -/
def pollTicks (total : Int) (successCount : Nat) (answers : Nat → Nat → ReceiptAnswer) :
    Nat → PollerState → PollerState
  | 0, st => st
  | n + 1, st =>
    pollTick total successCount (answers n) (pollTicks total successCount answers n st)

/-- Number of entries with `checked == false`. -/
def countUnchecked (txs : List PendingTx) : Nat :=
  (txs.filter (fun tx => !tx.checked)).length

/-- Number of `Failed` lines printed by phase 2: the receipts seen with a
status other than 1. -/
def countFailed (output : List LogLine) : Nat :=
  (output.filter (fun l => match l with | .failed _ => true | _ => false)).length

/-! ## The callback with its suspension points

`setInterval` starts the callback every 2000 ms whether or not its previous
run has returned, and each run gives up control at
`await getTransactionReceipt(tx.hash)`. The definitions below follow one run
from suspension to suspension, so that several runs can be in flight. -/

/-- A run of the callback suspended at the `await` for the entry at position
`i`, with its local counter `stillPending`. -/
structure Suspended where
  i : Nat
  stillPending : Nat
deriving DecidableEq, Repr

/-- The shared state together with the runs of the callback that wait for an
answer, oldest first. -/
structure EventLoop where
  shared : PollerState
  waiting : List Suspended
deriving DecidableEq, Repr

/-- The first entry at position `i` or later with `checked == false`: the
iterations that `continue`. The list is the ledger from position `i` on. -/
def skipChecked : List PendingTx → Nat → Option (Nat × PendingTx)
  | [], _ => none
  | tx :: rest, i => if tx.checked then skipChecked rest (i + 1) else some (i, tx)

/-- A run of the callback from loop position `i` up to its next `await` (where
it issues the query and suspends) or to its end. -/
def resume (total : Int) (successCount : Nat) (i stillPending : Nat) (st : PollerState) :
    PollerState × Option Suspended :=
  match skipChecked (st.pendingTxs.drop i) i with
  | some (j, tx) =>
    ({ st with effects := st.effects ++ [.getTransactionReceipt tx.hash] },
     some { i := j, stillPending := stillPending })
  | none =>
    (finishTick total successCount st.pendingTxs st.intervalActive
       { confirmedCount := st.confirmedCount, stillPending := stillPending,
         output := st.output, effects := st.effects },
     none)

/-- What the event loop can do next in phase 2. -/
inductive PollEvent where
  /-- The interval elapses. -/
  | timer
  /-- The query of the `k`-th waiting run settles with `ans`. -/
  | answer (k : Nat) (ans : ReceiptAnswer)
deriving DecidableEq, Repr

/-- One turn of the event loop. -/
def pollStep (total : Int) (successCount : Nat) (w : EventLoop) : PollEvent → EventLoop
  | .timer =>
    if w.shared.intervalActive then
      let r := resume total successCount 0 0 w.shared
      { shared := r.1, waiting := w.waiting ++ r.2.toList }
    else w
  | .answer k ans =>
    match w.waiting.get? k with
    | none => w
    | some s =>
      match w.shared.pendingTxs.get? s.i with
      | none => w
      | some tx =>
        let r := afterAwait ans tx
          { confirmedCount := w.shared.confirmedCount, stillPending := s.stillPending,
            output := w.shared.output, effects := w.shared.effects }
        let st1 : PollerState :=
          { w.shared with
            pendingTxs := w.shared.pendingTxs.set s.i r.1
            confirmedCount := r.2.confirmedCount
            output := r.2.output }
        let r2 := resume total successCount (s.i + 1) r.2.stillPending st1
        { shared := r2.1
          waiting := match r2.2 with
            | some s2 => w.waiting.set k s2
            | none => w.waiting.eraseIdx k }

/-- A sequence of turns of the event loop. -/
def runEvents (total : Int) (successCount : Nat) (events : List PollEvent) (w : EventLoop) :
    EventLoop :=
  events.foldl (pollStep total successCount) w

/-- The answers to the queries of one run of the callback, for the ledger from
position `i` on: one turn for each unchecked entry, in ledger order, each
delivered to the only waiting run. -/
def tickEvents (answer : Nat → ReceiptAnswer) : Nat → List PendingTx → List PollEvent
  | _, [] => []
  | i, tx :: rest =>
    if tx.checked then tickEvents answer (i + 1) rest
    else .answer 0 (answer i) :: tickEvents answer (i + 1) rest



/-! ## The caller: one wallet of `main` -/

/-- What one pass of the wallet loop of `main` does with the drop status. -/
structure WalletRun where
  /-- The message printed as `Drop Status: ...`. -/
  statusLine : DropMessage
  /-- Phase 1 of `trickyMintHybrid`, when the call is reached. -/
  sent : Option (DispatchState × List Effect)
deriving DecidableEq, Repr

/-- The body of `for (const pk of privateKeys)` in `main` from
`getPublicDrop` on, for a wallet whose endpoint answered. `gasPrice` is `none`
when the balance or gas price lookup throws (the `catch` prints and the loop
moves on); `confirm` is the trimmed, lower-cased answer to
`Proceed with hybrid tricky mint? (y/n)`. The status is printed and passed on;
no statement of `main` branches on it. -/
def mainWallet (nftAddr : String) (total gasLimit : Int) (publicDrop : PublicDrop)
    (clockAtCheck : Nat) (gasPrice : Option Int) (confirm : String) (clockAtGate : Nat)
    (submit : Nat → Option String) : WalletRun :=
  let dropStatus := checkDropStatus publicDrop clockAtCheck
  let price := publicDrop.mintPrice
  match gasPrice with
  | none => { statusLine := dropStatus.message, sent := none }
  | some gasPrice =>
    if confirm ≠ "y" then { statusLine := dropStatus.message, sent := none }
    else
      { statusLine := dropStatus.message
        sent := some (trickyMintHybridSend
          { nftAddr := nftAddr, price := price, gasPrice := gasPrice, gasLimit := gasLimit }
          total dropStatus clockAtGate submit) }

/-! ## The tick, entry by entry

The effect of one tick as a sum over the entries, used to state what the
`for` loop computes. -/

/-- The entry after its receipt query was answered by `ans`. -/
def entryAfter (ans : ReceiptAnswer) (tx : PendingTx) : PendingTx :=
  match ans with
  | .receipt _ => { tx with checked := true }
  | .noReceipt => tx
  | .throws => tx

/-- Whether the answer is a receipt with status 1. -/
def ReceiptAnswer.isSuccess : ReceiptAnswer → Bool
  | .receipt status => decide (status = 1)
  | _ => false

/-- Whether the answer carries a receipt. -/
def ReceiptAnswer.hasReceipt : ReceiptAnswer → Bool
  | .receipt _ => true
  | _ => false

/-- The ledger after a tick: each unchecked entry at position `j` becomes
`entryAfter (answer j)`, the checked ones stay. -/
def tickLedger (answer : Nat → ReceiptAnswer) (txs : List PendingTx) : List PendingTx :=
  txs.enum.map (fun jt => if jt.2.checked then jt.2 else entryAfter (answer jt.1) jt.2)

/-- Number of unchecked entries whose query returns a receipt with status 1. -/
def tickConfirmed (answer : Nat → ReceiptAnswer) (txs : List PendingTx) : Nat :=
  txs.enum.countP (fun jt => !jt.2.checked && (answer jt.1).isSuccess)

/-- Number of unchecked entries whose query returns no receipt or throws. -/
def tickStillPending (answer : Nat → ReceiptAnswer) (txs : List PendingTx) : Nat :=
  txs.enum.countP (fun jt => !jt.2.checked && !(answer jt.1).hasReceipt)

/-- The answers `answer` with the `no receipt` answers at the positions
selected by `sel` replaced by a thrown error. -/
def withThrows (sel : Nat → Bool) (answer : Nat → ReceiptAnswer) : Nat → ReceiptAnswer :=
  fun j => if sel j && decide (answer j = .noReceipt) then .throws else answer j

/-- Number of `Final Result` lines in the output. -/
def countFinal (output : List LogLine) : Nat :=
  output.countP (fun l => match l with | .finalResult _ _ => true | _ => false)

/-! ## Concrete inputs -/

/-- Call parameters used to instantiate the theorems. -/
def exampleParams : MintParams :=
  { nftAddr := "0xNFT", price := 5, gasPrice := 7, gasLimit := 150000 }

/-- A sale window open from second 100 to second 200. -/
def exampleDrop : PublicDrop :=
  { mintPrice := 5, startTime := 100, endTime := 200 }

/-- An endpoint that rejects the first submission and accepts the later ones. -/
def exampleSubmit : Nat → Option String :=
  fun k => if k = 1 then none else some "0xaa"


/-- A ledger of three unchecked entries. -/
def exampleLedger : List PendingTx :=
  [{ hash := "0xaa", index := 1, checked := false },
   { hash := "0xbb", index := 2, checked := false },
   { hash := "0xcc", index := 3, checked := false }]

/-- The poller state in which `setInterval` is called on `exampleLedger`. -/
def examplePoller : PollerState :=
  { pendingTxs := exampleLedger, confirmedCount := 0, intervalActive := true,
    output := [], effects := [] }

/-- An endpoint that confirms the first entry, has no receipt for the second
and reports the third as failed. -/
def exampleAnswer : Nat → ReceiptAnswer :=
  fun j => if j = 0 then .receipt 1 else if j = 1 then .noReceipt else .receipt 0

/-- An endpoint that accepts every submission: `0xaa` for the first call,
`0xbb` for the later ones. -/
def acceptAll : Nat → Option String :=
  fun k => if k = 1 then some "0xaa" else some "0xbb"

/-- The status object of an active drop. -/
def activeStatus : DropStatus :=
  { valid := true, reason := .DROP_ACTIVE, message := .isActive, startTime := none }

/-- The event loop at the call of `setInterval`, after a phase 1 in which
every submission was accepted. -/
def pollerAfterSend (total : Int) : EventLoop :=
  { shared := PollerState.start
      (trickyMintHybridSend exampleParams total activeStatus 150000 acceptAll).1
    waiting := [] }

/-- One entry, two runs of the callback in flight: the timer fires a second
time before the first receipt query has returned, then both queries return
the same successful receipt. -/
def overlapOneEntry : List PollEvent :=
  [.timer, .timer, .answer 0 (.receipt 1), .answer 0 (.receipt 1)]

/-- Two entries, two runs of the callback in flight: both runs query the first
entry and get its successful receipt, both go on to the second entry, and the
first run is told that the second entry has no receipt yet. -/
def overlapTwoEntries : List PollEvent :=
  [.timer, .timer, .answer 0 (.receipt 1), .answer 1 (.receipt 1), .answer 0 .noReceipt]

/-! ## The whole function and what it prints at the end -/

/-- The function `trickyMintHybrid` with `ticks` ticks of the poller that run
one after another: phase 1, then `setInterval` on the ledger phase 1 left.
The result is the loop variables of phase 1, the effects of phase 1, and the
poller state after the ticks; `answers t j` answers the query of tick `t` for
the entry at position `j`. -/
def trickyMintHybrid (p : MintParams) (total : Int) (dropStatus : DropStatus)
    (dateNow : Nat) (submit : Nat → Option String) (answers : Nat → Nat → ReceiptAnswer)
    (ticks : Nat) : DispatchState × List Effect × PollerState :=
  let r := trickyMintHybridSend p total dropStatus dateNow submit
  (r.1, r.2, pollTicks total r.1.successCount answers ticks (PollerState.start r.1))

/-- Whether an effect is a receipt query. -/
def Effect.isReceiptQuery : Effect → Bool
  | .getTransactionReceipt _ => true
  | _ => false

/-- The lines of the final report in the output: the `Final Result` lines and
the warning that follows them. -/
def finalReport (output : List LogLine) : List LogLine :=
  output.filter (fun l => match l with
    | .finalResult _ _ => true
    | .pendingWarning => true
    | _ => false)

/-- An endpoint that returns the same hash for every submission. -/
def sameHash : Nat → Option String :=
  fun _ => some "0xaa"

/-- An endpoint that accepts the first two submissions and rejects the rest. -/
def acceptTwo : Nat → Option String :=
  fun k => if k = 1 then some "0xaa" else if k = 2 then some "0xbb" else none

/-- An endpoint that confirms the first entry and reports the others as
failed. -/
def exampleAnswerDone : Nat → ReceiptAnswer :=
  fun j => if j = 0 then .receipt 1 else .receipt 0

/-- Two entries, two runs of the callback in flight, every query answered by a
successful receipt: both runs count the first entry, then the first run counts
the second entry and ends. -/
def overlapAllConfirmed : List PollEvent :=
  [.timer, .timer, .answer 0 (.receipt 1), .answer 1 (.receipt 1), .answer 0 (.receipt 1)]


/-- The event loop at the call of `setInterval`: the ledger phase 1 left and no
run of the callback in flight. -/
def EventLoop.start (d : DispatchState) : EventLoop :=
  { shared := PollerState.start d, waiting := [] }


/-- The effects of a whole run of `trickyMintHybrid` in program order: those of
phase 1, then the receipt queries of the ticks, which start only after the
call of `setInterval` that follows the loop. -/
def trickyMintHybridTrace (p : MintParams) (total : Int) (dropStatus : DropStatus)
    (dateNow : Nat) (submit : Nat → Option String) (answers : Nat → Nat → ReceiptAnswer)
    (ticks : Nat) : List Effect :=
  (trickyMintHybrid p total dropStatus dateNow submit answers ticks).2.1 ++
    (trickyMintHybrid p total dropStatus dateNow submit answers ticks).2.2.effects


/-! ## The JavaScript runtime and the ethers library, as far as the gas price
resolver uses them

None of this is code of the repository. Strings are lists of code points.
`String.prototype.trim`, `String.prototype.replace`, `parseFloat`,
`Number.prototype.toString` and ethers v5 `parseUnits` are written out; numbers
are IEEE 754 doubles given as `m * 2^t`. -/

/-- WhiteSpace and LineTerminator code points of ECMAScript: what `trim` and
`parseFloat` strip. -/
def isJsWhiteSpace (c : Char) : Bool :=
  let n := c.toNat
  n == 0x09 || n == 0x0A || n == 0x0B || n == 0x0C || n == 0x0D || n == 0x20 || n == 0xA0 ||
  n == 0x1680 || (0x2000 ≤ n && n ≤ 0x200A) || n == 0x2028 || n == 0x2029 ||
  n == 0x202F || n == 0x205F || n == 0x3000 || n == 0xFEFF

/-- The method `String.prototype.trim`. -/
def jsTrim (s : List Char) : List Char :=
  ((s.dropWhile isJsWhiteSpace).reverse.dropWhile isJsWhiteSpace).reverse

/-- The method `String.prototype.toLowerCase`. On ASCII text it maps `A`-`Z` to
`a`-`z`; for text with other code points the Unicode case mapping is the
argument `unicodeLower`. -/
def toLowerCase (unicodeLower : List Char → List Char) (s : List Char) : List Char :=
  if s.all (fun c => decide (c.toNat < 128)) then s.map Char.toLower else unicodeLower s

/-- The call `s.replace(pat, "")` with a string pattern: the first occurrence
of `pat` is removed. -/
def removeFirst (pat : List Char) : List Char → List Char
  | [] => []
  | c :: rest =>
    if pat.isPrefixOf (c :: rest) then (c :: rest).drop pat.length
    else c :: removeFirst pat rest

/-- The value of a string of decimal digits. -/
def digitsValue (ds : List Char) : Nat :=
  ds.foldl (fun acc c => acc * 10 + (c.toNat - 48)) 0

/-- The decimal digits of a number, most significant first; `fuel` bounds the
number of digits. -/
def natDigits : Nat → Nat → List Char
  | 0, _ => []
  | fuel + 1, n =>
    if n < 10 then [Char.ofNat (48 + n)]
    else natDigits fuel (n / 10) ++ [Char.ofNat (48 + n % 10)]

/-- The decimal text of a natural number. -/
def natText (n : Nat) : List Char :=
  natDigits (n + 1) n

/-- A Number value: `NaN`, an infinity, or a finite double `± m * 2^t`. -/
inductive JsNumber where
  | nan
  | infinity (negative : Bool)
  | finite (negative : Bool) (m : Nat) (t : Int)
deriving DecidableEq, Repr

/-- The integer part of the binary logarithm, by `fuel` halvings. -/
def log2Fuel : Nat → Nat → Nat
  | 0, _ => 0
  | fuel + 1, n => if 2 ≤ n then log2Fuel fuel (n / 2) + 1 else 0

/-- The integer part of the binary logarithm of `n`; 0 for `n = 0`. -/
def floorLog2 (n : Nat) : Nat :=
  log2Fuel n n

/-- The integer `e` with `2^e ≤ P / Q < 2^(e+1)`, for `P, Q > 0`. -/
def binaryExponent (P Q : Nat) : Int :=
  let e0 : Int := (floorLog2 P : Int) - (floorLog2 Q : Int)
  if Q * 2 ^ e0.toNat ≤ P * 2 ^ (-e0).toNat then e0 else e0 - 1

/-- The integer nearest to `num / den`, the even one of two that are equally
near. -/
def roundHalfEven (num den : Nat) : Nat :=
  let q := num / den
  let r := num % den
  if 2 * r < den then q else if den < 2 * r then q + 1
  else if q % 2 = 0 then q else q + 1

/-- The significand `m` and exponent `t` of a rounded value in their final
form: a significand of `2^53` is `2^52` one exponent up, and an exponent above
971 is an overflow to infinity (`none`). -/
def normalizeDouble (m : Nat) (t : Int) : Option (Nat × Int) :=
  let mt : Nat × Int := if m = 2 ^ 53 then (2 ^ 52, t + 1) else (m, t)
  if mt.2 > 971 then none else some mt

/-- The double nearest to `P / Q` for `P, Q > 0`, ties to even, as `(m, t)`
with value `m * 2^t`: `2^52 ≤ m < 2^53`, or `m < 2^52` and `t = -1074`.
The result is `none` when the value rounds to infinity. -/
def roundRatio (P Q : Nat) : Option (Nat × Int) :=
  let t : Int := max (binaryExponent P Q - 52) (-1074)
  normalizeDouble (roundHalfEven (P * 2 ^ (-t).toNat) (Q * 2 ^ t.toNat)) t

/-- The Number value of the decimal `M * 10^E`. -/
def roundDecimal (negative : Bool) (M : Nat) (E : Int) : JsNumber :=
  if M = 0 then .finite negative 0 (-1074)
  else
    match roundRatio (M * 10 ^ E.toNat) (10 ^ (-E).toNat) with
    | some (m, t) => .finite negative m t
    | none => .infinity negative

/-- The value of an optional ExponentPart at the start of `s`; 0 when there is
none. -/
def lexExponent (s : List Char) : Int :=
  match s with
  | c :: rest =>
    if c = 'e' ∨ c = 'E' then
      match rest with
      | '+' :: r =>
        if (r.takeWhile Char.isDigit).isEmpty then 0
        else (digitsValue (r.takeWhile Char.isDigit) : Int)
      | '-' :: r =>
        if (r.takeWhile Char.isDigit).isEmpty then 0
        else - (digitsValue (r.takeWhile Char.isDigit) : Int)
      | r =>
        if (r.takeWhile Char.isDigit).isEmpty then 0
        else (digitsValue (r.takeWhile Char.isDigit) : Int)
    else 0
  | [] => 0

/-- The longest prefix of `s` that is a StrUnsignedDecimalLiteral, as a Number
value with the given sign; `NaN` when there is none. -/
def lexUnsigned (negative : Bool) (s : List Char) : JsNumber :=
  if "Infinity".toList.isPrefixOf s then .infinity negative
  else
    let ip := s.takeWhile Char.isDigit
    let r1 := s.dropWhile Char.isDigit
    match r1 with
    | '.' :: r2 =>
      let fp := r2.takeWhile Char.isDigit
      let r3 := r2.dropWhile Char.isDigit
      if ip.isEmpty && fp.isEmpty then .nan
      else roundDecimal negative (digitsValue (ip ++ fp)) (lexExponent r3 - (fp.length : Int))
    | _ =>
      if ip.isEmpty then .nan
      else roundDecimal negative (digitsValue ip) (lexExponent r1)

/-- The function `parseFloat`. -/
def parseFloat (s : List Char) : JsNumber :=
  match s.dropWhile isJsWhiteSpace with
  | '+' :: rest => lexUnsigned false rest
  | '-' :: rest => lexUnsigned true rest
  | rest => lexUnsigned false rest

/-- The integer `n` with `10^(n-1) ≤ A / B < 10^n`, for `A / B ≥ 1`. -/
def decimalExponentUp (A B : Nat) : Nat :=
  (natText (A / B)).length

/-- The least `j ≥ 1`, at most `fuel + j0`, with `B ≤ A * 10^j`, searched from
`j0` on: then `10^(-j) ≤ A / B < 10^(1-j)` when `A / B < 1`. -/
def decimalExponentDown (A B : Nat) : Nat → Nat → Nat
  | 0, j => j
  | fuel + 1, j => if B ≤ A * 10 ^ j then j else decimalExponentDown A B fuel (j + 1)

/-- One candidate of `k` digits for the shortest decimal of the double
`(m, t)`: the digits `s` and the exponent `n`, with value `s * 10^(n-k)`, when
that decimal is rounded to `(m, t)`. A candidate `10^k` is the one digit 1 one
decade up. -/
def candidate (m : Nat) (t : Int) (n : Int) (k : Nat) (s : Nat) : Option (Nat × Int) :=
  let sn : Nat × Int := if s = 10 ^ k then (10 ^ (k - 1), n + 1) else (s, n)
  if roundRatio (sn.1 * 10 ^ (sn.2 - k).toNat) (10 ^ (k - sn.2).toNat) = some (m, t)
  then some sn else none

/-- The digits `s` and exponent `n` of a decimal of `k` digits that is rounded
to the double `(m, t)`, the one nearest to it when both neighbours are;
`n0` is the decimal exponent of the double itself. -/
def shortestAt (m : Nat) (t : Int) (n0 : Int) (k : Nat) : Option (Nat × Int) :=
  let A := m * 2 ^ t.toNat * 10 ^ (k - n0).toNat
  let B := 2 ^ (-t).toNat * 10 ^ (n0 - k).toNat
  let lo := A / B
  let r := A % B
  match candidate m t n0 k lo, candidate m t n0 k (lo + 1) with
  | some a, some b =>
    if 2 * r < B then some a else if B < 2 * r then some b
    else if lo % 2 = 0 then some a else some b
  | some a, none => some a
  | none, some b => some b
  | none, none => none

/-- The first `k`, from `k` up and with `fuel` tries, that has a decimal
rounded to the double: the integers `n`, `k`, `s` of `Number::toString`. -/
def shortestFrom (m : Nat) (t : Int) (n0 : Int) : Nat → Nat → Option (Nat × Nat × Int)
  | 0, _ => none
  | fuel + 1, k =>
    match shortestAt m t n0 k with
    | some (s, n) => some (k, s, n)
    | none => shortestFrom m t n0 fuel (k + 1)

/-- The digits of `s` padded on the left with zeros to `k` digits. -/
def padDigits (k s : Nat) : List Char :=
  List.replicate (k - (natText s).length) '0' ++ natText s

/-- The text of `Number::toString` for the integers `n`, `k`, `s`. -/
def formatDecimal (k s : Nat) (n : Int) : List Char :=
  let ds := padDigits k s
  if (k : Int) ≤ n ∧ n ≤ 21 then ds ++ List.replicate (n - k).toNat '0'
  else if 0 < n ∧ n ≤ 21 then ds.take n.toNat ++ ['.'] ++ ds.drop n.toNat
  else if -6 < n ∧ n ≤ 0 then ['0', '.'] ++ List.replicate (-n).toNat '0' ++ ds
  else
    let e := n - 1
    let es := (if e < 0 then ['-'] else ['+']) ++ natText e.natAbs
    if k = 1 then ds ++ ['e'] ++ es
    else ds.take 1 ++ ['.'] ++ ds.drop 1 ++ ['e'] ++ es

/-- The method `Number.prototype.toString` with radix 10. -/
def numberToString : JsNumber → List Char
  | .nan => "NaN".toList
  | .infinity negative => (if negative then ['-'] else []) ++ "Infinity".toList
  | .finite negative m t =>
    if m = 0 then ['0']
    else
      let A := m * 2 ^ t.toNat
      let B := 2 ^ (-t).toNat
      let n0 : Int :=
        if B ≤ A then (decimalExponentUp A B : Int)
        else 1 - (decimalExponentDown A B 400 1 : Int)
      match shortestFrom m t n0 17 1 with
      | some (k, s, n) => (if negative then ['-'] else []) ++ formatDecimal k s n
      | none => []

/-- The function `parseFixed(value, decimals)` of ethers v5, which
`parseUnits(value, "gwei")` calls with `decimals = 9`; `none` when it throws. -/
def parseFixed (value : List Char) (decimals : Nat) : Option Int :=
  let negative := value.head? = some '-'
  let body := if negative then value.drop 1 else value
  -- `value.match(/^-?[0-9.]+$/)`
  if body.isEmpty || !body.all (fun c => c.isDigit || c == '.') then none
  else if body = ['.'] then none
  else
    let whole0 := body.takeWhile (fun c => c != '.')
    let rest := body.dropWhile (fun c => c != '.')
    let fraction0 := rest.drop 1
    -- `comps.length > 2`
    if fraction0.any (fun c => c == '.') then none
    else
      let whole := if whole0.isEmpty then ['0'] else whole0
      let fraction1 := if fraction0.isEmpty then ['0'] else fraction0
      let fraction2 := (fraction1.reverse.dropWhile (fun c => c == '0')).reverse
      if fraction2.length > decimals then none
      else
        let fraction3 := if fraction2.isEmpty then ['0'] else fraction2
        let fraction := fraction3 ++ List.replicate (decimals - fraction3.length) '0'
        let wei : Int := (digitsValue whole : Int) * (10 ^ decimals : Nat) + digitsValue fraction
        some (if negative then wei * (-1) else wei)

/-- The call `ethers.utils.parseUnits(value, "gwei")`. -/
def parseUnitsGwei (value : List Char) : Option Int :=
  parseFixed value 9

/-! ## The gas price resolver -/

/-- What one call of the gas price resolver does: the value its promise
resolves to (`none` when it rejects), the number of `provider.getGasPrice()`
calls, and whether the `catch` block printed its warning. -/
structure GasResolution where
  result : Option Int
  queries : Nat
  warned : Bool
deriving DecidableEq, Repr

/-- The test `!input || input.trim() === ""`; `none` is an absent input. -/
def isBlank (input : Option String) : Bool :=
  match input with
  | none => true
  | some s => s.toList.isEmpty || (jsTrim s.toList).isEmpty

/-- The value `gas.mul(num).div(den)` of the answer to a `getGasPrice` call;
`none` when the call fails. The answer is a non-negative big integer. -/
def scaledGasPrice (num den : Nat) (answer : Option Nat) : Option Int :=
  answer.map (fun gas => ((gas * num / den : Nat) : Int))

/-- The text handed to `parseUnits` in `new.js` and `new5.js`:
`parseFloat(input.toLowerCase().replace("gwei", "").trim()).toString()`. -/
def gweiText (unicodeLower : List Char → List Char) (input : String) : List Char :=
  numberToString (parseFloat (jsTrim (removeFirst "gwei".toList
    (toLowerCase unicodeLower input.toList))))

/-- The text handed to `parseUnits` in `main.js`:
`parseFloat(input.trim().toLowerCase().replace("gwei", "").trim()).toString()`. -/
def gweiTextMain (unicodeLower : List Char → List Char) (input : String) : List Char :=
  numberToString (parseFloat (jsTrim (removeFirst "gwei".toList
    (toLowerCase unicodeLower (jsTrim input.toList)))))

/-- The function `parseGasPrice(input, provider)` of `new5.js`. `getGasPrice k`
is the answer to the `k`-th call of `provider.getGasPrice()`, `none` when the
call fails. The function is not `async`: its `try` covers the parse, and the
promise of the blank path is returned as it is. -/
def parseGasPrice (unicodeLower : List Char → List Char) (input : Option String)
    (getGasPrice : Nat → Option Nat) : GasResolution :=
  if isBlank input then
    { result := scaledGasPrice 105 100 (getGasPrice 1), queries := 1, warned := false }
  else
    match parseUnitsGwei (gweiText unicodeLower (input.getD "")) with
    | some wei => { result := some wei, queries := 0, warned := false }
    | none =>
      { result := scaledGasPrice 105 100 (getGasPrice 1), queries := 1, warned := true }

/-- The function `parseGasPrice(input, provider)` of `new.js`: as in `new5.js`
with the multiplier `120 / 100`. -/
def NewJs.parseGasPrice (unicodeLower : List Char → List Char) (input : Option String)
    (getGasPrice : Nat → Option Nat) : GasResolution :=
  if isBlank input then
    { result := scaledGasPrice 120 100 (getGasPrice 1), queries := 1, warned := false }
  else
    match parseUnitsGwei (gweiText unicodeLower (input.getD "")) with
    | some wei => { result := some wei, queries := 0, warned := false }
    | none =>
      { result := scaledGasPrice 120 100 (getGasPrice 1), queries := 1, warned := true }

/-- The function `parseGasPriceGweiInput(input, provider)` of `main.js`. It is
`async` and awaits `getGasPrice` inside the `try`, so a failed call on the
blank path is caught too and the call is made again in the `catch`. -/
def parseGasPriceGweiInput (unicodeLower : List Char → List Char) (input : Option String)
    (getGasPrice : Nat → Option Nat) : GasResolution :=
  if isBlank input then
    match getGasPrice 1 with
    | some gas => { result := some ((gas * 12 / 10 : Nat) : Int), queries := 1, warned := false }
    | none => { result := scaledGasPrice 12 10 (getGasPrice 2), queries := 2, warned := true }
  else
    match parseUnitsGwei (gweiTextMain unicodeLower (input.getD "")) with
    | some wei => { result := some wei, queries := 0, warned := false }
    | none =>
      { result := scaledGasPrice 12 10 (getGasPrice 1), queries := 1, warned := true }

/-- An endpoint whose suggested gas price is `p` at every call. -/
def suggests (p : Nat) : Nat → Option Nat :=
  fun _ => some p


/-! ## `getProviderWithFallback` of `main.js` -/

/-- The value `rpcs[chainId]` read from `rpc.json`, as the test
`!chainRPCs || !Array.isArray(chainRPCs) || chainRPCs.length === 0` sees it. -/
inductive RpcEntry where
  /-- The value `undefined` or another falsy value. -/
  | missing
  /-- A truthy value that is not an array. -/
  | notArray
  /-- An array of URLs. -/
  | urls (list : List String)
deriving DecidableEq, Repr

/-- How a call of `getProviderWithFallback` ends. -/
inductive ProviderResult where
  /-- It returns the provider built on `rpcUrl`. -/
  | provider (rpcUrl : String)
  /-- It throws `Error("No RPCs configured for chain ID ...")`. -/
  | noRpcsConfigured
  /-- It throws `Error("All RPCs failed for chain ID ...")`. -/
  | allRpcsFailed
  /-- It throws `ReferenceError: spinner is not defined`. -/
  | referenceError
deriving DecidableEq, Repr

/-- The loop `for (const rpcUrl of chainRPCs)` with its `try` / `catch`.
`getNetwork rpcUrl` tells whether `await provider.getNetwork()` resolves for
the provider of that URL. The `catch` block is the one statement
`spinner.stop(...)`; `spinnerInScope` tells whether the name `spinner` is bound
where that statement stands. When it is not, evaluating the name throws a
`ReferenceError` out of the `catch` block, hence out of the function. The
result comes with the URLs whose `getNetwork` was called, in order. -/
def tryRpcs (spinnerInScope : Bool) (getNetwork : String → Bool) :
    List String → ProviderResult × List String
  | [] => (.allRpcsFailed, [])
  | rpcUrl :: rest =>
    if getNetwork rpcUrl then (.provider rpcUrl, [rpcUrl])
    else if spinnerInScope then
      let r := tryRpcs spinnerInScope getNetwork rest
      (r.1, rpcUrl :: r.2)
    else (.referenceError, [rpcUrl])

/-- The function `getProviderWithFallback(chainId)` of `main.js`, for the entry
`rpcs[chainId]`. The only declaration of `spinner` in reach is the `const`
inside the `try` block, whose scope ends with that block, and the module
declares no `spinner` of its own: in the `catch` block the name is unbound. -/
def getProviderWithFallback (entry : RpcEntry) (getNetwork : String → Bool) :
    ProviderResult × List String :=
  match entry with
  | .missing => (.noRpcsConfigured, [])
  | .notArray => (.noRpcsConfigured, [])
  | .urls list =>
    if list.length = 0 then (.noRpcsConfigured, [])
    else tryRpcs false getNetwork list

/-- An endpoint list whose first URL is down and whose second URL is up. -/
def secondRpcUp : String → Bool :=
  fun rpcUrl => decide (rpcUrl = "https://rpc-b")


/-! ## The wallet loop of `main` in `new5.js`, with a clock

The body of `for (const pk of privateKeys)` as a function of what `main` read
before the loop and of what the outside world answers during the pass. Time is
counted in milliseconds: it advances while `main` waits for a call to settle
and stands still otherwise, and `Date.now()` reads it. -/

/-- What `main` has read before the wallet loop. -/
structure RunConfig where
  /-- The list `selectedChain.rpcs`. -/
  rpcs : List String
  /-- The checksummed answer to `Input NFT Contract Address`. -/
  nftAddr : String
  /-- The value `parseInt` of the answer to `How many NFTs to mint per wallet?`. -/
  total : Int
  /-- The trimmed answer to the gas price question. -/
  gasInput : String
  /-- The trimmed answer to the gas limit question. -/
  gasLimitInput : String
  /-- The value `parseInt(gasLimitInput)`; `none` is `NaN`. -/
  parsedGasLimit : Option Int

/-- What the outside world does during the pass of one wallet. A field that
ends in `Ms` is the time the awaited call takes to settle. -/
structure WalletWorld where
  /-- Whether `new ethers.Wallet(pk)` accepts the key. -/
  validKey : Bool
  /-- Whether `provider.getNetwork()` resolves for the provider of a URL. -/
  getNetwork : String → Bool
  getNetworkMs : String → Nat
  /-- The answer of `getPublicDrop(nftAddr)`; `none` when the call throws. -/
  getPublicDrop : Option PublicDrop
  getPublicDropMs : Nat
  /-- The answer of `getBalance`; `none` when the call throws. -/
  getBalance : Option Nat
  getBalanceMs : Nat
  /-- The answer to the `k`-th `getGasPrice` call; `none` when it fails. -/
  getGasPrice : Nat → Option Nat
  getGasPriceMs : Nat
  /-- The trimmed, lower-cased answer to `Proceed with hybrid tricky mint?`. -/
  confirm : String
  confirmMs : Nat
  /-- The outcome of the `k`-th `mintMulti` call: the hash, or `none` when it
  throws. -/
  submit : Nat → Option String
  submitMs : Nat → Nat
  /-- The answer to the receipt query of tick `t` for the entry at position
  `j`. -/
  answers : Nat → Nat → ReceiptAnswer

/-- The calls that a pass of the wallet loop waits for. -/
inductive Call where
  /-- The call `provider.getNetwork()` for the provider of `rpc`. -/
  | getNetwork (rpc : String)
  /-- The call `seaDropContract.getPublicDrop(nftAddr)`. -/
  | getPublicDrop (nftAddr : String)
  /-- The call `provider.getBalance(connectedWallet.address)`. -/
  | getBalance
  /-- The call `provider.getGasPrice()` made by `parseGasPrice`. -/
  | getGasPrice
  /-- The question `Proceed with hybrid tricky mint? (y/n)`. -/
  | question
  /-- A timed wait or a `mintMulti` call inside `trickyMintHybrid`. -/
  | engine (e : Effect)
deriving DecidableEq, Repr

/-- An awaited call and the time it takes to settle. -/
structure Step where
  call : Call
  ms : Nat
deriving DecidableEq, Repr

/-- The time a list of awaited calls takes. -/
def elapsed (steps : List Step) : Nat :=
  (steps.map (fun s => s.ms)).sum

/-- The time at which each call of a list begins, for a list that begins at
time `t`. -/
def stamp : Nat → List Step → List (Nat × Call)
  | _, [] => []
  | t, s :: rest => (t, s.call) :: stamp (t + s.ms) rest

/-- The loop `for (const rpc of selectedChain.rpcs)`: whether `connected` is
set, and the `getNetwork` calls made. -/
def connectRpc (w : WalletWorld) : List String → Bool × List Step
  | [] => (false, [])
  | rpc :: rest =>
    if w.getNetwork rpc then (true, [{ call := .getNetwork rpc, ms := w.getNetworkMs rpc }])
    else
      let r := connectRpc w rest
      (r.1, { call := .getNetwork rpc, ms := w.getNetworkMs rpc } :: r.2)

/-- The lines `let gasLimit = 150000; if (gasLimitInput && gasLimitInput.trim()
!== "") { gasLimit = parseInt(gasLimitInput); }`; `none` is `NaN`. -/
def chosenGasLimit (cfg : RunConfig) : Option Int :=
  if isBlank (some cfg.gasLimitInput) then some 150000 else cfg.parsedGasLimit

/-- The conversion `BigNumber.from(value)` of ethers v5 for a JavaScript number
that is an integer or `NaN` (`none`): it throws, here `none`, for `NaN` and
for a value outside the open range from `-(2^53 - 1)` to `2^53 - 1`. The
methods `mul` and `lt` convert a number argument this way. -/
def bigNumberFromNumber (value : Option Int) : Option Int :=
  match value with
  | none => none
  | some v => if v ≥ 9007199254740991 ∨ v ≤ -9007199254740991 then none else some v

/-- The delay, in milliseconds, after which Node.js runs a callback scheduled
with `setTimeout(callback, ms)` for an integer `ms`: a delay less than 1 or
larger than 2147483647 is set to 1. -/
def timerDelay (ms : Int) : Nat :=
  if ms < 1 ∨ ms > 2147483647 then 1 else ms.toNat

/-- The calls of phase 1 of `trickyMintHybrid` with their times: a wait takes
the delay Node.js gives its timer, the `k`-th `mintMulti` call takes
`submitMs k`. -/
def engineSteps (submitMs : Nat → Nat) : Nat → List Effect → List Step
  | _, [] => []
  | k, e :: rest =>
    match e with
    | .sleep ms => { call := .engine e, ms := timerDelay ms } :: engineSteps submitMs k rest
    | .mintMulti _ _ _ _ _ =>
      { call := .engine e, ms := submitMs (k + 1) } :: engineSteps submitMs (k + 1) rest
    | .getTransactionReceipt _ => { call := .engine e, ms := 0 } :: engineSteps submitMs k rest

/-- What one pass of the wallet loop did. -/
structure WalletPass where
  /-- The awaited calls, in program order. -/
  steps : List Step
  /-- Whether the two `Warning: Low balance!` lines were printed. -/
  lowBalanceWarning : Bool
  /-- Phase 1 of `trickyMintHybrid`, when the call is reached: the loop
  variables at the call of `setInterval` and the effects up to it. -/
  sent : Option (DispatchState × List Effect)
deriving DecidableEq, Repr

/-- The body of `for (const pk of privateKeys)` in `main`, after
`new ethers.Wallet(pk)`, for a pass that begins at time `start`.
`lowBalance balance price gasPrice gasLimit total` is the comparison
`balanceNative < totalNeeded` of doubles. Every `none` answer is a call that
throws inside the `try`: the `catch` prints and the loop goes to the next
wallet. The product `gasPrice.mul(gasLimit)` throws for a gas limit that
`BigNumber.from` rejects. -/
def walletPass (unicodeLower : List Char → List Char)
    (lowBalance : Nat → Nat → Int → Int → Int → Bool) (cfg : RunConfig) (w : WalletWorld)
    (start : Nat) : WalletPass :=
  let c := connectRpc w cfg.rpcs
  if c.1 = false then { steps := c.2, lowBalanceWarning := false, sent := none }
  else
    let s1 := c.2 ++ [{ call := .getPublicDrop cfg.nftAddr, ms := w.getPublicDropMs }]
    match w.getPublicDrop with
    | none => { steps := s1, lowBalanceWarning := false, sent := none }
    | some publicDrop =>
      let dropStatus := checkDropStatus publicDrop (start + elapsed s1)
      let price := publicDrop.mintPrice
      let s2 := s1 ++ [{ call := .getBalance, ms := w.getBalanceMs }]
      match w.getBalance with
      | none => { steps := s2, lowBalanceWarning := false, sent := none }
      | some balance =>
        let g := parseGasPrice unicodeLower (some cfg.gasInput) w.getGasPrice
        let s3 := s2 ++ List.replicate g.queries { call := .getGasPrice, ms := w.getGasPriceMs }
        match g.result with
        | none => { steps := s3, lowBalanceWarning := false, sent := none }
        | some gasPrice =>
          match bigNumberFromNumber (chosenGasLimit cfg) with
          | none => { steps := s3, lowBalanceWarning := false, sent := none }
          | some gasLimit =>
            let warned := lowBalance balance price gasPrice gasLimit cfg.total
            let s4 := s3 ++ [{ call := .question, ms := w.confirmMs }]
            if w.confirm ≠ "y" then { steps := s4, lowBalanceWarning := warned, sent := none }
            else
              let r := trickyMintHybridSend
                { nftAddr := cfg.nftAddr, price := price, gasPrice := gasPrice,
                  gasLimit := gasLimit }
                cfg.total dropStatus (start + elapsed s4) w.submit
              { steps := s4 ++ engineSteps w.submitMs 0 r.2, lowBalanceWarning := warned,
                sent := some r }

/-- One pass of the wallet loop on the clock: the time it begins, what it did,
the time it ends, and the world it ran in. When the pass reached
`trickyMintHybrid`, `finish` is the time of the `setInterval` call: the
function has no `await` after it, so the promise that `main` awaits is resolved
there. -/
structure WalletRecord where
  start : Nat
  pass : WalletPass
  finish : Nat
  world : WalletWorld

/-- The loop `for (const pk of privateKeys)` from time `clock` on, one world
for each key. A key that `new ethers.Wallet(pk)` rejects throws outside the
inner `try`: the `catch` of `main` prints `Fatal Error` and the loop is left. -/
def walletLoop (unicodeLower : List Char → List Char)
    (lowBalance : Nat → Nat → Int → Int → Int → Bool) (cfg : RunConfig) :
    List WalletWorld → Nat → List WalletRecord
  | [], _ => []
  | w :: rest, clock =>
    if w.validKey = false then []
    else
      let pass := walletPass unicodeLower lowBalance cfg w clock
      let finish := clock + elapsed pass.steps
      { start := clock, pass := pass, finish := finish, world := w } ::
        walletLoop unicodeLower lowBalance cfg rest finish

/-- The poller of a wallet at time `t`, when its pass reached
`trickyMintHybrid`. The interval is set at `finish`, so the callback runs for
the first time 2000 ms later and then every 2000 ms; each run is taken to end
before the next begins. Before `finish` there is no poller. -/
def pollerAt (cfg : RunConfig) (r : WalletRecord) (t : Nat) : Option PollerState :=
  if t < r.finish then none
  else r.pass.sent.map (fun d =>
    pollTicks cfg.total d.1.successCount r.world.answers ((t - r.finish) / 2000)
      (PollerState.start d.1))

/-- A run used to instantiate the theorems: one endpoint, one token per wallet,
blank answers to the gas questions. -/
def exampleConfig : RunConfig :=
  { rpcs := ["https://rpc-a"], nftAddr := "0xNFT", total := 1, gasInput := "",
    gasLimitInput := "", parsedGasLimit := none }

/-- A world in which every call succeeds: the drop of `exampleDrop`, a balance
of `balance`, a suggested gas price of 100, and receipts with status 1. -/
def exampleWorld (balance : Nat) : WalletWorld :=
  { validKey := true
    getNetwork := fun _ => true
    getNetworkMs := fun _ => 120
    getPublicDrop := some exampleDrop
    getPublicDropMs := 80
    getBalance := some balance
    getBalanceMs := 60
    getGasPrice := suggests 100
    getGasPriceMs := 40
    confirm := "y"
    confirmMs := 1000
    submit := fun _ => some "0xaa"
    submitMs := fun _ => 200
    answers := fun _ _ => .receipt 1 }

/-- The comparison `balance < (price + gasPrice * gasLimit) * total` in exact
arithmetic, standing for the comparison of doubles in the examples. -/
def exactLowBalance : Nat → Nat → Int → Int → Int → Bool :=
  fun balance price gasPrice gasLimit total =>
    decide ((balance : Int) < ((price : Int) + gasPrice * gasLimit) * total)

/-! ## The mint of `new.js` and of `main.js`

The two variants that send one transaction for the whole purchase. `total` is
the value of `parseInt`; `none` is `NaN`. -/

/-- What the outside world does during the pass of one wallet of `new.js`,
after the connection loop, which is the one of `new5.js`. -/
structure NewJs.World where
  /-- Whether the connection loop found an endpoint. -/
  connected : Bool
  /-- The answer of `getPublicDrop(nftAddr)`; `none` when the call throws. -/
  getPublicDrop : Option PublicDrop
  /-- The answer of `getBalance`; `none` when the call throws. -/
  getBalance : Option Nat
  /-- The answer to the `k`-th `getGasPrice` call; `none` when it fails. -/
  getGasPrice : Nat → Option Nat
  /-- The answer of `estimateGas.mintMulti`; `none` when the call throws. -/
  estimateGas : Option Nat
  /-- The trimmed, lower-cased answer to `Proceed with mint? (y/n)`. -/
  confirm : String

/-- The body of `for (const pk of privateKeys)` in `main` of `new.js`: the
`mintMulti` call it makes, `none` when the pass ends before the call. The
product `price.mul(total)` throws for a `total` that `BigNumber.from` rejects;
a negative `total` throws when ethers encodes it as the `uint256` argument of
`estimateGas.mintMulti`. -/
def NewJs.walletPass (unicodeLower : List Char → List Char) (nftAddr : String)
    (total : Option Int) (gasInput : String) (w : NewJs.World) : Option Effect :=
  if w.connected = false then none
  else
    match w.getPublicDrop with
    | none => none
    | some publicDrop =>
      let price := publicDrop.mintPrice
      match w.getBalance with
      | none => none
      | some balance =>
        match bigNumberFromNumber total with
        | none => none
        | some quantity =>
          -- `if (balance.lt(price.mul(total))) { ...; continue; }`
          if (balance : Int) < (price : Int) * quantity then none
          else
            match (NewJs.parseGasPrice unicodeLower (some gasInput) w.getGasPrice).result with
            | none => none
            | some gasPrice =>
              if quantity < 0 then none
              else
                match w.estimateGas with
                | none => none
                | some gasEstimate =>
                  if w.confirm ≠ "y" then none
                  else
                    some (.mintMulti quantity.toNat nftAddr ((price : Int) * quantity).toNat
                      gasPrice ((gasEstimate * 120 / 100 : Nat) : Int))

/-- What the outside world does during one pass of `while (true)` in `main` of
`main.js`. -/
structure MainJs.Attempt where
  /-- The answer of `getTransactionCount` in `main`; `none` when it throws. -/
  nonce : Option Nat
  /-- The answer of `estimateGas.mintMulti`; `none` when the call throws. -/
  estimatedGas : Option Nat
  /-- The answer of `getTransactionCount` in `signSendWait`, which is called
  when `tx.nonce` is 0; `none` when it throws. -/
  nonceAgain : Option Nat
  /-- The status of the receipt that `sendTransaction` and `wait` end with;
  `none` when either throws. -/
  receiptStatus : Option Nat

/-- One pass of `while (true)`: the transaction handed to
`wallet.sendTransaction`, written as the `mintMulti` call that its `to` and
`data` fields encode, when the pass gets that far, and whether the loop is left
(`receipt.status === 1`). -/
def MainJs.attempt (nftAddr : String) (quantity : Nat) (value : Nat) (gasPrice : Int)
    (a : MainJs.Attempt) : Option Effect × Bool :=
  match a.nonce with
  | none => (none, false)
  | some nonce =>
    match a.estimatedGas with
    | none => (none, false)
    | some estimatedGas =>
      -- `if (!tx.nonce) { tx.nonce = await provider.getTransactionCount(wallet.address); }`
      if nonce = 0 ∧ a.nonceAgain = none then (none, false)
      else
        (some (.mintMulti quantity nftAddr value gasPrice ((estimatedGas * 12 / 10 : Nat) : Int)),
         decide (a.receiptStatus = some 1))

/-- The loop `while (true)` of `main.js`, cut after `fuel` passes: the
transactions sent, in order. `attempts k` is the world of pass `k`. -/
def MainJs.mintLoop (nftAddr : String) (quantity : Nat) (value : Nat) (gasPrice : Int)
    (attempts : Nat → MainJs.Attempt) : Nat → Nat → List Effect
  | 0, _ => []
  | fuel + 1, k =>
    let r := MainJs.attempt nftAddr quantity value gasPrice (attempts (k + 1))
    r.1.toList ++ (if r.2 then [] else MainJs.mintLoop nftAddr quantity value gasPrice attempts
      fuel (k + 1))

/-- The function `main` of `main.js` from the gas price question on, for a
connected wallet: the transactions sent in the first `fuel` passes of the mint
loop. A rejected gas price promise, a `total` that `price.mul(total)` rejects
and a failed balance lookup end `main` in its `catch`; a failed price lookup and
a balance below `price * total` end it with `return`. With a negative `total`
every pass throws at the encoding of the `uint256` argument. -/
def MainJs.run (unicodeLower : List Char → List Char) (gasInput : String)
    (getGasPrice : Nat → Option Nat) (nftAddr : String) (total : Option Int)
    (publicDrop : Option PublicDrop) (balance : Option Nat)
    (attempts : Nat → MainJs.Attempt) (fuel : Nat) : List Effect :=
  match (parseGasPriceGweiInput unicodeLower (some gasInput) getGasPrice).result with
  | none => []
  | some gasPrice =>
    match publicDrop with
    | none => []
    | some drop =>
      match bigNumberFromNumber total with
      | none => []
      | some quantity =>
        let requiredTotalCost : Int := (drop.mintPrice : Int) * quantity
        match balance with
        | none => []
        | some bal =>
          if (bal : Int) < requiredTotalCost then []
          else if quantity < 0 then []
          else MainJs.mintLoop nftAddr quantity.toNat requiredTotalCost.toNat gasPrice attempts
            fuel 0

/-- A world of `new.js` in which every call succeeds. -/
def NewJs.exampleWorld : NewJs.World :=
  { connected := true, getPublicDrop := some exampleDrop, getBalance := some 1000,
    getGasPrice := suggests 100, estimateGas := some 100000, confirm := "y" }

/-- A mint loop of `main.js` whose first pass fails at the gas estimate, whose
second transaction is reverted and whose third succeeds. -/
def MainJs.exampleAttempts : Nat → MainJs.Attempt :=
  fun k =>
    if k = 1 then { nonce := some 4, estimatedGas := none, nonceAgain := none,
                    receiptStatus := none }
    else if k = 2 then { nonce := some 4, estimatedGas := some 100000, nonceAgain := none,
                         receiptStatus := some 0 }
    else { nonce := some 5, estimatedGas := some 90000, nonceAgain := none,
           receiptStatus := some 1 }


/-- A sale window that opens 30 days after second 151. -/
def farDrop : PublicDrop :=
  { mintPrice := 5, startTime := 2592151, endTime := 2600000 }

/-- The world of `exampleWorld 0` with the drop `farDrop`. -/
def farDropWorld : WalletWorld :=
  { exampleWorld 0 with getPublicDrop := some farDrop }

/-- An endpoint that accepts every submission, with the hashes `0xaa`, `0xbb`
and `0xcc` for the first three. -/
def acceptThree : Nat → Option String :=
  fun k => if k = 1 then some "0xaa" else if k = 2 then some "0xbb" else some "0xcc"

/-- Three entries, two runs of the callback in flight, every query answered by
a receipt with status 1. The timer fires a second time before the first query
has returned. Both runs are told that `0xaa` succeeded, then the first run is
told so for `0xbb` and for `0xcc` and ends. -/
def overlapThreeConfirmed : List PollEvent :=
  [.timer, .timer, .answer 0 (.receipt 1), .answer 1 (.receipt 1), .answer 0 (.receipt 1),
   .answer 0 (.receipt 1)]

/-! # Theorems -/

/-! ## Dispatch loop: lemmas -/

theorem attempt_attemptCount (o : Option String) (st : DispatchState) :
    (attempt o st).attemptCount = st.attemptCount + 1 := by
  cases o <;> rfl

theorem afterAttempts_attemptCount (submit : Nat → Option String) (n : Nat) :
    (afterAttempts submit n).attemptCount = n := by
  induction n with
  | zero => rfl
  | succ n ih => simp [afterAttempts, attempt_attemptCount, ih]

theorem afterAttempts_succ (submit : Nat → Option String) (n : Nat) :
    attempt (submit ((afterAttempts submit n).attemptCount + 1)) (afterAttempts submit n)
      = afterAttempts submit (n + 1) := by
  rw [afterAttempts_attemptCount]; rfl

theorem countMint_cons_mint (p : MintParams) (es : List Effect) :
    countMint (mintCall p :: es) = countMint es + 1 := by
  simp [countMint, mintCall, Effect.isMint]

theorem countMint_cons_sleep (ms : Int) (es : List Effect) :
    countMint (Effect.sleep ms :: es) = countMint es := by
  simp [countMint, Effect.isMint]

theorem countMint_append (es fs : List Effect) :
    countMint (es ++ fs) = countMint es + countMint fs := by
  simp [countMint]

theorem countMint_waitForDrop (dropStatus : DropStatus) (dateNow : Nat) :
    countMint (waitForDrop dropStatus dateNow) = 0 := by
  unfold waitForDrop
  split
  · split
    · dsimp only
      split <;> simp [countMint, Effect.isMint]
    · rfl
  · rfl

/-- With enough fuel the loop started after `n` attempts stops after some
`N ≥ n` attempts, at the first `N` where the loop condition is false, having
made `N - n` calls. -/
theorem dispatchLoop_run (p : MintParams) (total : Int) (submit : Nat → Option String) :
    ∀ (fuel n : Nat), total * 2 ≤ (n : Int) + fuel →
      ∃ N, n ≤ N ∧
        (dispatchLoop p total submit fuel (afterAttempts submit n)).1 = afterAttempts submit N ∧
        loopGuard total (afterAttempts submit N) = false ∧
        (∀ k, n ≤ k → k < N → loopGuard total (afterAttempts submit k) = true) ∧
        countMint (dispatchLoop p total submit fuel (afterAttempts submit n)).2 = N - n := by
  intro fuel
  induction fuel with
  | zero =>
    intro n h
    refine ⟨n, le_refl _, rfl, ?_, ?_, by simp [dispatchLoop, countMint]⟩
    · simp only [loopGuard, afterAttempts_attemptCount, Bool.and_eq_false_imp, decide_eq_true_eq,
        decide_eq_false_iff_not, not_lt]
      intro _; simpa using h
    · intro k h1 h2; omega
  | succ fuel ih =>
    intro n h
    by_cases hg : loopGuard total (afterAttempts submit n) = true
    · by_cases hb : ((submit ((afterAttempts submit n).attemptCount + 1)).isSome &&
          decide (((attempt (submit ((afterAttempts submit n).attemptCount + 1))
            (afterAttempts submit n)).successCount : Int) ≥ total)) = true
      · have hr : dispatchLoop p total submit (fuel + 1) (afterAttempts submit n)
            = (afterAttempts submit (n + 1), [mintCall p]) := by
          rw [dispatchLoop]; simp only [hg, if_true]
          rw [if_pos hb, afterAttempts_succ]
        refine ⟨n + 1, Nat.le_succ _, by rw [hr], ?_, ?_, ?_⟩
        · rw [afterAttempts_succ] at hb
          simp only [Bool.and_eq_true, decide_eq_true_eq] at hb
          simp only [loopGuard, Bool.and_eq_false_imp, decide_eq_true_eq]
          intro h1; omega
        · intro k h1 h2
          have : k = n := by omega
          subst this; exact hg
        · rw [hr]; simp [countMint, mintCall, Effect.isMint]
      · have hr : dispatchLoop p total submit (fuel + 1) (afterAttempts submit n)
            = ((dispatchLoop p total submit fuel (afterAttempts submit (n + 1))).1,
                mintCall p :: Effect.sleep 50 ::
                  (dispatchLoop p total submit fuel (afterAttempts submit (n + 1))).2) := by
          rw [dispatchLoop]; simp only [hg, if_true]
          rw [if_neg hb, afterAttempts_succ]
        obtain ⟨N, hN, h1, h2, h3, h4⟩ := ih (n + 1) (by push_cast at h ⊢; omega)
        refine ⟨N, by omega, by rw [hr]; exact h1, h2, ?_, ?_⟩
        · intro k hk1 hk2
          by_cases hkn : k = n
          · subst hkn; exact hg
          · exact h3 k (by omega) hk2
        · rw [hr, countMint_cons_mint, countMint_cons_sleep, h4]; omega
    · have hg2 : loopGuard total (afterAttempts submit n) = false := by simpa using hg
      refine ⟨n, le_refl _, ?_, hg2, ?_, ?_⟩
      · rw [dispatchLoop]; simp [hg2]
      · intro k h1 h2; omega
      · rw [dispatchLoop]; simp [hg2, countMint]

/-- The loop cut after `fuel` iterations, while the loop condition still holds
before each of them, has made exactly `fuel` more attempts. -/
theorem dispatchLoop_prefix (p : MintParams) (total : Int) (submit : Nat → Option String)
    (N : Nat) (hN : ∀ k, k < N → loopGuard total (afterAttempts submit k) = true) :
    ∀ (fuel n : Nat), n + fuel ≤ N →
      (dispatchLoop p total submit fuel (afterAttempts submit n)).1
        = afterAttempts submit (n + fuel) := by
  intro fuel
  induction fuel with
  | zero => intro n _; rfl
  | succ fuel ih =>
    intro n h
    have hg := hN n (by omega)
    rw [dispatchLoop]; simp only [hg, if_true]
    rw [afterAttempts_succ]
    split
    · rename_i hb
      simp only [Bool.and_eq_true, decide_eq_true_eq] at hb
      by_cases hf : fuel = 0
      · subst hf; rfl
      · have hg2 := hN (n + 1) (by omega)
        simp only [loopGuard, Bool.and_eq_true, decide_eq_true_eq] at hg2
        omega
    · rw [ih (n + 1) (by omega)]
      congr 1; omega

/-- Any fuel that reaches the exit point gives the same final state. -/
theorem dispatchLoop_exact (p : MintParams) (total : Int) (submit : Nat → Option String)
    (N : Nat) (hN : ∀ k, k < N → loopGuard total (afterAttempts submit k) = true)
    (hx : loopGuard total (afterAttempts submit N) = false) :
    ∀ (fuel n : Nat), n ≤ N → N ≤ n + fuel →
      (dispatchLoop p total submit fuel (afterAttempts submit n)).1 = afterAttempts submit N := by
  intro fuel
  induction fuel with
  | zero =>
    intro n h1 h2
    have : n = N := by omega
    subst this; rfl
  | succ fuel ih =>
    intro n h1 h2
    by_cases hn : n = N
    · subst hn
      rw [dispatchLoop]; simp [hx]
    · have hg := hN n (by omega)
      rw [dispatchLoop]; simp only [hg, if_true]
      rw [afterAttempts_succ]
      split
      · rename_i hb
        simp only [Bool.and_eq_true, decide_eq_true_eq] at hb
        by_cases hf : n + 1 = N
        · subst hf; rfl
        · have hg2 := hN (n + 1) (by omega)
          simp only [loopGuard, Bool.and_eq_true, decide_eq_true_eq] at hg2
          omega
      · exact ih (n + 1) (by omega) (by omega)

theorem loopGuard_init (total : Int) (h : 1 ≤ total) :
    loopGuard total DispatchState.init = true := by
  simp only [loopGuard, DispatchState.init, Bool.and_eq_true, decide_eq_true_eq]
  constructor <;> push_cast <;> omega

/-- The run of phase 1 in terms of `afterAttempts`. -/
theorem trickyMintHybridSend_run (p : MintParams) (total : Int) (dropStatus : DropStatus)
    (dateNow : Nat) (submit : Nat → Option String) :
    ∃ N,
      (trickyMintHybridSend p total dropStatus dateNow submit).1 = afterAttempts submit N ∧
      loopGuard total (afterAttempts submit N) = false ∧
      (∀ k, k < N → loopGuard total (afterAttempts submit k) = true) ∧
      countMint (trickyMintHybridSend p total dropStatus dateNow submit).2 = N := by
  obtain ⟨N, _, h1, h2, h3, h4⟩ := dispatchLoop_run p total submit (total * 2).toNat 0
    (by have := Int.self_le_toNat (total * 2); push_cast; omega)
  refine ⟨N, h1, h2, fun k hk => h3 k (Nat.zero_le _) hk, ?_⟩
  show countMint (waitForDrop dropStatus dateNow ++ _) = N
  rw [countMint_append, countMint_waitForDrop]
  change 0 + countMint (dispatchLoop p total submit (total * 2).toNat (afterAttempts submit 0)).2 = N
  rw [h4]; omega

/-- C1. For `total ≥ 1` and any submission outcomes, phase 1 of
`trickyMintHybrid` makes exactly `attemptCount` calls of `mintMulti`, at most
`2 * total`; at exit `successCount == total` or `attemptCount == 2 * total`;
and before every attempt it made both `successCount < total` and
`attemptCount < 2 * total` held. The state before attempt `k + 1` is the loop
cut after `k` iterations. -/
theorem dispatch_attempt_budget (p : MintParams) (total : Int) (dropStatus : DropStatus)
    (dateNow : Nat) (submit : Nat → Option String) (h : 1 ≤ total) :
    let r := trickyMintHybridSend p total dropStatus dateNow submit
    countMint r.2 = r.1.attemptCount ∧
    (r.1.attemptCount : Int) ≤ 2 * total ∧
    ((r.1.successCount : Int) = total ∨ (r.1.attemptCount : Int) = 2 * total) ∧
    (∀ k, k < r.1.attemptCount →
      ((dispatchLoop p total submit k DispatchState.init).1.attemptCount = k ∧
       ((dispatchLoop p total submit k DispatchState.init).1.successCount : Int) < total ∧
       (k : Int) < 2 * total)) ∧
    (∀ fuel, r.1.attemptCount ≤ fuel →
      (dispatchLoop p total submit fuel DispatchState.init).1 = r.1) := by
  intro r
  obtain ⟨N, h1, h2, h3, h4⟩ := trickyMintHybridSend_run p total dropStatus dateNow submit
  have hN : r.1.attemptCount = N := by
    show (trickyMintHybridSend p total dropStatus dateNow submit).1.attemptCount = N
    rw [h1, afterAttempts_attemptCount]
  have hpos : 0 < N := by
    rcases Nat.eq_zero_or_pos N with h0 | h0
    · subst h0
      have := loopGuard_init total h
      rw [show afterAttempts submit 0 = DispatchState.init from rfl] at h2
      rw [h2] at this; cases this
    · exact h0
  have hprev := h3 (N - 1) (by omega)
  simp only [loopGuard, Bool.and_eq_true, decide_eq_true_eq, afterAttempts_attemptCount] at hprev
  have hsucc : (afterAttempts submit N).successCount ≤ (afterAttempts submit (N - 1)).successCount + 1 := by
    have : N = (N - 1) + 1 := by omega
    rw [this]; simp only [Nat.add_sub_cancel]
    rw [afterAttempts]
    cases submit (N - 1 + 1) <;> simp [attempt]
  have hexit := h2
  simp only [loopGuard, Bool.and_eq_false_imp, decide_eq_true_eq, decide_eq_false_iff_not,
    afterAttempts_attemptCount, not_lt] at hexit
  have hr1 : r.1 = afterAttempts submit N := h1
  refine ⟨by rw [hN]; exact h4, by rw [hN]; omega, ?_, ?_, ?_⟩
  · rw [hN, hr1]
    by_cases hs : ((afterAttempts submit N).successCount : Int) < total
    · right; have := hexit hs; omega
    · left; omega
  · intro k hk
    rw [hN] at hk
    have hpre := dispatchLoop_prefix p total submit N h3 k 0 (by omega)
    rw [show afterAttempts submit 0 = DispatchState.init from rfl, Nat.zero_add] at hpre
    have hgk := h3 k hk
    simp only [loopGuard, Bool.and_eq_true, decide_eq_true_eq, afterAttempts_attemptCount] at hgk
    rw [hpre, afterAttempts_attemptCount]
    exact ⟨rfl, hgk.1, by omega⟩
  · intro fuel hf
    rw [hN] at hf
    have := dispatchLoop_exact p total submit N h3 h2 fuel 0 (Nat.zero_le _) (by omega)
    rw [show afterAttempts submit 0 = DispatchState.init from rfl] at this
    rw [this, hr1]

/-- C1 at `total = 2` with the first submission rejected: three calls. -/
theorem dispatch_attempt_budget_witness :
    (1 : Int) ≤ 2 ∧
    countMint (trickyMintHybridSend exampleParams 2 (checkDropStatus exampleDrop 150000)
      150000 exampleSubmit).2 = 3 ∧
    (trickyMintHybridSend exampleParams 2 (checkDropStatus exampleDrop 150000)
      150000 exampleSubmit).1.attemptCount = 3 ∧
    ((3 : Nat) : Int) ≤ 2 * 2 :=
  have h := dispatch_attempt_budget exampleParams 2 (checkDropStatus exampleDrop 150000)
    150000 exampleSubmit (by decide)
  have e : (trickyMintHybridSend exampleParams 2 (checkDropStatus exampleDrop 150000)
      150000 exampleSubmit).1.attemptCount = 3 := by decide
  ⟨by decide, e ▸ h.1, e, e ▸ h.2.1⟩

/-- C7. For every attempt `k + 1` that phase 1 makes: when the submission
returns hash `h`, the ledger after the attempt is the ledger before it followed
by the one entry `{hash: h, index: k + 1, checked: false}` and `successCount`
is one higher; when the submission throws, the ledger and `successCount` are
unchanged and the loop either makes attempt `k + 2` or has used its whole
budget of `2 * total` attempts. -/
theorem dispatch_attempt_frame (p : MintParams) (total : Int) (dropStatus : DropStatus)
    (dateNow : Nat) (submit : Nat → Option String) (k : Nat)
    (hk : k < (trickyMintHybridSend p total dropStatus dateNow submit).1.attemptCount) :
    let before := (dispatchLoop p total submit k DispatchState.init).1
    let after := (dispatchLoop p total submit (k + 1) DispatchState.init).1
    before.attemptCount = k ∧ after.attemptCount = k + 1 ∧
    (∀ h, submit (k + 1) = some h →
      after.pendingTxs = before.pendingTxs ++ [{ hash := h, index := k + 1, checked := false }] ∧
      after.successCount = before.successCount + 1) ∧
    (submit (k + 1) = none →
      after.pendingTxs = before.pendingTxs ∧ after.successCount = before.successCount ∧
      (k + 1 < (trickyMintHybridSend p total dropStatus dateNow submit).1.attemptCount ∨
        ((k + 1 : Nat) : Int) = 2 * total)) := by
  intro before after
  obtain ⟨N, h1, h2, h3, _⟩ := trickyMintHybridSend_run p total dropStatus dateNow submit
  have hN : (trickyMintHybridSend p total dropStatus dateNow submit).1.attemptCount = N := by
    rw [h1, afterAttempts_attemptCount]
  rw [hN] at hk ⊢
  have hb : before = afterAttempts submit k := by
    have := dispatchLoop_prefix p total submit N h3 k 0 (by omega)
    rw [show afterAttempts submit 0 = DispatchState.init from rfl, Nat.zero_add] at this
    exact this
  have ha : after = afterAttempts submit (k + 1) := by
    have := dispatchLoop_prefix p total submit N h3 (k + 1) 0 (by omega)
    rw [show afterAttempts submit 0 = DispatchState.init from rfl, Nat.zero_add] at this
    exact this
  have hstep : afterAttempts submit (k + 1) = attempt (submit (k + 1)) (afterAttempts submit k) := rfl
  refine ⟨by rw [hb, afterAttempts_attemptCount], by rw [ha, afterAttempts_attemptCount], ?_, ?_⟩
  · intro h hs
    rw [ha, hb, hstep, hs]
    simp [attempt, afterAttempts_attemptCount]
  · intro hs
    rw [ha, hb, hstep, hs]
    refine ⟨rfl, rfl, ?_⟩
    by_cases hlt : k + 1 < N
    · exact Or.inl hlt
    · right
      have hkN : k + 1 = N := by omega
      have hg := h3 k hk
      simp only [loopGuard, Bool.and_eq_true, decide_eq_true_eq, afterAttempts_attemptCount] at hg
      have hx := h2
      rw [← hkN, hstep, hs] at hx
      simp only [loopGuard, attempt, Bool.and_eq_false_imp, decide_eq_true_eq,
        decide_eq_false_iff_not, afterAttempts_attemptCount, not_lt] at hx
      have := hx hg.1
      push_cast at this ⊢
      omega

/-- C7 at the second attempt of a run with `total = 2`: the first submission
was rejected, the second returns `0xaa`. -/
theorem dispatch_attempt_frame_witness :
    1 < (trickyMintHybridSend exampleParams 2 (checkDropStatus exampleDrop 150000)
      150000 exampleSubmit).1.attemptCount ∧
    (dispatchLoop exampleParams 2 exampleSubmit 2 DispatchState.init).1.pendingTxs =
      (dispatchLoop exampleParams 2 exampleSubmit 1 DispatchState.init).1.pendingTxs ++
        [{ hash := "0xaa", index := 2, checked := false }] :=
  ⟨by decide,
   ((dispatch_attempt_frame exampleParams 2 (checkDropStatus exampleDrop 150000) 150000
      exampleSubmit 1 (by decide)).2.2.1 "0xaa" rfl).1⟩

/-! ## Drop gate: theorems -/

/-- C9. For a window with `startTime ≤ endTime` and the clock at `now` whole
seconds, `checkDropStatus` answers `DROP_NOT_STARTED` exactly when
`now < startTime`, `DROP_ACTIVE` exactly when `startTime ≤ now ≤ endTime` and
`DROP_ENDED` exactly when `now > endTime`; `valid` is true only for
`DROP_ACTIVE`; a window with both times in the past is `DROP_ENDED`. -/
theorem checkDropStatus_classifies (publicDrop : PublicDrop) (dateNow : Nat)
    (h : publicDrop.startTime ≤ publicDrop.endTime) :
    ((checkDropStatus publicDrop dateNow).reason = .DROP_NOT_STARTED ↔
      dateNow / 1000 < publicDrop.startTime) ∧
    ((checkDropStatus publicDrop dateNow).reason = .DROP_ACTIVE ↔
      publicDrop.startTime ≤ dateNow / 1000 ∧ dateNow / 1000 ≤ publicDrop.endTime) ∧
    ((checkDropStatus publicDrop dateNow).reason = .DROP_ENDED ↔
      dateNow / 1000 > publicDrop.endTime) ∧
    ((checkDropStatus publicDrop dateNow).valid = true ↔
      (checkDropStatus publicDrop dateNow).reason = .DROP_ACTIVE) ∧
    (publicDrop.startTime < dateNow / 1000 ∧ publicDrop.endTime < dateNow / 1000 →
      (checkDropStatus publicDrop dateNow).reason = .DROP_ENDED) := by
  unfold checkDropStatus
  dsimp only
  by_cases h1 : publicDrop.startTime > dateNow / 1000
  · simp only [h1, if_true]
    refine ⟨?_, ?_, ?_, ?_, ?_⟩ <;> (simp; try omega)
  · by_cases h2 : publicDrop.endTime < dateNow / 1000
    · simp only [h1, h2, if_true, if_false]
      refine ⟨?_, ?_, ?_, ?_, ?_⟩ <;> (simp; try omega)
    · simp only [h1, h2, if_false]
      refine ⟨?_, ?_, ?_, ?_, ?_⟩ <;> (simp; try omega)


/-- C9 at the window open from second 100 to second 200, read at second 150. -/
theorem checkDropStatus_classifies_witness :
    exampleDrop.startTime ≤ exampleDrop.endTime ∧
    (checkDropStatus exampleDrop 150000).reason = .DROP_ACTIVE :=
  ⟨by decide,
   (checkDropStatus_classifies exampleDrop 150000 (by decide)).2.1.2 ⟨by decide, by decide⟩⟩

/-- The effects of the loop are empty or begin with a `mintMulti` call. -/
theorem dispatchLoop_effects_head (p : MintParams) (total : Int) (submit : Nat → Option String)
    (fuel : Nat) (st : DispatchState) :
    (dispatchLoop p total submit fuel st).2 = [] ∨
      ∃ es, (dispatchLoop p total submit fuel st).2 = mintCall p :: es := by
  cases fuel with
  | zero => left; rfl
  | succ fuel =>
    rw [dispatchLoop]
    split
    · dsimp only
      split
      · right; exact ⟨[], rfl⟩
      · right; exact ⟨_, rfl⟩
    · left; rfl

theorem takeWhile_not_mint_dispatch (p : MintParams) (total : Int)
    (submit : Nat → Option String) (fuel : Nat) (st : DispatchState) :
    (dispatchLoop p total submit fuel st).2.takeWhile (fun e => !e.isMint) = [] := by
  rcases dispatchLoop_effects_head p total submit fuel st with h | ⟨es, h⟩
  · rw [h]; rfl
  · rw [h]; simp [mintCall, Effect.isMint]

/-- What the gate hands to `setTimeout`. In phase 1 of `trickyMintHybrid`, with
the clock at `n = dateNow / 1000` whole seconds at the gate: for a
`DROP_NOT_STARTED` status with start time `S` the effects before the first
`mintMulti` call are the single wait with the argument `(S - n) * 1000` when
`S > n` and nothing otherwise; for a `DROP_ACTIVE` status there is no effect
before the first call; and for `total ≥ 1` the dispatch that follows begins
with a `mintMulti` call. -/
theorem gate_single_wait (p : MintParams) (total : Int) (dropStatus : DropStatus)
    (dateNow : Nat) (submit : Nat → Option String) :
    (∀ S, dropStatus.reason = .DROP_NOT_STARTED → dropStatus.startTime = some S →
      (trickyMintHybridSend p total dropStatus dateNow submit).2 =
        (if S > dateNow / 1000
          then [Effect.sleep (((S : Int) - ((dateNow / 1000 : Nat) : Int)) * 1000)] else []) ++
        (dispatchLoop p total submit (total * 2).toNat DispatchState.init).2 ∧
      (trickyMintHybridSend p total dropStatus dateNow submit).2.takeWhile
          (fun e => !e.isMint) =
        (if S > dateNow / 1000
          then [Effect.sleep (((S : Int) - ((dateNow / 1000 : Nat) : Int)) * 1000)] else [])) ∧
    (dropStatus.reason = .DROP_ACTIVE →
      (trickyMintHybridSend p total dropStatus dateNow submit).2 =
        (dispatchLoop p total submit (total * 2).toNat DispatchState.init).2 ∧
      (trickyMintHybridSend p total dropStatus dateNow submit).2.takeWhile
          (fun e => !e.isMint) = []) ∧
    (1 ≤ total →
      (dispatchLoop p total submit (total * 2).toNat DispatchState.init).2.head?
        = some (mintCall p)) := by
  refine ⟨?_, ?_, ?_⟩
  · intro S h1 h2
    have hw : waitForDrop dropStatus dateNow =
        (if S > dateNow / 1000
          then [Effect.sleep (((S : Int) - ((dateNow / 1000 : Nat) : Int)) * 1000)] else []) := by
      unfold waitForDrop
      rw [if_pos h1, h2]
      dsimp only
      by_cases hS : S > dateNow / 1000
      · rw [if_pos hS, if_pos (by omega)]
      · rw [if_neg hS, if_neg (by omega)]
    have he : (trickyMintHybridSend p total dropStatus dateNow submit).2 =
        waitForDrop dropStatus dateNow ++
          (dispatchLoop p total submit (total * 2).toNat DispatchState.init).2 := rfl
    refine ⟨by rw [he, hw], ?_⟩
    rw [he, hw]
    by_cases hS : S > dateNow / 1000
    · rw [if_pos hS, List.singleton_append, List.takeWhile_cons]
      have hs : (!(Effect.sleep (((S : Int) - ((dateNow / 1000 : Nat) : Int)) * 1000)).isMint)
          = true := rfl
      rw [hs]
      simp only [if_true]
      rw [takeWhile_not_mint_dispatch]
    · simp only [if_neg hS, List.nil_append]
      exact takeWhile_not_mint_dispatch p total submit _ _
  · intro h1
    have hw : waitForDrop dropStatus dateNow = [] := by
      unfold waitForDrop
      rw [if_neg (by rw [h1]; decide)]
    have he : (trickyMintHybridSend p total dropStatus dateNow submit).2 =
        waitForDrop dropStatus dateNow ++
          (dispatchLoop p total submit (total * 2).toNat DispatchState.init).2 := rfl
    rw [he, hw, List.nil_append]
    exact ⟨rfl, takeWhile_not_mint_dispatch p total submit _ _⟩
  · intro h
    have hf : (total * 2).toNat = ((total * 2).toNat - 1) + 1 := by omega
    rw [hf, dispatchLoop, loopGuard_init total h]
    simp only [if_true]
    split <;> rfl

/-- The gate at a window that opens at second 100, classified at second 50,
with the clock at second 60 at the gate: one wait with the argument 40000, then
the first call. -/
theorem gate_single_wait_witness :
    (checkDropStatus exampleDrop 50000).reason = .DROP_NOT_STARTED ∧
    (checkDropStatus exampleDrop 50000).startTime = some 100 ∧
    (trickyMintHybridSend exampleParams 2 (checkDropStatus exampleDrop 50000) 60000
        exampleSubmit).2.takeWhile (fun e => !e.isMint) = [Effect.sleep 40000] :=
  ⟨by decide, by decide,
   ((gate_single_wait exampleParams 2 (checkDropStatus exampleDrop 50000) 60000
      exampleSubmit).1 100 (by decide) (by decide)).2⟩


/-- C8 as stated fails: a window that closed at second 200, read at second
300, is classified `DROP_ENDED`, and after the user confirms `mintMulti` is
called all the same. -/
theorem ended_drop_is_dispatched :
    (checkDropStatus exampleDrop 300000).reason = .DROP_ENDED ∧
    (mainWallet "0xNFT" 1 150000 exampleDrop 300000 (some 7) "y" 300000
        (fun _ => some "0xaa")).sent.map (fun r => countMint r.2) = some 1 := by
  decide

/-- C8, amended. For a window classified `DROP_ENDED`, `main` prints the
`Drop has already ended` status line and, once the user confirms, calls
`trickyMintHybrid`, which performs no wait and runs the dispatch loop as it
does for an active drop; for `total ≥ 1` at least one `mintMulti` call is
made. -/
theorem ended_drop_dispatches_as_active (nftAddr : String) (total gasLimit : Int)
    (publicDrop : PublicDrop) (clockAtCheck : Nat) (gasPrice : Int) (clockAtGate : Nat)
    (submit : Nat → Option String)
    (h : (checkDropStatus publicDrop clockAtCheck).reason = .DROP_ENDED) :
    (mainWallet nftAddr total gasLimit publicDrop clockAtCheck (some gasPrice) "y"
        clockAtGate submit).statusLine = .hasEnded publicDrop.endTime ∧
    (mainWallet nftAddr total gasLimit publicDrop clockAtCheck (some gasPrice) "y"
        clockAtGate submit).sent =
      some (dispatchLoop
        { nftAddr := nftAddr, price := publicDrop.mintPrice, gasPrice := gasPrice,
          gasLimit := gasLimit }
        total submit (total * 2).toNat DispatchState.init) ∧
    (mainWallet nftAddr total gasLimit publicDrop clockAtCheck (some gasPrice) "y"
        clockAtGate submit).sent =
      some (trickyMintHybridSend
        { nftAddr := nftAddr, price := publicDrop.mintPrice, gasPrice := gasPrice,
          gasLimit := gasLimit }
        total { valid := true, reason := .DROP_ACTIVE, message := .isActive, startTime := none }
        clockAtGate submit) ∧
    (1 ≤ total →
      1 ≤ countMint (dispatchLoop
        { nftAddr := nftAddr, price := publicDrop.mintPrice, gasPrice := gasPrice,
          gasLimit := gasLimit }
        total submit (total * 2).toNat DispatchState.init).2) := by
  have hw : waitForDrop (checkDropStatus publicDrop clockAtCheck) clockAtGate = [] := by
    unfold waitForDrop
    rw [if_neg (by rw [h]; decide)]
  have hm : (checkDropStatus publicDrop clockAtCheck).message = .hasEnded publicDrop.endTime := by
    unfold checkDropStatus at h ⊢
    dsimp only at h ⊢
    split
    · rename_i h1; rw [if_pos h1] at h; cases h
    · split
      · rfl
      · rename_i h1 h2; rw [if_neg h1, if_neg h2] at h; cases h
  have hsent : (mainWallet nftAddr total gasLimit publicDrop clockAtCheck (some gasPrice) "y"
        clockAtGate submit).sent =
      some (trickyMintHybridSend
        { nftAddr := nftAddr, price := publicDrop.mintPrice, gasPrice := gasPrice,
          gasLimit := gasLimit }
        total (checkDropStatus publicDrop clockAtCheck) clockAtGate submit) := by
    simp [mainWallet]
  refine ⟨?_, ?_, ?_, ?_⟩
  · simp [mainWallet, hm]
  · rw [hsent]
    unfold trickyMintHybridSend
    dsimp only
    rw [hw, List.nil_append]
  · rw [hsent]
    unfold trickyMintHybridSend
    dsimp only
    rw [hw]
    rfl
  · intro ht
    obtain ⟨N, h1, h2, h3, h4⟩ := trickyMintHybridSend_run
      { nftAddr := nftAddr, price := publicDrop.mintPrice, gasPrice := gasPrice,
        gasLimit := gasLimit } total
      { valid := true, reason := .DROP_ACTIVE, message := .isActive, startTime := none }
      clockAtGate submit
    have h5 : countMint (dispatchLoop
        { nftAddr := nftAddr, price := publicDrop.mintPrice, gasPrice := gasPrice,
          gasLimit := gasLimit }
        total submit (total * 2).toNat DispatchState.init).2 = N := by
      rw [← h4]; rfl
    rw [h5]
    rcases Nat.eq_zero_or_pos N with h0 | h0
    · subst h0
      have := loopGuard_init total ht
      rw [show afterAttempts submit 0 = DispatchState.init from rfl] at h2
      rw [h2] at this; cases this
    · exact h0

/-- C8, amended, at the window that closed at second 200, read at second 300. -/
theorem ended_drop_dispatches_as_active_witness :
    (checkDropStatus exampleDrop 300000).reason = .DROP_ENDED ∧
    (mainWallet "0xNFT" 2 150000 exampleDrop 300000 (some 7) "y" 300000
        exampleSubmit).statusLine = .hasEnded 200 :=
  ⟨by decide,
   (ended_drop_dispatches_as_active "0xNFT" 2 150000 exampleDrop 300000 7 300000
      exampleSubmit (by decide)).1⟩


/-! ## Poller: the tick that runs alone -/

theorem visit_spec (ans : ReceiptAnswer) (tx : PendingTx) (v : TickVars) :
    (visit ans tx v).1 = (if tx.checked then tx else entryAfter ans tx) ∧
    (visit ans tx v).2.confirmedCount =
      v.confirmedCount + (if !tx.checked && ans.isSuccess then 1 else 0) ∧
    (visit ans tx v).2.stillPending =
      v.stillPending + (if !tx.checked && !ans.hasReceipt then 1 else 0) := by
  unfold visit
  by_cases hc : tx.checked = true
  · simp [hc]
  · simp only [hc, if_false]
    cases ans with
    | noReceipt => simp [afterAwait, query, entryAfter, ReceiptAnswer.isSuccess,
        ReceiptAnswer.hasReceipt, hc]
    | throws => simp [afterAwait, query, entryAfter, ReceiptAnswer.isSuccess,
        ReceiptAnswer.hasReceipt, hc]
    | receipt status =>
      by_cases hs : status = 1
      · simp [afterAwait, query, entryAfter, ReceiptAnswer.isSuccess,
          ReceiptAnswer.hasReceipt, hc, hs]
      · simp [afterAwait, query, entryAfter, ReceiptAnswer.isSuccess,
          ReceiptAnswer.hasReceipt, hc, hs]

/-- The `for` loop from position `i` computes the entry-by-entry description. -/
theorem forLoop_spec (answer : Nat → ReceiptAnswer) :
    ∀ (txs : List PendingTx) (i : Nat) (v : TickVars),
      (forLoop answer i txs v).1 =
        (txs.enumFrom i).map
          (fun jt => if jt.2.checked then jt.2 else entryAfter (answer jt.1) jt.2) ∧
      (forLoop answer i txs v).2.confirmedCount =
        v.confirmedCount +
          (txs.enumFrom i).countP (fun jt => !jt.2.checked && (answer jt.1).isSuccess) ∧
      (forLoop answer i txs v).2.stillPending =
        v.stillPending +
          (txs.enumFrom i).countP (fun jt => !jt.2.checked && !(answer jt.1).hasReceipt) := by
  intro txs
  induction txs with
  | nil => intro i v; simp [forLoop]
  | cons tx rest ih =>
    intro i v
    obtain ⟨h1, h2, h3⟩ := ih (i + 1) (visit (answer i) tx v).2
    obtain ⟨g1, g2, g3⟩ := visit_spec (answer i) tx v
    rw [forLoop]
    dsimp only
    refine ⟨?_, ?_, ?_⟩
    · rw [h1, g1]; simp [List.enumFrom_cons]
    · rw [h2, g2, List.enumFrom_cons, List.countP_cons]; dsimp only; omega
    · rw [h3, g3, List.enumFrom_cons, List.countP_cons]; dsimp only; omega


theorem pollTick_active (total : Int) (successCount : Nat) (answer : Nat → ReceiptAnswer)
    (st : PollerState) (h : st.intervalActive = true) :
    pollTick total successCount answer st =
      finishTick total successCount
        (forLoop answer 0 st.pendingTxs
          { confirmedCount := st.confirmedCount, stillPending := 0,
            output := st.output, effects := st.effects }).1 true
        (forLoop answer 0 st.pendingTxs
          { confirmedCount := st.confirmedCount, stillPending := 0,
            output := st.output, effects := st.effects }).2 := by
  unfold pollTick
  rw [if_pos h, h]

theorem finishTick_pendingTxs (total : Int) (successCount : Nat) (txs : List PendingTx)
    (b : Bool) (v : TickVars) :
    (finishTick total successCount txs b v).pendingTxs = txs := by
  unfold finishTick; dsimp only; split <;> rfl

theorem finishTick_confirmedCount (total : Int) (successCount : Nat) (txs : List PendingTx)
    (b : Bool) (v : TickVars) :
    (finishTick total successCount txs b v).confirmedCount = v.confirmedCount := by
  unfold finishTick; dsimp only; split <;> rfl

theorem finishTick_stops (total : Int) (successCount : Nat) (txs : List PendingTx)
    (v : TickVars) :
    (finishTick total successCount txs true v).intervalActive = false ↔
      (v.stillPending = 0 ∨ (v.confirmedCount : Int) = total) := by
  unfold finishTick; dsimp only
  split
  · rename_i h; simp [h]
  · rename_i h; simp [h]

theorem resume_pendingTxs (total : Int) (successCount : Nat) (i sp : Nat) (st : PollerState) :
    (resume total successCount i sp st).1.pendingTxs = st.pendingTxs := by
  unfold resume
  split
  · rfl
  · exact finishTick_pendingTxs _ _ _ _ _

theorem resume_confirmedCount (total : Int) (successCount : Nat) (i sp : Nat)
    (st : PollerState) :
    (resume total successCount i sp st).1.confirmedCount = st.confirmedCount := by
  unfold resume
  split
  · rfl
  · exact finishTick_confirmedCount _ _ _ _ _

theorem afterAwait_spec (ans : ReceiptAnswer) (tx : PendingTx) (v : TickVars) :
    (afterAwait ans tx v).1 = entryAfter ans tx ∧
    (afterAwait ans tx v).2.confirmedCount =
      v.confirmedCount + (if ans.isSuccess then 1 else 0) := by
  cases ans with
  | noReceipt => exact ⟨rfl, rfl⟩
  | throws => exact ⟨rfl, rfl⟩
  | receipt status =>
    unfold afterAwait entryAfter ReceiptAnswer.isSuccess
    dsimp only
    by_cases hs : status = 1
    · simp [hs]
    · simp [hs]

theorem pollTick_pendingTxs (total : Int) (successCount : Nat) (answer : Nat → ReceiptAnswer)
    (st : PollerState) (h : st.intervalActive = true) :
    (pollTick total successCount answer st).pendingTxs = tickLedger answer st.pendingTxs := by
  rw [pollTick_active _ _ _ _ h, finishTick_pendingTxs, (forLoop_spec answer _ 0 _).1]
  rfl

theorem pollTick_confirmedCount (total : Int) (successCount : Nat)
    (answer : Nat → ReceiptAnswer) (st : PollerState) (h : st.intervalActive = true) :
    (pollTick total successCount answer st).confirmedCount =
      st.confirmedCount + tickConfirmed answer st.pendingTxs := by
  rw [pollTick_active _ _ _ _ h, finishTick_confirmedCount, (forLoop_spec answer _ 0 _).2.1]
  rfl

theorem forLoop_stillPending (answer : Nat → ReceiptAnswer) (txs : List PendingTx)
    (c : Nat) (o : List LogLine) (e : List Effect) :
    (forLoop answer 0 txs
      { confirmedCount := c, stillPending := 0, output := o, effects := e }).2.stillPending =
      tickStillPending answer txs := by
  rw [(forLoop_spec answer _ 0 _).2.2]
  simp [tickStillPending, List.enum]

theorem tickLedger_get? (answer : Nat → ReceiptAnswer) (txs : List PendingTx) (j : Nat) :
    (tickLedger answer txs).get? j =
      (txs.get? j).map (fun tx => if tx.checked then tx else entryAfter (answer j) tx) := by
  unfold tickLedger
  rw [List.get?_eq_getElem?, List.get?_eq_getElem?, List.getElem?_map, List.enum,
    List.getElem?_enumFrom]
  cases txs[j]? <;> simp

/-- C4. In a tick that runs alone, each entry that is unchecked when visited
is changed by the answer to its query in one of three ways: no receipt leaves
the entry as it is and counts one in `stillPending`; a receipt with status 1
sets `checked` and counts one in `confirmedCount`; a receipt with another
status sets `checked` and counts in neither. The tick's ledger and counters
are the sum of these effects over the unchecked entries. The last part states
the effect of a single answer on the ledger and on `confirmedCount` for any
waiting run of the callback. -/
theorem tick_three_outcomes (total : Int) (successCount : Nat)
    (answer : Nat → ReceiptAnswer) (st : PollerState) (h : st.intervalActive = true) :
    (∀ j tx, st.pendingTxs.get? j = some tx → tx.checked = false →
      (answer j = .noReceipt →
        (pollTick total successCount answer st).pendingTxs.get? j = some tx) ∧
      (answer j = .receipt 1 →
        (pollTick total successCount answer st).pendingTxs.get? j =
          some { tx with checked := true }) ∧
      (∀ s, s ≠ 1 → answer j = .receipt s →
        (pollTick total successCount answer st).pendingTxs.get? j =
          some { tx with checked := true })) ∧
    (pollTick total successCount answer st).confirmedCount =
      st.confirmedCount +
        st.pendingTxs.enum.countP (fun jt => !jt.2.checked && decide (answer jt.1 = .receipt 1)) ∧
    (forLoop answer 0 st.pendingTxs
      { confirmedCount := st.confirmedCount, stillPending := 0,
        output := st.output, effects := st.effects }).2.stillPending =
      st.pendingTxs.enum.countP
        (fun jt => !jt.2.checked &&
          (decide (answer jt.1 = .noReceipt) || decide (answer jt.1 = .throws))) ∧
    (pollTick total successCount answer st).pendingTxs.length = st.pendingTxs.length ∧
    (∀ (w : EventLoop) (k : Nat) (s : Suspended) (tx : PendingTx) (ans : ReceiptAnswer),
      w.waiting.get? k = some s → w.shared.pendingTxs.get? s.i = some tx →
      (pollStep total successCount w (.answer k ans)).shared.pendingTxs =
        w.shared.pendingTxs.set s.i (entryAfter ans tx) ∧
      (pollStep total successCount w (.answer k ans)).shared.confirmedCount =
        w.shared.confirmedCount + (if ans.isSuccess then 1 else 0)) := by
  refine ⟨?_, ?_, ?_, ?_, ?_⟩
  · intro j tx hj hc
    rw [pollTick_pendingTxs _ _ _ _ h, tickLedger_get?, hj]
    simp only [Option.map_some', hc, Bool.false_eq_true, if_false]
    refine ⟨?_, ?_, ?_⟩
    · intro ha; rw [ha]; rfl
    · intro ha; rw [ha]; rfl
    · intro s _ ha; rw [ha]; rfl
  · rw [pollTick_confirmedCount _ _ _ _ h]
    unfold tickConfirmed
    congr 1
    apply List.countP_congr
    intro jt _
    cases hj : answer jt.1 with
    | noReceipt => simp [ReceiptAnswer.isSuccess]
    | throws => simp [ReceiptAnswer.isSuccess]
    | receipt s => simp [ReceiptAnswer.isSuccess]
  · rw [forLoop_stillPending]
    unfold tickStillPending
    apply List.countP_congr
    intro jt _
    cases hj : answer jt.1 with
    | noReceipt => simp [ReceiptAnswer.hasReceipt]
    | throws => simp [ReceiptAnswer.hasReceipt]
    | receipt s => simp [ReceiptAnswer.hasReceipt]
  · rw [pollTick_pendingTxs _ _ _ _ h]
    simp [tickLedger]
  · intro w k s tx ans hk htx
    unfold pollStep
    simp only [hk, htx]
    rw [resume_pendingTxs, resume_confirmedCount]
    exact ⟨by rw [(afterAwait_spec ans tx _).1], (afterAwait_spec ans tx _).2⟩


/-- C4 on a ledger of three unchecked entries: the second has no receipt and
stays as it is. -/
theorem tick_three_outcomes_witness :
    examplePoller.intervalActive = true ∧
    (pollTick 3 3 exampleAnswer examplePoller).pendingTxs.get? 1 =
      some { hash := "0xbb", index := 2, checked := false } :=
  ⟨rfl,
   ((tick_three_outcomes 3 3 exampleAnswer examplePoller rfl).1 1
      { hash := "0xbb", index := 2, checked := false } rfl rfl).1 rfl⟩

theorem visit_throws (tx : PendingTx) (v : TickVars) :
    visit .throws tx v = visit .noReceipt tx v := rfl

theorem visit_withThrows (sel : Nat → Bool) (answer : Nat → ReceiptAnswer) (j : Nat)
    (tx : PendingTx) (v : TickVars) :
    visit (withThrows sel answer j) tx v = visit (answer j) tx v := by
  unfold withThrows
  split
  · rename_i h
    simp only [Bool.and_eq_true, decide_eq_true_eq] at h
    rw [h.2]; rfl
  · rfl

theorem forLoop_withThrows (sel : Nat → Bool) (answer : Nat → ReceiptAnswer) :
    ∀ (txs : List PendingTx) (i : Nat) (v : TickVars),
      forLoop (withThrows sel answer) i txs v = forLoop answer i txs v := by
  intro txs
  induction txs with
  | nil => intro i v; rfl
  | cons tx rest ih =>
    intro i v
    rw [forLoop, forLoop, visit_withThrows, ih]

/-- C5. A receipt query that throws has the effect of one that returns no
receipt: replacing any `no receipt` answers of a tick by thrown errors gives
the same state after the tick (ledger, `confirmedCount`, the `stillPending`
shown by the progress line, stop decision), an unchecked entry whose query
throws stays unchecked, and the same holds for a single answer delivered to a
waiting run of the callback. -/
theorem throw_is_no_receipt (total : Int) (successCount : Nat) (sel : Nat → Bool)
    (answer : Nat → ReceiptAnswer) (st : PollerState) :
    pollTick total successCount (withThrows sel answer) st =
      pollTick total successCount answer st ∧
    (∀ (tx : PendingTx) (v : TickVars), tx.checked = false →
      (visit .throws tx v).1 = tx ∧ visit .throws tx v = visit .noReceipt tx v) ∧
    (∀ (w : EventLoop) (k : Nat),
      pollStep total successCount w (.answer k .throws) =
        pollStep total successCount w (.answer k .noReceipt)) := by
  refine ⟨?_, ?_, ?_⟩
  · unfold pollTick
    rw [forLoop_withThrows]
  · intro tx v hc
    refine ⟨?_, rfl⟩
    unfold visit
    rw [hc]; rfl
  · intro w k; rfl

theorem countFinal_append (a b : List LogLine) :
    countFinal (a ++ b) = countFinal a + countFinal b := by
  simp [countFinal]

theorem visit_countFinal (ans : ReceiptAnswer) (tx : PendingTx) (v : TickVars) :
    countFinal (visit ans tx v).2.output = countFinal v.output := by
  unfold visit
  split
  · rfl
  · cases ans with
    | noReceipt => rfl
    | throws => rfl
    | receipt status =>
      unfold afterAwait query
      dsimp only
      split <;> simp [countFinal]

theorem forLoop_countFinal (answer : Nat → ReceiptAnswer) :
    ∀ (txs : List PendingTx) (i : Nat) (v : TickVars),
      countFinal (forLoop answer i txs v).2.output = countFinal v.output := by
  intro txs
  induction txs with
  | nil => intro i v; rfl
  | cons tx rest ih =>
    intro i v
    rw [forLoop]
    dsimp only
    rw [ih, visit_countFinal]

theorem tickStillPending_eq_countUnchecked (answer : Nat → ReceiptAnswer) :
    ∀ (txs : List PendingTx) (i : Nat),
      (txs.enumFrom i).countP (fun jt => !jt.2.checked && !(answer jt.1).hasReceipt) =
      countUnchecked ((txs.enumFrom i).map
        (fun jt => if jt.2.checked then jt.2 else entryAfter (answer jt.1) jt.2)) := by
  intro txs
  induction txs with
  | nil => intro i; rfl
  | cons tx rest ih =>
    intro i
    rw [List.enumFrom_cons, List.countP_cons, List.map_cons, ih (i + 1)]
    unfold countUnchecked
    rw [List.filter_cons]
    dsimp only
    by_cases hc : tx.checked = true
    · simp [hc]
    · cases ha : answer i with
      | noReceipt => simp [hc, entryAfter, ReceiptAnswer.hasReceipt]
      | throws => simp [hc, entryAfter, ReceiptAnswer.hasReceipt]
      | receipt s => simp [hc, entryAfter, ReceiptAnswer.hasReceipt]

/-- C6. A tick that runs alone clears the interval if and only if its
`stillPending` is 0 or `confirmedCount` equals `total` at its end, and it
prints the `Final Result` line in exactly that case; otherwise the interval
stays active. The tick's `stillPending` is the number of entries still
unchecked at its end. The same test ends every run of the callback. -/
theorem tick_stops_iff (total : Int) (successCount : Nat) (answer : Nat → ReceiptAnswer)
    (st : PollerState) (h : st.intervalActive = true) :
    ((pollTick total successCount answer st).intervalActive = false ↔
      (tickStillPending answer st.pendingTxs = 0 ∨
        ((pollTick total successCount answer st).confirmedCount : Int) = total)) ∧
    ((pollTick total successCount answer st).intervalActive = true ↔
      ¬ (tickStillPending answer st.pendingTxs = 0 ∨
        ((pollTick total successCount answer st).confirmedCount : Int) = total)) ∧
    countFinal (pollTick total successCount answer st).output =
      countFinal st.output +
        (if tickStillPending answer st.pendingTxs = 0 ∨
            ((pollTick total successCount answer st).confirmedCount : Int) = total
          then 1 else 0) ∧
    tickStillPending answer st.pendingTxs =
      countUnchecked (pollTick total successCount answer st).pendingTxs ∧
    (∀ (txs : List PendingTx) (v : TickVars),
      (finishTick total successCount txs true v).intervalActive = false ↔
        (v.stillPending = 0 ∨ (v.confirmedCount : Int) = total)) := by
  have hstop : (pollTick total successCount answer st).intervalActive = false ↔
      (tickStillPending answer st.pendingTxs = 0 ∨
        ((pollTick total successCount answer st).confirmedCount : Int) = total) := by
    rw [pollTick_active _ _ _ _ h, finishTick_stops, finishTick_confirmedCount,
      forLoop_stillPending]
  refine ⟨hstop, ?_, ?_, ?_, fun txs v => finishTick_stops total successCount txs v⟩
  · rw [← hstop]; simp
  · rw [pollTick_active _ _ _ _ h, finishTick_confirmedCount]
    unfold finishTick
    dsimp only
    rw [forLoop_stillPending]
    split
    · simp only [countFinal_append, forLoop_countFinal]
      have e1 : countFinal [LogLine.progress
          (forLoop answer 0 st.pendingTxs
            { confirmedCount := st.confirmedCount, stillPending := 0,
              output := st.output, effects := st.effects }).2.confirmedCount
          (tickStillPending answer st.pendingTxs)] = 0 := rfl
      have e2 : countFinal [LogLine.finalResult
          (forLoop answer 0 st.pendingTxs
            { confirmedCount := st.confirmedCount, stillPending := 0,
              output := st.output, effects := st.effects }).2.confirmedCount
          successCount] = 1 := rfl
      rw [e1, e2]
      split <;> simp [countFinal]
    · simp only [countFinal_append, forLoop_countFinal]
      rfl
  · rw [pollTick_pendingTxs _ _ _ _ h]
    exact tickStillPending_eq_countUnchecked answer st.pendingTxs 0

/-- C6 on the ledger of three entries: one entry has no receipt and only one
of three is confirmed, so the interval stays active. -/
theorem tick_stops_iff_witness :
    examplePoller.intervalActive = true ∧
    (pollTick 3 3 exampleAnswer examplePoller).intervalActive = true :=
  ⟨rfl, (tick_stops_iff 3 3 exampleAnswer examplePoller rfl).2.1.2 (by decide)⟩


/-! ## Poller: the tally -/

theorem afterAttempts_tally (submit : Nat → Option String) (n : Nat) :
    (afterAttempts submit n).pendingTxs.length = (afterAttempts submit n).successCount ∧
    countUnchecked (afterAttempts submit n).pendingTxs = (afterAttempts submit n).successCount ∧
    (afterAttempts submit n).successCount ≤ (afterAttempts submit n).attemptCount := by
  induction n with
  | zero => exact ⟨rfl, rfl, le_refl _⟩
  | succ n ih =>
    obtain ⟨h1, h2, h3⟩ := ih
    rw [afterAttempts]
    cases submit (n + 1) with
    | none => exact ⟨h1, h2, Nat.le_succ_of_le h3⟩
    | some hash =>
      refine ⟨?_, ?_, ?_⟩
      · simp [attempt, h1]
      · unfold countUnchecked at h2 ⊢
        simp [attempt, h2]
      · simp [attempt, h3]

theorem countFailed_append (a b : List LogLine) :
    countFailed (a ++ b) = countFailed a + countFailed b := by
  simp [countFailed]

theorem visit_tally (ans : ReceiptAnswer) (tx : PendingTx) (v : TickVars) :
    (visit ans tx v).2.confirmedCount + countFailed (visit ans tx v).2.output +
        countUnchecked [(visit ans tx v).1] =
      v.confirmedCount + countFailed v.output + countUnchecked [tx] := by
  unfold visit
  by_cases hc : tx.checked = true
  · simp [hc]
  · simp only [hc, if_false]
    cases ans with
    | noReceipt => rfl
    | throws => rfl
    | receipt status =>
      unfold afterAwait query
      dsimp only
      by_cases hs : status = 1
      · simp only [hs, if_true, countFailed_append]
        simp [countFailed, countUnchecked, hc]
        omega
      · simp only [hs, if_false, countFailed_append]
        simp [countFailed, countUnchecked, hc]
        omega

theorem countUnchecked_cons (tx : PendingTx) (txs : List PendingTx) :
    countUnchecked (tx :: txs) = countUnchecked [tx] + countUnchecked txs := by
  unfold countUnchecked
  by_cases hc : tx.checked = true <;> (simp [hc, List.filter_cons]; try omega)

theorem forLoop_tally (answer : Nat → ReceiptAnswer) :
    ∀ (txs : List PendingTx) (i : Nat) (v : TickVars),
      (forLoop answer i txs v).2.confirmedCount + countFailed (forLoop answer i txs v).2.output +
          countUnchecked (forLoop answer i txs v).1 =
        v.confirmedCount + countFailed v.output + countUnchecked txs := by
  intro txs
  induction txs with
  | nil => intro i v; rfl
  | cons tx rest ih =>
    intro i v
    rw [forLoop]
    dsimp only
    have h1 := ih (i + 1) (visit (answer i) tx v).2
    have h2 := visit_tally (answer i) tx v
    rw [countUnchecked_cons, countUnchecked_cons tx rest]
    omega

theorem finishTick_countFailed (total : Int) (successCount : Nat) (txs : List PendingTx)
    (b : Bool) (v : TickVars) :
    countFailed (finishTick total successCount txs b v).output = countFailed v.output := by
  unfold finishTick
  dsimp only
  split
  · split <;> simp [countFailed]
  · simp [countFailed]

/-- A tick that runs alone keeps `confirmed + reverted + unresolved`. -/
theorem pollTick_tally (total : Int) (successCount : Nat) (answer : Nat → ReceiptAnswer)
    (st : PollerState) :
    (pollTick total successCount answer st).confirmedCount +
        countFailed (pollTick total successCount answer st).output +
        countUnchecked (pollTick total successCount answer st).pendingTxs =
      st.confirmedCount + countFailed st.output + countUnchecked st.pendingTxs := by
  by_cases h : st.intervalActive = true
  · rw [pollTick_active _ _ _ _ h, finishTick_confirmedCount, finishTick_countFailed,
      finishTick_pendingTxs]
    exact forLoop_tally answer st.pendingTxs 0 _
  · unfold pollTick
    rw [if_neg h]

/-- When the ticks run one after another, the tally equation holds after
every tick: confirmed, reverted and unresolved entries add up to the
submitted ones, which are at most the attempts. -/
theorem pollTicks_tally (total : Int) (successCount : Nat)
    (answers : Nat → Nat → ReceiptAnswer) (submit : Nat → Option String) (N n : Nat) :
    (pollTicks total successCount answers n
        (PollerState.start (afterAttempts submit N))).confirmedCount +
      countFailed (pollTicks total successCount answers n
        (PollerState.start (afterAttempts submit N))).output +
      countUnchecked (pollTicks total successCount answers n
        (PollerState.start (afterAttempts submit N))).pendingTxs =
      (afterAttempts submit N).successCount ∧
    (afterAttempts submit N).successCount ≤ (afterAttempts submit N).attemptCount := by
  refine ⟨?_, (afterAttempts_tally submit N).2.2⟩
  induction n with
  | zero =>
    show 0 + countFailed [] + countUnchecked (afterAttempts submit N).pendingTxs = _
    rw [(afterAttempts_tally submit N).2.1]
    simp [countFailed]
  | succ n ih =>
    rw [pollTicks, pollTick_tally]
    exact ih


/-! ## Poller: runs of the callback that overlap -/

/-- C2 does not hold on the code. With `total = 2` and two accepted
submissions, two overlapping runs of the callback both count the receipt of
the first entry: `confirmedCount` is 2 while the second entry is still
unchecked, the poller stops with `Final Result: 2/2`, and
`confirmed + reverted + unresolved` is 3 for 2 submitted transactions. -/
theorem overlapping_ticks_break_tally :
    (trickyMintHybridSend exampleParams 2 activeStatus 150000 acceptAll).1.successCount = 2 ∧
    (runEvents 2 2 overlapTwoEntries (pollerAfterSend 2)).shared.pendingTxs =
      [{ hash := "0xaa", index := 1, checked := true },
       { hash := "0xbb", index := 2, checked := false }] ∧
    (runEvents 2 2 overlapTwoEntries (pollerAfterSend 2)).shared.confirmedCount = 2 ∧
    (runEvents 2 2 overlapTwoEntries (pollerAfterSend 2)).shared.intervalActive = false ∧
    (runEvents 2 2 overlapTwoEntries (pollerAfterSend 2)).shared.output =
      [.confirmed "0xaa" 1, .confirmed "0xaa" 2, .progress 2 1, .finalResult 2 2] ∧
    (runEvents 2 2 overlapTwoEntries (pollerAfterSend 2)).shared.confirmedCount +
      countFailed (runEvents 2 2 overlapTwoEntries (pollerAfterSend 2)).shared.output +
      countUnchecked (runEvents 2 2 overlapTwoEntries (pollerAfterSend 2)).shared.pendingTxs
      = 3 := by
  decide

/-- C3 does not hold on the code. With one entry and two overlapping runs of
the callback, the entry is queried by both runs; the first answer sets
`checked` and raises `confirmedCount` to 1, the second answer sets `checked`
again and raises `confirmedCount` to 2: the entry is counted twice. -/
theorem overlapping_ticks_count_entry_twice :
    (pollerAfterSend 1).shared.pendingTxs =
      [{ hash := "0xaa", index := 1, checked := false }] ∧
    (runEvents 1 1 (overlapOneEntry.take 3) (pollerAfterSend 1)).shared.pendingTxs =
      [{ hash := "0xaa", index := 1, checked := true }] ∧
    (runEvents 1 1 (overlapOneEntry.take 3) (pollerAfterSend 1)).shared.confirmedCount = 1 ∧
    (runEvents 1 1 overlapOneEntry (pollerAfterSend 1)).shared.pendingTxs =
      [{ hash := "0xaa", index := 1, checked := true }] ∧
    (runEvents 1 1 overlapOneEntry (pollerAfterSend 1)).shared.confirmedCount = 2 ∧
    (runEvents 1 1 overlapOneEntry (pollerAfterSend 1)).shared.effects =
      [.getTransactionReceipt "0xaa", .getTransactionReceipt "0xaa"] ∧
    (runEvents 1 1 overlapOneEntry (pollerAfterSend 1)).shared.output =
      [.confirmed "0xaa" 1, .progress 1 0, .finalResult 1 1,
       .confirmed "0xaa" 2, .progress 2 0, .finalResult 2 1] := by
  decide


/-! ## The tick that runs alone is a run of the event loop -/

theorem resume_checked (total : Int) (successCount : Nat) (pre rest : List PendingTx)
    (tx : PendingTx) (c sp : Nat) (b : Bool) (o : List LogLine) (e : List Effect)
    (h : tx.checked = true) :
    resume total successCount pre.length sp
        { pendingTxs := pre ++ tx :: rest, confirmedCount := c, intervalActive := b,
          output := o, effects := e } =
      resume total successCount (pre ++ [tx]).length sp
        { pendingTxs := (pre ++ [tx]) ++ rest, confirmedCount := c, intervalActive := b,
          output := o, effects := e } := by
  unfold resume
  have h1 : (pre ++ tx :: rest).drop pre.length = tx :: rest := by simp
  have h2 : ((pre ++ [tx]) ++ rest).drop (pre ++ [tx]).length = rest := by
    rw [List.drop_left]
  have h3 : (pre ++ [tx]).length = pre.length + 1 := by simp
  have h4 : (pre ++ [tx]) ++ rest = pre ++ tx :: rest := by simp
  dsimp only
  rw [h1, h2, skipChecked, if_pos h, h3, h4]

theorem resume_unchecked (total : Int) (successCount : Nat) (pre rest : List PendingTx)
    (tx : PendingTx) (c sp : Nat) (b : Bool) (o : List LogLine) (e : List Effect)
    (h : tx.checked = false) :
    resume total successCount pre.length sp
        { pendingTxs := pre ++ tx :: rest, confirmedCount := c, intervalActive := b,
          output := o, effects := e } =
      ({ pendingTxs := pre ++ tx :: rest, confirmedCount := c, intervalActive := b,
         output := o, effects := e ++ [.getTransactionReceipt tx.hash] },
       some { i := pre.length, stillPending := sp }) := by
  unfold resume
  have h1 : (pre ++ tx :: rest).drop pre.length = tx :: rest := by simp
  dsimp only
  rw [h1, skipChecked, if_neg (by rw [h]; decide)]

theorem afterAwait_effects (ans : ReceiptAnswer) (tx : PendingTx) (v : TickVars) :
    (afterAwait ans tx v).2.effects = v.effects := by
  cases ans with
  | noReceipt => rfl
  | throws => rfl
  | receipt status =>
    unfold afterAwait
    dsimp only
    split <;> rfl

theorem pollStep_answer_alone (total : Int) (successCount : Nat) (pre rest : List PendingTx)
    (tx : PendingTx) (c sp : Nat) (b : Bool) (o : List LogLine) (e : List Effect)
    (ans : ReceiptAnswer) :
    pollStep total successCount
        { shared := { pendingTxs := pre ++ tx :: rest, confirmedCount := c,
                      intervalActive := b, output := o, effects := e }
          waiting := [{ i := pre.length, stillPending := sp }] }
        (.answer 0 ans) =
      { shared := (resume total successCount (pre.length + 1)
          (afterAwait ans tx
            { confirmedCount := c, stillPending := sp, output := o, effects := e }).2.stillPending
          { pendingTxs := pre ++ (afterAwait ans tx
              { confirmedCount := c, stillPending := sp, output := o, effects := e }).1 :: rest
            confirmedCount := (afterAwait ans tx
              { confirmedCount := c, stillPending := sp, output := o,
                effects := e }).2.confirmedCount
            intervalActive := b
            output := (afterAwait ans tx
              { confirmedCount := c, stillPending := sp, output := o, effects := e }).2.output
            effects := e }).1
        waiting := (resume total successCount (pre.length + 1)
          (afterAwait ans tx
            { confirmedCount := c, stillPending := sp, output := o, effects := e }).2.stillPending
          { pendingTxs := pre ++ (afterAwait ans tx
              { confirmedCount := c, stillPending := sp, output := o, effects := e }).1 :: rest
            confirmedCount := (afterAwait ans tx
              { confirmedCount := c, stillPending := sp, output := o,
                effects := e }).2.confirmedCount
            intervalActive := b
            output := (afterAwait ans tx
              { confirmedCount := c, stillPending := sp, output := o, effects := e }).2.output
            effects := e }).2.toList } := by
  have hget : (pre ++ tx :: rest).get? pre.length = some tx := by
    rw [List.get?_eq_getElem?, List.getElem?_append_right (le_refl _)]
    simp
  have hset : ∀ t : PendingTx, (pre ++ tx :: rest).set pre.length t = pre ++ t :: rest := by
    intro t; simp
  unfold pollStep
  simp only [List.get?_cons_zero, hget, hset]
  congr 1
  split <;> rename_i heq <;> rw [heq] <;> rfl

theorem tickVars_eta (x : TickVars) (e : List Effect) (h : x.effects = e) :
    ({ confirmedCount := x.confirmedCount, stillPending := x.stillPending,
       output := x.output, effects := e } : TickVars) = x := by
  cases x
  simp_all

theorem forLoop_cons_checked (answer : Nat → ReceiptAnswer) (i : Nat) (tx : PendingTx)
    (rest : List PendingTx) (v : TickVars) (h : tx.checked = true) :
    forLoop answer i (tx :: rest) v =
      (tx :: (forLoop answer (i + 1) rest v).1, (forLoop answer (i + 1) rest v).2) := by
  rw [forLoop]
  simp [visit, h]

theorem forLoop_cons_unchecked (answer : Nat → ReceiptAnswer) (i : Nat) (tx : PendingTx)
    (rest : List PendingTx) (v : TickVars) (h : tx.checked = false) :
    forLoop answer i (tx :: rest) v =
      ((afterAwait (answer i) tx (query tx v)).1 ::
          (forLoop answer (i + 1) rest (afterAwait (answer i) tx (query tx v)).2).1,
        (forLoop answer (i + 1) rest (afterAwait (answer i) tx (query tx v)).2).2) := by
  rw [forLoop]
  simp [visit, h]

/-- From any loop position, a run of the callback whose answers arrive before
anything else happens ends in the state computed by the `for` loop. -/
theorem runEvents_from (total : Int) (successCount : Nat) (answer : Nat → ReceiptAnswer) :
    ∀ (rest pre : List PendingTx) (c sp : Nat) (b : Bool) (o : List LogLine) (e : List Effect),
      runEvents total successCount (tickEvents answer pre.length rest)
          { shared := (resume total successCount pre.length sp
              { pendingTxs := pre ++ rest, confirmedCount := c, intervalActive := b,
                output := o, effects := e }).1
            waiting := (resume total successCount pre.length sp
              { pendingTxs := pre ++ rest, confirmedCount := c, intervalActive := b,
                output := o, effects := e }).2.toList } =
        { shared := finishTick total successCount
            (pre ++ (forLoop answer pre.length rest
              { confirmedCount := c, stillPending := sp, output := o, effects := e }).1) b
            (forLoop answer pre.length rest
              { confirmedCount := c, stillPending := sp, output := o, effects := e }).2
          waiting := [] } := by
  intro rest
  induction rest with
  | nil =>
    intro pre c sp b o e
    simp [resume, skipChecked, tickEvents, runEvents, forLoop]
  | cons tx rest ih =>
    intro pre c sp b o e
    by_cases h : tx.checked = true
    · rw [resume_checked _ _ _ _ _ _ _ _ _ _ h, tickEvents, if_pos h,
        forLoop_cons_checked _ _ _ _ _ h]
      have := ih (pre ++ [tx]) c sp b o e
      rw [show (pre ++ [tx]).length = pre.length + 1 by simp] at this ⊢
      rw [this]
      simp
    · have h' : tx.checked = false := by simpa using h
      rw [resume_unchecked _ _ _ _ _ _ _ _ _ _ h', tickEvents, if_neg h,
        forLoop_cons_unchecked _ _ _ _ _ h']
      show runEvents total successCount (tickEvents answer (pre.length + 1) rest)
        (pollStep total successCount _ (.answer 0 (answer pre.length))) = _
      dsimp only [Option.toList]
      rw [pollStep_answer_alone]
      have hq : query tx { confirmedCount := c, stillPending := sp, output := o, effects := e } =
          { confirmedCount := c, stillPending := sp, output := o,
            effects := e ++ [.getTransactionReceipt tx.hash] } := rfl
      rw [hq]
      have he := afterAwait_effects (answer pre.length) tx
        { confirmedCount := c, stillPending := sp, output := o,
          effects := e ++ [.getTransactionReceipt tx.hash] }
      have := ih (pre ++ [(afterAwait (answer pre.length) tx
          { confirmedCount := c, stillPending := sp, output := o,
            effects := e ++ [.getTransactionReceipt tx.hash] }).1])
        (afterAwait (answer pre.length) tx
          { confirmedCount := c, stillPending := sp, output := o,
            effects := e ++ [.getTransactionReceipt tx.hash] }).2.confirmedCount
        (afterAwait (answer pre.length) tx
          { confirmedCount := c, stillPending := sp, output := o,
            effects := e ++ [.getTransactionReceipt tx.hash] }).2.stillPending
        b
        (afterAwait (answer pre.length) tx
          { confirmedCount := c, stillPending := sp, output := o,
            effects := e ++ [.getTransactionReceipt tx.hash] }).2.output
        (e ++ [.getTransactionReceipt tx.hash])
      rw [show (pre ++ [(afterAwait (answer pre.length) tx
          { confirmedCount := c, stillPending := sp, output := o,
            effects := e ++ [.getTransactionReceipt tx.hash] }).1]).length = pre.length + 1
        by simp] at this
      simp only [List.append_assoc, List.singleton_append] at this
      rw [tickVars_eta _ _ he] at this
      rw [this]

/-- The tick that runs alone is the event loop run on the timer followed by
the answers to its own queries, in ledger order, with nothing in between. -/
theorem runEvents_tick (total : Int) (successCount : Nat) (answer : Nat → ReceiptAnswer)
    (st : PollerState) (h : st.intervalActive = true) :
    runEvents total successCount (.timer :: tickEvents answer 0 st.pendingTxs)
        { shared := st, waiting := [] } =
      { shared := pollTick total successCount answer st, waiting := [] } := by
  have := runEvents_from total successCount answer st.pendingTxs [] st.confirmedCount 0
    st.intervalActive st.output st.effects
  simp only [List.length_nil, List.nil_append] at this
  rw [pollTick_active _ _ _ _ h]
  rw [h] at this
  rw [← this]
  show runEvents total successCount (tickEvents answer 0 st.pendingTxs)
    (pollStep total successCount { shared := st, waiting := [] } .timer) = _
  unfold pollStep
  simp only [h, if_true, List.nil_append]
  cases st
  simp_all


/-! ## What every interleaving keeps -/

theorem afterAwait_checked (ans : ReceiptAnswer) (tx : PendingTx) (v : TickVars)
    (h : tx.checked = true) : (afterAwait ans tx v).1 = tx := by
  cases ans with
  | noReceipt => rfl
  | throws => rfl
  | receipt status =>
    unfold afterAwait
    dsimp only
    cases tx
    simp only at h
    split <;> simp [h]

/-- No turn of the event loop changes an entry that is checked: `checked` is
never set back to false, whatever the interleaving. -/
theorem pollStep_keeps_checked (total : Int) (successCount : Nat) (w : EventLoop)
    (ev : PollEvent) (j : Nat) (tx : PendingTx)
    (h1 : w.shared.pendingTxs.get? j = some tx) (h2 : tx.checked = true) :
    (pollStep total successCount w ev).shared.pendingTxs.get? j = some tx := by
  cases ev with
  | timer =>
    unfold pollStep
    dsimp only
    split
    · rw [resume_pendingTxs]; exact h1
    · exact h1
  | answer k ans =>
    unfold pollStep
    dsimp only
    split
    · exact h1
    · rename_i s _
      split
      · exact h1
      · rename_i tx' htx'
        rw [resume_pendingTxs]
        dsimp only
        by_cases hj : s.i = j
        · subst hj
          rw [h1] at htx'
          cases htx'
          rw [afterAwait_checked _ _ _ h2]
          rw [List.get?_eq_getElem?] at h1 ⊢
          rw [List.getElem?_set_eq_of_lt]
          exact (List.getElem?_eq_some.mp h1).1
        · rw [List.get?_eq_getElem?] at h1 ⊢
          rw [List.getElem?_set_ne hj]
          exact h1

theorem runEvents_keeps_checked (total : Int) (successCount : Nat) :
    ∀ (events : List PollEvent) (w : EventLoop) (j : Nat) (tx : PendingTx),
      w.shared.pendingTxs.get? j = some tx → tx.checked = true →
      (runEvents total successCount events w).shared.pendingTxs.get? j = some tx := by
  intro events
  induction events with
  | nil => intro w j tx h1 _; exact h1
  | cons ev rest ih =>
    intro w j tx h1 h2
    exact ih (pollStep total successCount w ev) j tx
      (pollStep_keeps_checked total successCount w ev j tx h1 h2) h2


/-! ## The queries of a tick -/

/-- The queries of the `for` loop: one for each entry that is unchecked when
the loop reaches it, in ledger order, and none for a checked entry. -/
theorem forLoop_effects (answer : Nat → ReceiptAnswer) :
    ∀ (txs : List PendingTx) (i : Nat) (v : TickVars),
      (forLoop answer i txs v).2.effects =
        v.effects ++ (txs.filter (fun tx => !tx.checked)).map
          (fun tx => Effect.getTransactionReceipt tx.hash) := by
  intro txs
  induction txs with
  | nil => intro i v; simp [forLoop]
  | cons tx rest ih =>
    intro i v
    rw [forLoop]
    dsimp only
    rw [ih]
    by_cases hc : tx.checked = true
    · simp [visit, hc]
    · have hc' : tx.checked = false := by simpa using hc
      simp only [visit, hc', Bool.false_eq_true, if_false, afterAwait_effects, query,
        List.filter_cons, Bool.not_false, if_true, List.map_cons, List.append_assoc,
        List.singleton_append]

/-- A tick that runs alone queries exactly the entries that are unchecked at
its start, once each. -/
theorem pollTick_effects (total : Int) (successCount : Nat) (answer : Nat → ReceiptAnswer)
    (st : PollerState) (h : st.intervalActive = true) :
    (pollTick total successCount answer st).effects =
      st.effects ++ (st.pendingTxs.filter (fun tx => !tx.checked)).map
        (fun tx => Effect.getTransactionReceipt tx.hash) := by
  rw [pollTick_active _ _ _ _ h]
  have : ∀ (txs : List PendingTx) (v : TickVars),
      (finishTick total successCount txs true v).effects = v.effects := by
    intro txs v
    unfold finishTick
    dsimp only
    split <;> rfl
  rw [this, forLoop_effects]


/-! ## The ledger during dispatch -/

theorem afterAttempts_hashes (submit : Nat → Option String) (n : Nat) :
    (afterAttempts submit n).pendingTxs.map (fun tx => tx.hash) =
      (List.range n).filterMap (fun k => submit (k + 1)) := by
  induction n with
  | zero => rfl
  | succ n ih =>
    rw [afterAttempts, List.range_succ, List.filterMap_append]
    cases hs : submit (n + 1) with
    | none => simp [attempt, ih, hs]
    | some h => simp [attempt, ih, hs]

/-- C15 as stated fails: when the endpoint returns the hash `0xaa` for both
submissions of a run with `total = 2`, the ledger holds two entries with that
hash. -/
theorem duplicate_hash_is_appended :
    (trickyMintHybridSend exampleParams 2 activeStatus 150000 sameHash).1.pendingTxs =
      [{ hash := "0xaa", index := 1, checked := false },
       { hash := "0xaa", index := 2, checked := false }] := by
  decide

/-- C15, amended. The dispatch loop only appends: the hashes in the ledger are
the hashes returned by the successful submissions, in order and with
repetitions, so the ledger has as many entries as `successCount`; it holds no
hash twice when no hash is returned by two submissions. -/
theorem ledger_is_append_only (p : MintParams) (total : Int) (dropStatus : DropStatus)
    (dateNow : Nat) (submit : Nat → Option String) :
    (trickyMintHybridSend p total dropStatus dateNow submit).1.pendingTxs.map
        (fun tx => tx.hash) =
      (List.range (trickyMintHybridSend p total dropStatus dateNow submit).1.attemptCount).filterMap
        (fun k => submit (k + 1)) ∧
    (trickyMintHybridSend p total dropStatus dateNow submit).1.pendingTxs.length =
      (trickyMintHybridSend p total dropStatus dateNow submit).1.successCount ∧
    ((∀ i j h, submit i = some h → submit j = some h → i = j) →
      ((trickyMintHybridSend p total dropStatus dateNow submit).1.pendingTxs.map
        (fun tx => tx.hash)).Nodup) := by
  obtain ⟨N, h1, _, _, _⟩ := trickyMintHybridSend_run p total dropStatus dateNow submit
  rw [h1, afterAttempts_attemptCount]
  refine ⟨afterAttempts_hashes submit N, (afterAttempts_tally submit N).1, ?_⟩
  intro hinj
  rw [afterAttempts_hashes]
  apply List.Nodup.filterMap _ (List.nodup_range N)
  intro a a' b hb hb'
  have := hinj (a + 1) (a' + 1) b (by simpa using hb) (by simpa using hb')
  omega


/-! ## The final report -/

theorem finalReport_append (a b : List LogLine) :
    finalReport (a ++ b) = finalReport a ++ finalReport b := by
  simp [finalReport]

theorem visit_finalReport (ans : ReceiptAnswer) (tx : PendingTx) (v : TickVars) :
    finalReport (visit ans tx v).2.output = finalReport v.output := by
  unfold visit
  split
  · rfl
  · cases ans with
    | noReceipt => rfl
    | throws => rfl
    | receipt status =>
      unfold afterAwait query
      dsimp only
      split <;> simp [finalReport]

theorem forLoop_finalReport (answer : Nat → ReceiptAnswer) :
    ∀ (txs : List PendingTx) (i : Nat) (v : TickVars),
      finalReport (forLoop answer i txs v).2.output = finalReport v.output := by
  intro txs
  induction txs with
  | nil => intro i v; rfl
  | cons tx rest ih =>
    intro i v
    rw [forLoop]
    dsimp only
    rw [ih, visit_finalReport]

theorem visit_countFailed (ans : ReceiptAnswer) (tx : PendingTx) (v : TickVars) :
    countFailed (visit ans tx v).2.output =
      countFailed v.output +
        (if !tx.checked && ans.hasReceipt && !ans.isSuccess then 1 else 0) := by
  unfold visit
  by_cases hc : tx.checked = true
  · simp [hc]
  · simp only [hc, if_false]
    cases ans with
    | noReceipt => simp [afterAwait, query, ReceiptAnswer.hasReceipt]
    | throws => simp [afterAwait, query, ReceiptAnswer.hasReceipt]
    | receipt status =>
      by_cases hs : status = 1
      · simp [afterAwait, query, ReceiptAnswer.hasReceipt, ReceiptAnswer.isSuccess, hs,
          countFailed]
      · simp [afterAwait, query, ReceiptAnswer.hasReceipt, ReceiptAnswer.isSuccess, hs,
          hc, countFailed]

theorem forLoop_countFailed (answer : Nat → ReceiptAnswer) :
    ∀ (txs : List PendingTx) (i : Nat) (v : TickVars),
      countFailed (forLoop answer i txs v).2.output =
        countFailed v.output +
          (txs.enumFrom i).countP
            (fun jt => !jt.2.checked && (answer jt.1).hasReceipt && !(answer jt.1).isSuccess) := by
  intro txs
  induction txs with
  | nil => intro i v; simp [forLoop]
  | cons tx rest ih =>
    intro i v
    rw [forLoop]
    dsimp only
    rw [ih, visit_countFailed, List.enumFrom_cons, List.countP_cons]
    dsimp only
    omega

/-- C16 as stated fails. Two runs with `total = 2` and two submitted
transactions end with the same final report, `Final Result: 2/2`: one in which
both entries are confirmed, and one in which two overlapping runs of the
callback count the first entry twice and the second entry is still unchecked.
A third run, with one entry confirmed and one failed, ends with
`Final Result: 1/2` and the warning that transactions may still be pending,
although no entry is unchecked. -/
theorem final_report_omits_unresolved :
    finalReport (pollTick 2 2 (fun _ => .receipt 1) (pollerAfterSend 2).shared).output =
      [.finalResult 2 2] ∧
    countUnchecked (pollTick 2 2 (fun _ => .receipt 1) (pollerAfterSend 2).shared).pendingTxs
      = 0 ∧
    finalReport (runEvents 2 2 overlapTwoEntries (pollerAfterSend 2)).shared.output =
      [.finalResult 2 2] ∧
    countUnchecked (runEvents 2 2 overlapTwoEntries (pollerAfterSend 2)).shared.pendingTxs
      = 1 ∧
    finalReport (pollTick 2 2 exampleAnswerDone (pollerAfterSend 2).shared).output =
      [.finalResult 1 2, .pendingWarning] ∧
    countFailed (pollTick 2 2 exampleAnswerDone (pollerAfterSend 2).shared).output = 1 ∧
    countUnchecked (pollTick 2 2 exampleAnswerDone (pollerAfterSend 2).shared).pendingTxs
      = 0 := by
  decide

/-- What a tick that runs alone adds to the final report and to the `Failed`
lines. -/
theorem pollTick_report (total : Int) (successCount : Nat)
    (answer : Nat → ReceiptAnswer) (st : PollerState) (h : st.intervalActive = true) :
    ((pollTick total successCount answer st).intervalActive = false →
      finalReport (pollTick total successCount answer st).output =
        finalReport st.output ++
          [.finalResult (pollTick total successCount answer st).confirmedCount successCount] ++
          (if ((pollTick total successCount answer st).confirmedCount : Int) < total
            then [.pendingWarning] else [])) ∧
    ((pollTick total successCount answer st).intervalActive = true →
      finalReport (pollTick total successCount answer st).output = finalReport st.output) ∧
    countFailed (pollTick total successCount answer st).output =
      countFailed st.output +
        st.pendingTxs.enum.countP
          (fun jt => !jt.2.checked && (answer jt.1).hasReceipt && !(answer jt.1).isSuccess) := by
  have hc := finishTick_confirmedCount total successCount
    (forLoop answer 0 st.pendingTxs
      { confirmedCount := st.confirmedCount, stillPending := 0,
        output := st.output, effects := st.effects }).1 true
    (forLoop answer 0 st.pendingTxs
      { confirmedCount := st.confirmedCount, stillPending := 0,
        output := st.output, effects := st.effects }).2
  rw [pollTick_active _ _ _ _ h]
  rw [hc]
  refine ⟨?_, ?_, ?_⟩
  · unfold finishTick
    dsimp only
    split
    · intro _
      simp only [finalReport_append, forLoop_finalReport]
      split <;> simp [finalReport]
    · intro hx
      simp at hx
  · unfold finishTick
    dsimp only
    split
    · intro hx
      simp at hx
    · intro _
      simp only [finalReport_append, forLoop_finalReport]
      simp [finalReport]
  · rw [finishTick_countFailed, forLoop_countFailed]
    rfl

/-- C16, amended. When a tick that runs alone stops the poller, the final
report it prints is the line `Final Result: confirmedCount/successCount`,
followed by the pending warning exactly when `confirmedCount < total`; a tick
that does not stop the poller prints no report. The report carries no count of
unchecked or of failed entries. A `Failed` line is printed only for an
unchecked entry whose query returns a receipt with a status other than 1,
never for an entry without a receipt. -/
theorem final_report_contents (total : Int) (successCount : Nat)
    (answer : Nat → ReceiptAnswer) (st : PollerState) (h : st.intervalActive = true) :
    ((pollTick total successCount answer st).intervalActive = false →
      finalReport (pollTick total successCount answer st).output =
        finalReport st.output ++
          [.finalResult (pollTick total successCount answer st).confirmedCount successCount] ++
          (if ((pollTick total successCount answer st).confirmedCount : Int) < total
            then [.pendingWarning] else [])) ∧
    ((pollTick total successCount answer st).intervalActive = true →
      finalReport (pollTick total successCount answer st).output = finalReport st.output) ∧
    countFailed (pollTick total successCount answer st).output =
      countFailed st.output +
        st.pendingTxs.enum.countP
          (fun jt => !jt.2.checked && (answer jt.1).hasReceipt && !(answer jt.1).isSuccess) :=
  pollTick_report total successCount answer st h

/-- C16, amended, on the ledger of three entries: the first is confirmed, the
others failed, and the report is `Final Result: 1/3` with the warning. -/
theorem final_report_contents_witness :
    examplePoller.intervalActive = true ∧
    (pollTick 3 3 exampleAnswerDone examplePoller).intervalActive = false ∧
    finalReport (pollTick 3 3 exampleAnswerDone examplePoller).output =
      [.finalResult 1 3, .pendingWarning] :=
  ⟨rfl, by decide,
   (final_report_contents 3 3 exampleAnswerDone examplePoller rfl).1 (by decide)⟩


/-! ## A run that used up its attempt budget -/

/-- When the ticks run one after another, the final report of a run with
`successCount < total` is empty while the poller runs and is
`Final Result: confirmedCount/successCount` with the pending warning once it
has stopped. -/
theorem pollTicks_report_incomplete (total : Int) (answers : Nat → Nat → ReceiptAnswer)
    (submit : Nat → Option String) (N : Nat)
    (hlt : ((afterAttempts submit N).successCount : Int) < total) :
    ∀ n,
      ((pollTicks total (afterAttempts submit N).successCount answers n
          (PollerState.start (afterAttempts submit N))).intervalActive = true ∧
        finalReport (pollTicks total (afterAttempts submit N).successCount answers n
          (PollerState.start (afterAttempts submit N))).output = []) ∨
      ((pollTicks total (afterAttempts submit N).successCount answers n
          (PollerState.start (afterAttempts submit N))).intervalActive = false ∧
        finalReport (pollTicks total (afterAttempts submit N).successCount answers n
          (PollerState.start (afterAttempts submit N))).output =
          [.finalResult (pollTicks total (afterAttempts submit N).successCount answers n
              (PollerState.start (afterAttempts submit N))).confirmedCount
            (afterAttempts submit N).successCount, .pendingWarning]) := by
  intro n
  induction n with
  | zero => left; exact ⟨rfl, rfl⟩
  | succ n ih =>
    have htally := (pollTicks_tally total (afterAttempts submit N).successCount answers
      submit N (n + 1)).1
    rw [pollTicks] at htally ⊢
    rcases ih with ⟨ha, hr⟩ | ⟨ha, hr⟩
    · obtain ⟨h1, h2, _⟩ := pollTick_report total (afterAttempts submit N).successCount
        (answers n) _ ha
      by_cases hstop : (pollTick total (afterAttempts submit N).successCount (answers n)
          (pollTicks total (afterAttempts submit N).successCount answers n
            (PollerState.start (afterAttempts submit N)))).intervalActive = true
      · left; exact ⟨hstop, by rw [h2 hstop, hr]⟩
      · right
        have hstop' : (pollTick total (afterAttempts submit N).successCount (answers n)
          (pollTicks total (afterAttempts submit N).successCount answers n
            (PollerState.start (afterAttempts submit N)))).intervalActive = false := by
          simpa using hstop
        refine ⟨hstop', ?_⟩
        rw [h1 hstop', hr, if_pos (by omega)]
        rfl
    · right
      have hid : pollTick total (afterAttempts submit N).successCount (answers n)
          (pollTicks total (afterAttempts submit N).successCount answers n
            (PollerState.start (afterAttempts submit N))) =
          pollTicks total (afterAttempts submit N).successCount answers n
            (PollerState.start (afterAttempts submit N)) := by
        unfold pollTick
        rw [if_neg (by rw [ha]; decide)]
      rw [hid]
      exact ⟨ha, hr⟩

/-- C17 does not hold on the code. With `total = 3` the endpoint accepts two
submissions and rejects four, so the loop ends on its budget of 6 attempts
with `successCount = 2`. Two overlapping runs of the callback both count the
first entry and the first run counts the second: `confirmedCount` reaches 3,
the poller stops, and the final report is `Final Result: 3/2` without the
pending warning. -/
theorem overlapping_ticks_hide_incomplete_run :
    (trickyMintHybridSend exampleParams 3 activeStatus 150000 acceptTwo).1.successCount = 2 ∧
    (trickyMintHybridSend exampleParams 3 activeStatus 150000 acceptTwo).1.attemptCount = 6 ∧
    (runEvents 3 2 overlapAllConfirmed
      { shared := PollerState.start
          (trickyMintHybridSend exampleParams 3 activeStatus 150000 acceptTwo).1
        waiting := [] }).shared.intervalActive = false ∧
    (runEvents 3 2 overlapAllConfirmed
      { shared := PollerState.start
          (trickyMintHybridSend exampleParams 3 activeStatus 150000 acceptTwo).1
        waiting := [] }).shared.confirmedCount = 3 ∧
    finalReport (runEvents 3 2 overlapAllConfirmed
      { shared := PollerState.start
          (trickyMintHybridSend exampleParams 3 activeStatus 150000 acceptTwo).1
        waiting := [] }).shared.output = [.finalResult 3 2] := by
  decide


/-! ## Two scenarios: every receipt at once, and no receipt ever -/

theorem afterAttempts_all_accepted (submit : Nat → Option String)
    (hs : ∀ k, (submit k).isSome = true) (n : Nat) :
    (afterAttempts submit n).successCount = n ∧
    (afterAttempts submit n).pendingTxs.length = n ∧
    ∀ tx ∈ (afterAttempts submit n).pendingTxs, tx.checked = false := by
  induction n with
  | zero => exact ⟨rfl, rfl, by intro tx h; cases h⟩
  | succ n ih =>
    obtain ⟨h1, h2, h3⟩ := ih
    rw [afterAttempts]
    cases hk : submit (n + 1) with
    | none => have := hs (n + 1); rw [hk] at this; cases this
    | some hash =>
      refine ⟨by simp [attempt, h1], by simp [attempt, h2], ?_⟩
      intro tx htx
      simp only [attempt, List.mem_append, List.mem_singleton] at htx
      rcases htx with htx | htx
      · exact h3 tx htx
      · rw [htx]

theorem afterAttempts_unchecked (submit : Nat → Option String) (n : Nat) :
    ∀ tx ∈ (afterAttempts submit n).pendingTxs, tx.checked = false := by
  induction n with
  | zero => intro tx h; cases h
  | succ n ih =>
    rw [afterAttempts]
    cases submit (n + 1) with
    | none => exact ih
    | some hash =>
      intro tx htx
      simp only [attempt, List.mem_append, List.mem_singleton] at htx
      rcases htx with htx | htx
      · exact ih tx htx
      · rw [htx]

theorem countP_enumFrom_all (txs : List PendingTx) (i : Nat)
    (f : Nat × PendingTx → Bool) (hf : ∀ jt ∈ txs.enumFrom i, f jt = true) :
    (txs.enumFrom i).countP f = txs.length := by
  rw [List.countP_eq_length.mpr hf, List.enumFrom_length]

theorem countP_enumFrom_none (txs : List PendingTx) (i : Nat)
    (f : Nat × PendingTx → Bool) (hf : ∀ jt ∈ txs.enumFrom i, f jt = false) :
    (txs.enumFrom i).countP f = 0 := by
  rw [List.countP_eq_zero]
  intro jt h
  rw [hf jt h]
  decide

/-- A first tick that runs alone. For `total ≥ 1`, when every submission is
accepted and every query of the first tick returns a receipt with status 1,
phase 1 makes exactly `total` attempts, all of them successful, and the first
tick, when no second run of the callback starts before it ends, stops the
poller with `confirmedCount = total`, no `Failed` line and no unchecked
entry. -/
theorem all_confirmed_in_first_tick (p : MintParams) (total : Int) (dropStatus : DropStatus)
    (dateNow : Nat) (submit : Nat → Option String) (answer : Nat → ReceiptAnswer)
    (h : 1 ≤ total) (hs : ∀ k, (submit k).isSome = true)
    (ha : ∀ j : Nat, (j : Int) < total → answer j = .receipt 1) :
    ((trickyMintHybridSend p total dropStatus dateNow submit).1.attemptCount : Int) = total ∧
    (countMint (trickyMintHybridSend p total dropStatus dateNow submit).2 : Int) = total ∧
    ((trickyMintHybridSend p total dropStatus dateNow submit).1.successCount : Int) = total ∧
    (pollTick total (trickyMintHybridSend p total dropStatus dateNow submit).1.successCount
      answer (PollerState.start
        (trickyMintHybridSend p total dropStatus dateNow submit).1)).intervalActive = false ∧
    ((pollTick total (trickyMintHybridSend p total dropStatus dateNow submit).1.successCount
      answer (PollerState.start
        (trickyMintHybridSend p total dropStatus dateNow submit).1)).confirmedCount : Int)
      = total ∧
    countFailed (pollTick total
      (trickyMintHybridSend p total dropStatus dateNow submit).1.successCount
      answer (PollerState.start
        (trickyMintHybridSend p total dropStatus dateNow submit).1)).output = 0 ∧
    countUnchecked (pollTick total
      (trickyMintHybridSend p total dropStatus dateNow submit).1.successCount
      answer (PollerState.start
        (trickyMintHybridSend p total dropStatus dateNow submit).1)).pendingTxs = 0 := by
  obtain ⟨N, h1, h2, h3, h4⟩ := trickyMintHybridSend_run p total dropStatus dateNow submit
  obtain ⟨a1, a2, a3⟩ := afterAttempts_all_accepted submit hs N
  -- the loop stops after exactly `total` attempts
  have hN : (N : Int) = total := by
    have hx := h2
    simp only [loopGuard, Bool.and_eq_false_imp, decide_eq_true_eq, decide_eq_false_iff_not,
      afterAttempts_attemptCount, not_lt, a1] at hx
    have hge : total ≤ (N : Int) := by
      by_contra hc
      have := hx (by omega)
      omega
    by_contra hne
    have hpos : 0 < N := by omega
    have hprev := h3 (N - 1) (by omega)
    simp only [loopGuard, Bool.and_eq_true, decide_eq_true_eq, afterAttempts_attemptCount,
      (afterAttempts_all_accepted submit hs (N - 1)).1] at hprev
    omega
  rw [h1, h4, afterAttempts_attemptCount, a1]
  have hact : (PollerState.start (afterAttempts submit N)).intervalActive = true := rfl
  have hsp : tickStillPending answer (afterAttempts submit N).pendingTxs = 0 := by
    unfold tickStillPending List.enum
    apply countP_enumFrom_none
    intro jt hjt
    have hlt : jt.1 < N := by
      have := List.fst_lt_add_of_mem_enumFrom hjt
      omega
    rw [ha jt.1 (by omega)]
    simp [ReceiptAnswer.hasReceipt]
  have hcf : tickConfirmed answer (afterAttempts submit N).pendingTxs = N := by
    unfold tickConfirmed List.enum
    rw [countP_enumFrom_all, a2]
    intro jt hjt
    have hlt : jt.1 < N := by
      have := List.fst_lt_add_of_mem_enumFrom hjt
      omega
    have hck := a3 jt.2 (List.snd_mem_of_mem_enumFrom hjt)
    rw [ha jt.1 (by omega), hck]
    rfl
  have hcc := pollTick_confirmedCount total N answer _ hact
  rw [show (PollerState.start (afterAttempts submit N)).pendingTxs =
      (afterAttempts submit N).pendingTxs from rfl, hcf] at hcc
  have hstop : (pollTick total N answer
      (PollerState.start (afterAttempts submit N))).intervalActive = false := by
    rw [pollTick_active _ _ _ _ hact, finishTick_stops, forLoop_stillPending]
    left; exact hsp
  have htally := pollTick_tally total N answer (PollerState.start (afterAttempts submit N))
  have hun : countUnchecked (pollTick total N answer
      (PollerState.start (afterAttempts submit N))).pendingTxs = 0 := by
    rw [pollTick_pendingTxs _ _ _ _ hact]
    have := tickStillPending_eq_countUnchecked answer (afterAttempts submit N).pendingTxs 0
    unfold tickStillPending List.enum at hsp
    rw [hsp] at this
    exact this.symm
  have h0 : (PollerState.start (afterAttempts submit N)).confirmedCount = 0 := rfl
  have hf0 : countFailed (PollerState.start (afterAttempts submit N)).output = 0 := rfl
  have hu0 : countUnchecked (PollerState.start (afterAttempts submit N)).pendingTxs = N := by
    rw [show (PollerState.start (afterAttempts submit N)).pendingTxs =
      (afterAttempts submit N).pendingTxs from rfl, (afterAttempts_tally submit N).2.1, a1]
  rw [h0] at hcc
  rw [h0, hf0, hu0, hun, hcc] at htally
  refine ⟨hN, by exact_mod_cast hN, hN, hstop, by rw [hcc]; simpa using hN, by omega, hun⟩

/-- The first tick that runs alone at `total = 3`: three attempts, and the
tick ends with the tally submitted 3, confirmed 3, reverted 0, unresolved 0. -/
theorem all_confirmed_in_first_tick_witness :
    (1 : Int) ≤ 3 ∧
    (trickyMintHybridSend exampleParams 3 activeStatus 150000 acceptAll).1.successCount = 3 ∧
    ((pollTick 3 (trickyMintHybridSend exampleParams 3 activeStatus 150000 acceptAll).1.successCount
      (fun _ => .receipt 1) (PollerState.start
        (trickyMintHybridSend exampleParams 3 activeStatus 150000 acceptAll).1)).confirmedCount
      : Int) = 3 :=
  ⟨by decide, by decide,
   (all_confirmed_in_first_tick exampleParams 3 activeStatus 150000 acceptAll
      (fun _ => .receipt 1) (by decide)
      (by intro k; unfold acceptAll; split <;> rfl) (by intro j _; rfl)).2.2.2.2.1⟩


theorem finishTick_keeps_running (total : Int) (successCount : Nat) (txs : List PendingTx)
    (v : TickVars) (hsp : 1 ≤ v.stillPending) (hc : v.confirmedCount = 0) (ht : 1 ≤ total) :
    finishTick total successCount txs true v =
      { pendingTxs := txs, confirmedCount := 0, intervalActive := true,
        output := v.output ++ [.progress 0 v.stillPending], effects := v.effects } := by
  unfold finishTick
  dsimp only
  rw [if_neg (by rw [hc]; push_cast; omega), hc]

theorem set_same (txs : List PendingTx) (i : Nat) (tx : PendingTx)
    (h : txs.get? i = some tx) : txs.set i tx = txs := by
  rw [List.get?_eq_getElem?] at h
  apply List.ext_getElem?
  intro n
  rw [List.getElem?_set]
  split
  · rename_i hin
    subst hin
    split
    · exact h.symm
    · rename_i hlt
      rw [List.getElem?_eq_none (by omega)]
  · rfl

theorem skipChecked_unchecked (txs : List PendingTx) (i : Nat)
    (hu : ∀ tx ∈ txs, tx.checked = false) :
    skipChecked txs i = (txs.head?).map (fun tx => (i, tx)) := by
  cases txs with
  | nil => rfl
  | cons tx rest =>
    rw [skipChecked, if_neg (by rw [hu tx (List.mem_cons_self _ _)]; decide)]
    rfl

/-- With every entry unchecked, no entry confirmed and `total ≥ 1`, a run of
the callback that goes on from position `i` leaves the ledger, the count and
the interval as they are and prints no `Failed` line, provided it has counted
a pending entry or still has an entry to visit. -/
theorem resume_keeps_running (total : Int) (successCount : Nat) (i sp : Nat)
    (st : PollerState) (ht : 1 ≤ total)
    (hu : ∀ tx ∈ st.pendingTxs, tx.checked = false) (hc : st.confirmedCount = 0)
    (ha : st.intervalActive = true) (hi : 1 ≤ sp ∨ i < st.pendingTxs.length) :
    (resume total successCount i sp st).1.pendingTxs = st.pendingTxs ∧
    (resume total successCount i sp st).1.confirmedCount = 0 ∧
    (resume total successCount i sp st).1.intervalActive = true ∧
    countFailed (resume total successCount i sp st).1.output = countFailed st.output := by
  have hdrop : ∀ tx ∈ st.pendingTxs.drop i, tx.checked = false :=
    fun tx h => hu tx (List.mem_of_mem_drop h)
  unfold resume
  rw [skipChecked_unchecked _ _ hdrop]
  cases hd : (st.pendingTxs.drop i).head? with
  | some tx => exact ⟨rfl, hc, ha, rfl⟩
  | none =>
    have hlen : st.pendingTxs.length ≤ i := by
      rw [List.head?_eq_none_iff] at hd
      exact List.drop_eq_nil_iff.mp hd
    have hsp : 1 ≤ sp := by
      rcases hi with h | h
      · exact h
      · omega
    dsimp only [Option.map]
    rw [ha, finishTick_keeps_running _ _ _ _ hsp hc ht]
    exact ⟨rfl, rfl, rfl, by simp [countFailed]⟩

/-- One turn of the event loop, the timer or a `no receipt` answer, in a state
where every entry is unchecked and none is confirmed. -/
theorem pollStep_keeps_running (total : Int) (successCount : Nat) (w : EventLoop)
    (ev : PollEvent) (ht : 1 ≤ total) (hne : w.shared.pendingTxs ≠ [])
    (hu : ∀ tx ∈ w.shared.pendingTxs, tx.checked = false) (hc : w.shared.confirmedCount = 0)
    (ha : w.shared.intervalActive = true)
    (hev : ev = .timer ∨ ∃ k, ev = .answer k .noReceipt) :
    (pollStep total successCount w ev).shared.pendingTxs = w.shared.pendingTxs ∧
    (pollStep total successCount w ev).shared.confirmedCount = 0 ∧
    (pollStep total successCount w ev).shared.intervalActive = true ∧
    countFailed (pollStep total successCount w ev).shared.output =
      countFailed w.shared.output := by
  rcases hev with hev | ⟨k, hev⟩
  · subst hev
    unfold pollStep
    rw [if_pos ha]
    exact resume_keeps_running total successCount 0 0 w.shared ht hu hc ha
      (Or.inr (List.length_pos.mpr hne))
  · subst hev
    unfold pollStep
    dsimp only
    split
    · exact ⟨rfl, hc, ha, rfl⟩
    · rename_i s _
      split
      · exact ⟨rfl, hc, ha, rfl⟩
      · rename_i tx htx
        have hset : w.shared.pendingTxs.set s.i tx = w.shared.pendingTxs :=
          set_same _ _ _ htx
        have hr := resume_keeps_running total successCount (s.i + 1) (s.stillPending + 1)
          { pendingTxs := w.shared.pendingTxs, confirmedCount := w.shared.confirmedCount,
            intervalActive := w.shared.intervalActive, output := w.shared.output,
            effects := w.shared.effects } ht hu hc ha (Or.inl (Nat.le_add_left 1 _))
        simp only [afterAwait, hset]
        exact hr

theorem runEvents_keeps_running (total : Int) (successCount : Nat) (ht : 1 ≤ total) :
    ∀ (events : List PollEvent) (w : EventLoop),
      w.shared.pendingTxs ≠ [] → (∀ tx ∈ w.shared.pendingTxs, tx.checked = false) →
      w.shared.confirmedCount = 0 → w.shared.intervalActive = true →
      (∀ ev ∈ events, ev = .timer ∨ ∃ k, ev = .answer k .noReceipt) →
      (runEvents total successCount events w).shared.pendingTxs = w.shared.pendingTxs ∧
      (runEvents total successCount events w).shared.confirmedCount = 0 ∧
      (runEvents total successCount events w).shared.intervalActive = true ∧
      countFailed (runEvents total successCount events w).shared.output =
        countFailed w.shared.output := by
  intro events
  induction events with
  | nil => intro w _ _ hc ha _; exact ⟨rfl, hc, ha, rfl⟩
  | cons ev rest ih =>
    intro w hne hu hc ha hev
    obtain ⟨s1, s2, s3, s4⟩ := pollStep_keeps_running total successCount w ev ht hne hu hc ha
      (hev ev (List.mem_cons_self _ _))
    obtain ⟨r1, r2, r3, r4⟩ := ih (pollStep total successCount w ev)
      (by rw [s1]; exact hne) (by rw [s1]; exact hu) s2 s3
      (fun e he => hev e (List.mem_cons_of_mem _ he))
    have hcons : runEvents total successCount (ev :: rest) w =
        runEvents total successCount rest (pollStep total successCount w ev) := rfl
    rw [hcons]
    exact ⟨by rw [r1, s1], r2, r3, by rw [r4, s4]⟩

theorem pollTicks_eq_runEvents (total : Int) (successCount : Nat)
    (answers : Nat → Nat → ReceiptAnswer) :
    ∀ (n : Nat) (st : PollerState),
      ∃ events : List PollEvent,
        (∀ ev ∈ events, ev = .timer ∨
          ∃ t j, ev = .answer 0 (answers t j)) ∧
        runEvents total successCount events { shared := st, waiting := [] } =
          { shared := pollTicks total successCount answers n st, waiting := [] } := by
  intro n
  induction n with
  | zero =>
    intro st
    refine ⟨[], ?_, rfl⟩
    intro ev h
    cases h
  | succ n ih =>
    intro st
    obtain ⟨evs, h1, h2⟩ := ih st
    by_cases ha : (pollTicks total successCount answers n st).intervalActive = true
    · refine ⟨evs ++ (.timer :: tickEvents (answers n) 0
        (pollTicks total successCount answers n st).pendingTxs), ?_, ?_⟩
      · intro ev hev
        rcases List.mem_append.mp hev with h | h
        · exact h1 ev h
        · rcases List.mem_cons.mp h with h | h
          · exact Or.inl h
          · right
            have : ∀ (txs : List PendingTx) (i : Nat) (e : PollEvent),
                e ∈ tickEvents (answers n) i txs → ∃ j, e = .answer 0 (answers n j) := by
              intro txs
              induction txs with
              | nil => intro i e he; cases he
              | cons tx rest ihl =>
                intro i e he
                rw [tickEvents] at he
                split at he
                · exact ihl (i + 1) e he
                · rcases List.mem_cons.mp he with he | he
                  · exact ⟨i, he⟩
                  · exact ihl (i + 1) e he
            obtain ⟨j, hj⟩ := this _ _ _ h
            exact ⟨n, j, hj⟩
      · unfold runEvents at h2 ⊢
        rw [List.foldl_append, h2]
        exact runEvents_tick total successCount (answers n) _ ha
    · refine ⟨evs, h1, ?_⟩
      rw [h2, pollTicks]
      unfold pollTick
      rw [if_neg ha]

/-- C19. For `total ≥ 1` and a phase 1 that left at least one entry in the
ledger, when every receipt query returns no receipt, then after any number of
ticks that run one after another, and after any interleaving of timer turns
and answers of overlapping runs, the poller has not stopped, the ledger is as
phase 1 left it with every entry unchecked, `confirmedCount` is 0 and no
`Failed` line was printed. -/
theorem no_receipt_never_stops (p : MintParams) (total : Int) (dropStatus : DropStatus)
    (dateNow : Nat) (submit : Nat → Option String) (h : 1 ≤ total)
    (hne : (trickyMintHybridSend p total dropStatus dateNow submit).1.pendingTxs ≠ []) :
    (∀ (ticks : Nat),
      (trickyMintHybrid p total dropStatus dateNow submit
        (fun _ _ => .noReceipt) ticks).2.2.intervalActive = true ∧
      (trickyMintHybrid p total dropStatus dateNow submit
        (fun _ _ => .noReceipt) ticks).2.2.pendingTxs =
        (trickyMintHybridSend p total dropStatus dateNow submit).1.pendingTxs ∧
      (trickyMintHybrid p total dropStatus dateNow submit
        (fun _ _ => .noReceipt) ticks).2.2.confirmedCount = 0 ∧
      countFailed (trickyMintHybrid p total dropStatus dateNow submit
        (fun _ _ => .noReceipt) ticks).2.2.output = 0 ∧
      countUnchecked (trickyMintHybrid p total dropStatus dateNow submit
        (fun _ _ => .noReceipt) ticks).2.2.pendingTxs =
        (trickyMintHybridSend p total dropStatus dateNow submit).1.pendingTxs.length) ∧
    (∀ (events : List PollEvent),
      (∀ ev ∈ events, ev = .timer ∨ ∃ k, ev = .answer k .noReceipt) →
      (runEvents total (trickyMintHybridSend p total dropStatus dateNow submit).1.successCount
        events (EventLoop.start (trickyMintHybridSend p total dropStatus dateNow submit).1)).shared.intervalActive = true ∧
      (runEvents total (trickyMintHybridSend p total dropStatus dateNow submit).1.successCount
        events (EventLoop.start (trickyMintHybridSend p total dropStatus dateNow submit).1)).shared.pendingTxs =
        (trickyMintHybridSend p total dropStatus dateNow submit).1.pendingTxs ∧
      (runEvents total (trickyMintHybridSend p total dropStatus dateNow submit).1.successCount
        events (EventLoop.start (trickyMintHybridSend p total dropStatus dateNow submit).1)).shared.confirmedCount = 0) := by
  obtain ⟨N, h1, _, _, _⟩ := trickyMintHybridSend_run p total dropStatus dateNow submit
  have hu : ∀ tx ∈ (trickyMintHybridSend p total dropStatus dateNow submit).1.pendingTxs,
      tx.checked = false := by
    rw [h1]; exact afterAttempts_unchecked submit N
  have hcu : countUnchecked (trickyMintHybridSend p total dropStatus dateNow submit).1.pendingTxs
      = (trickyMintHybridSend p total dropStatus dateNow submit).1.pendingTxs.length := by
    rw [h1, (afterAttempts_tally submit N).2.1, (afterAttempts_tally submit N).1]
  have key := runEvents_keeps_running total
    (trickyMintHybridSend p total dropStatus dateNow submit).1.successCount h
  constructor
  · intro ticks
    obtain ⟨evs, e1, e2⟩ := pollTicks_eq_runEvents total
      (trickyMintHybridSend p total dropStatus dateNow submit).1.successCount
      (fun _ _ => ReceiptAnswer.noReceipt) ticks
      (PollerState.start (trickyMintHybridSend p total dropStatus dateNow submit).1)
    obtain ⟨k1, k2, k3, k4⟩ := key evs
      (EventLoop.start (trickyMintHybridSend p total dropStatus dateNow submit).1) hne hu rfl rfl
      (by
        intro ev hev
        rcases e1 ev hev with h | ⟨_, _, h⟩
        · exact Or.inl h
        · exact Or.inr ⟨0, h⟩)
    have e2' : runEvents total
        (trickyMintHybridSend p total dropStatus dateNow submit).1.successCount evs
        (EventLoop.start (trickyMintHybridSend p total dropStatus dateNow submit).1) = _ := e2
    rw [e2'] at k1 k2 k3 k4
    refine ⟨k3, k1, k2, k4, ?_⟩
    show countUnchecked (pollTicks total _ _ ticks _).pendingTxs = _
    dsimp only at k1
    rw [k1]
    exact hcu
  · intro events hev
    obtain ⟨k1, k2, k3, _⟩ := key events
      (EventLoop.start (trickyMintHybridSend p total dropStatus dateNow submit).1) hne hu rfl rfl hev
    exact ⟨k3, k1, k2⟩

/-- C19 with `total = 2`, two accepted submissions and three ticks without a
receipt: the interval is still active. -/
theorem no_receipt_never_stops_witness :
    (1 : Int) ≤ 2 ∧
    (trickyMintHybridSend exampleParams 2 activeStatus 150000 acceptAll).1.pendingTxs ≠ [] ∧
    (trickyMintHybrid exampleParams 2 activeStatus 150000 acceptAll
      (fun _ _ => .noReceipt) 3).2.2.intervalActive = true :=
  ⟨by decide, by decide,
   ((no_receipt_never_stops exampleParams 2 activeStatus 150000 acceptAll (by decide)
      (by decide)).1 3).1⟩


/-! ## Dispatch does not look at receipts -/

theorem dispatchLoop_effects_kind (p : MintParams) (total : Int)
    (submit : Nat → Option String) :
    ∀ (fuel : Nat) (st : DispatchState),
      ∀ e ∈ (dispatchLoop p total submit fuel st).2, e = mintCall p ∨ e = .sleep 50 := by
  intro fuel
  induction fuel with
  | zero => intro st e he; cases he
  | succ fuel ih =>
    intro st e he
    rw [dispatchLoop] at he
    split at he
    · dsimp only at he
      split at he
      · simp only [List.mem_singleton] at he
        exact Or.inl he
      · simp only [List.mem_cons] at he
        rcases he with he | he | he
        · exact Or.inl he
        · exact Or.inr he
        · exact ih _ e he
    · cases he

theorem waitForDrop_effects_kind (dropStatus : DropStatus) (dateNow : Nat) :
    ∀ e ∈ waitForDrop dropStatus dateNow, ∃ ms, e = .sleep ms := by
  intro e he
  unfold waitForDrop at he
  split at he
  · split at he
    · dsimp only at he
      split at he
      · simp only [List.mem_singleton] at he
        exact ⟨_, he⟩
      · cases he
    · cases he
  · cases he

theorem send_effects_no_query (p : MintParams) (total : Int) (dropStatus : DropStatus)
    (dateNow : Nat) (submit : Nat → Option String) :
    ∀ e ∈ (trickyMintHybridSend p total dropStatus dateNow submit).2,
      e.isReceiptQuery = false := by
  intro e he
  have he' : e ∈ waitForDrop dropStatus dateNow ++
      (dispatchLoop p total submit (total * 2).toNat DispatchState.init).2 := he
  rcases List.mem_append.mp he' with h | h
  · obtain ⟨ms, hms⟩ := waitForDrop_effects_kind dropStatus dateNow e h
    rw [hms]; rfl
  · rcases dispatchLoop_effects_kind p total submit _ _ e h with h | h
    · rw [h]; rfl
    · rw [h]; rfl

theorem pollTick_effects_queries (total : Int) (successCount : Nat)
    (answer : Nat → ReceiptAnswer) (st : PollerState)
    (h : ∀ e ∈ st.effects, e.isReceiptQuery = true) :
    ∀ e ∈ (pollTick total successCount answer st).effects, e.isReceiptQuery = true := by
  by_cases ha : st.intervalActive = true
  · rw [pollTick_effects _ _ _ _ ha]
    intro e he
    rcases List.mem_append.mp he with he | he
    · exact h e he
    · obtain ⟨tx, _, htx⟩ := List.mem_map.mp he
      rw [← htx]; rfl
  · unfold pollTick
    rw [if_neg ha]
    exact h

theorem pollTicks_effects_queries (total : Int) (successCount : Nat)
    (answers : Nat → Nat → ReceiptAnswer) (d : DispatchState) :
    ∀ (n : Nat), ∀ e ∈ (pollTicks total successCount answers n (PollerState.start d)).effects,
      e.isReceiptQuery = true := by
  intro n
  induction n with
  | zero => intro e he; cases he
  | succ n ih =>
    rw [pollTicks]
    exact pollTick_effects_queries total successCount (answers n) _ ih

theorem resume_effects_queries (total : Int) (successCount : Nat) (i sp : Nat)
    (st : PollerState) (h : ∀ e ∈ st.effects, e.isReceiptQuery = true) :
    ∀ e ∈ (resume total successCount i sp st).1.effects, e.isReceiptQuery = true := by
  unfold resume
  split
  · intro e he
    rcases List.mem_append.mp he with he | he
    · exact h e he
    · simp only [List.mem_singleton] at he
      rw [he]; rfl
  · unfold finishTick
    dsimp only
    split <;> exact h

theorem pollStep_effects_queries (total : Int) (successCount : Nat) (w : EventLoop)
    (ev : PollEvent) (h : ∀ e ∈ w.shared.effects, e.isReceiptQuery = true) :
    ∀ e ∈ (pollStep total successCount w ev).shared.effects, e.isReceiptQuery = true := by
  cases ev with
  | timer =>
    unfold pollStep
    dsimp only
    split
    · exact resume_effects_queries total successCount 0 0 w.shared h
    · exact h
  | answer k ans =>
    unfold pollStep
    dsimp only
    split
    · exact h
    · split
      · exact h
      · exact resume_effects_queries total successCount _ _ _ h

theorem runEvents_effects_queries (total : Int) (successCount : Nat) :
    ∀ (events : List PollEvent) (w : EventLoop),
      (∀ e ∈ w.shared.effects, e.isReceiptQuery = true) →
      ∀ e ∈ (runEvents total successCount events w).shared.effects,
        e.isReceiptQuery = true := by
  intro events
  induction events with
  | nil => intro w h; exact h
  | cons ev rest ih =>
    intro w h
    exact ih (pollStep total successCount w ev)
      (pollStep_effects_queries total successCount w ev h)

/-- C20. Phase 1 of `trickyMintHybrid` issues no receipt query: its effects are
waits and `mintMulti` calls. Its loop variables (ledger, `successCount`,
`attemptCount`) and its effects are the same for any two receipt behaviours of
the endpoint, and the loop variables are the same for any call parameters, drop
status and clock: they depend on `total` and the submission outcomes alone.
Every effect of the poller, with ticks one after another or overlapping, is a
receipt query, and in the trace of the whole run no `mintMulti` call follows a
receipt query. -/
theorem dispatch_ignores_receipts (p : MintParams) (total : Int) (dropStatus : DropStatus)
    (dateNow : Nat) (submit : Nat → Option String) :
    (∀ e ∈ (trickyMintHybridSend p total dropStatus dateNow submit).2,
      e.isReceiptQuery = false) ∧
    (∀ (answers answers' : Nat → Nat → ReceiptAnswer) (ticks ticks' : Nat),
      (trickyMintHybrid p total dropStatus dateNow submit answers ticks).1 =
        (trickyMintHybrid p total dropStatus dateNow submit answers' ticks').1 ∧
      (trickyMintHybrid p total dropStatus dateNow submit answers ticks).2.1 =
        (trickyMintHybrid p total dropStatus dateNow submit answers' ticks').2.1) ∧
    (∀ (p' : MintParams) (dropStatus' : DropStatus) (dateNow' : Nat),
      (trickyMintHybridSend p' total dropStatus' dateNow' submit).1 =
        (trickyMintHybridSend p total dropStatus dateNow submit).1 ∧
      countMint (trickyMintHybridSend p' total dropStatus' dateNow' submit).2 =
        countMint (trickyMintHybridSend p total dropStatus dateNow submit).2) ∧
    (∀ (answers : Nat → Nat → ReceiptAnswer) (ticks : Nat),
      ∀ e ∈ (trickyMintHybrid p total dropStatus dateNow submit answers ticks).2.2.effects,
        e.isReceiptQuery = true) ∧
    (∀ (events : List PollEvent),
      ∀ e ∈ (runEvents total
          (trickyMintHybridSend p total dropStatus dateNow submit).1.successCount events
          (EventLoop.start (trickyMintHybridSend p total dropStatus dateNow submit).1)
        ).shared.effects,
        e.isReceiptQuery = true) ∧
    (∀ (answers : Nat → Nat → ReceiptAnswer) (ticks : Nat) (pre post : List Effect)
        (e : Effect),
      trickyMintHybridTrace p total dropStatus dateNow submit answers ticks =
        pre ++ e :: post →
      e.isReceiptQuery = true → ∀ e' ∈ post, e'.isMint = false) := by
  have hq := send_effects_no_query p total dropStatus dateNow submit
  have hpoll : ∀ (answers : Nat → Nat → ReceiptAnswer) (ticks : Nat),
      ∀ e ∈ (trickyMintHybrid p total dropStatus dateNow submit answers ticks).2.2.effects,
        e.isReceiptQuery = true :=
    fun answers ticks => pollTicks_effects_queries total _ answers _ ticks
  have hnm : ∀ e : Effect, e.isReceiptQuery = true → e.isMint = false := by
    intro e he
    cases e <;> first | rfl | cases he
  refine ⟨hq, fun _ _ _ _ => ⟨rfl, rfl⟩, ?_, hpoll, ?_, ?_⟩
  · intro p' dropStatus' dateNow'
    obtain ⟨N, h1, h2, h3, h4⟩ := trickyMintHybridSend_run p total dropStatus dateNow submit
    obtain ⟨M, m1, m2, m3, m4⟩ := trickyMintHybridSend_run p' total dropStatus' dateNow' submit
    have hNM : M = N := by
      rcases Nat.lt_trichotomy M N with hlt | heq | hgt
      · have := h3 M hlt; rw [m2] at this; cases this
      · exact heq
      · have := m3 N hgt; rw [h2] at this; cases this
    rw [h1, m1, h4, m4, hNM]
    exact ⟨rfl, rfl⟩
  · intro events
    exact runEvents_effects_queries total _ events _ (by intro e he; cases he)
  · intro answers ticks pre post e htrace he e' he'
    have hsplit : (trickyMintHybridSend p total dropStatus dateNow submit).2 ++
        (trickyMintHybrid p total dropStatus dateNow submit answers ticks).2.2.effects =
        pre ++ e :: post := htrace
    rcases List.append_eq_append_iff.mp hsplit with ⟨a', _, ha2⟩ | ⟨c', hc1, hc2⟩
    · apply hnm
      apply hpoll answers ticks
      rw [ha2]
      exact List.mem_append_right _ (List.mem_cons_of_mem _ he')
    · cases c' with
      | nil =>
        apply hnm
        apply hpoll answers ticks
        rw [List.nil_append] at hc2
        rw [← hc2]
        exact List.mem_cons_of_mem _ he'
      | cons x rest =>
        have hx : e = x := by
          simp only [List.cons_append, List.cons.injEq] at hc2
          exact hc2.1
        have hmem : e ∈ (trickyMintHybridSend p total dropStatus dateNow submit).2 := by
          rw [hc1, hx]
          exact List.mem_append_right _ (List.mem_cons_self _ _)
        have := hq e hmem
        rw [he] at this
        cases this

/-- C20 on a run with `total = 2`, two accepted submissions and one tick
without receipts: the trace is two `mintMulti` calls with a wait between them,
then the two receipt queries. -/
theorem dispatch_ignores_receipts_witness :
    trickyMintHybridTrace exampleParams 2 activeStatus 150000 acceptAll
        (fun _ _ => .noReceipt) 1 =
      [mintCall exampleParams, .sleep 50, mintCall exampleParams] ++
        Effect.getTransactionReceipt "0xaa" :: [Effect.getTransactionReceipt "0xbb"] ∧
    ∀ e' ∈ [Effect.getTransactionReceipt "0xbb"], e'.isMint = false :=
  ⟨by decide,
   (dispatch_ignores_receipts exampleParams 2 activeStatus 150000 acceptAll).2.2.2.2.2
      (fun _ _ => .noReceipt) 1 [mintCall exampleParams, .sleep 50, mintCall exampleParams]
      [Effect.getTransactionReceipt "0xbb"] (Effect.getTransactionReceipt "0xaa")
      (by decide) rfl⟩



/-! ## Gas price resolver -/

set_option maxRecDepth 100000

theorem jsTrim_whitespace (s : List Char) (h : ∀ c ∈ s, isJsWhiteSpace c = true) :
    jsTrim s = [] := by
  unfold jsTrim
  have : s.dropWhile isJsWhiteSpace = [] := by
    rw [List.dropWhile_eq_nil_iff]
    exact h
  rw [this]
  rfl

theorem isBlank_of_whitespace (s : String) (h : ∀ c ∈ s.toList, isJsWhiteSpace c = true) :
    isBlank (some s) = true := by
  unfold isBlank
  dsimp only
  rw [jsTrim_whitespace _ h]
  simp

/-- C13. For a blank input (absent, empty, or whitespace only) and an endpoint
that suggests the price `p`, the resolver answers with one `getGasPrice` call
and returns `p` scaled with floor division: `p * 12 / 10` in `main.js`,
`p * 120 / 100` in `new.js`, `p * 105 / 100` in `new5.js`. The two multipliers
of 1.2 give the same value, and `p = 100` gives 120. -/
theorem blank_input_scales_suggested_price (unicodeLower : List Char → List Char)
    (input : Option String) (getGasPrice : Nat → Option Nat) (p : Nat)
    (hb : input = none ∨ ∃ s, input = some s ∧ ∀ c ∈ s.toList, isJsWhiteSpace c = true)
    (hp : getGasPrice 1 = some p) :
    parseGasPriceGweiInput unicodeLower input getGasPrice =
      { result := some ((p * 12 / 10 : Nat) : Int), queries := 1, warned := false } ∧
    NewJs.parseGasPrice unicodeLower input getGasPrice =
      { result := some ((p * 120 / 100 : Nat) : Int), queries := 1, warned := false } ∧
    parseGasPrice unicodeLower input getGasPrice =
      { result := some ((p * 105 / 100 : Nat) : Int), queries := 1, warned := false } ∧
    p * 12 / 10 = p * 120 / 100 ∧
    (p = 100 → p * 12 / 10 = 120 ∧ p * 105 / 100 = 105) := by
  have hblank : isBlank input = true := by
    rcases hb with h | ⟨s, h, hs⟩
    · rw [h]; rfl
    · rw [h]; exact isBlank_of_whitespace s hs
  refine ⟨?_, ?_, ?_, by omega, by intro h; subst h; decide⟩
  · unfold parseGasPriceGweiInput
    rw [if_pos hblank, hp]
  · unfold NewJs.parseGasPrice
    rw [if_pos hblank, hp]
    rfl
  · unfold parseGasPrice
    rw [if_pos hblank, hp]
    rfl

/-- C13 at the empty input with a suggested price of 100. -/
theorem blank_input_scales_suggested_price_witness :
    ((some "" : Option String) = none ∨
      ∃ s, (some "" : Option String) = some s ∧ ∀ c ∈ s.toList, isJsWhiteSpace c = true) ∧
    suggests 100 1 = some 100 ∧
    NewJs.parseGasPrice id (some "") (suggests 100) =
      { result := some 120, queries := 1, warned := false } :=
  ⟨Or.inr ⟨"", rfl, by intro c hc; cases hc⟩, rfl,
   (blank_input_scales_suggested_price id (some "") (suggests 100) 100
      (Or.inr ⟨"", rfl, by intro c hc; cases hc⟩) rfl).2.1⟩


/-- C11 as stated fails: the resolver of each variant returns 0 for a blank
input when the endpoint suggests a price of 0, returns 0 for the input `0`,
and returns `-1000000000` for the input `-1`, without failing. -/
theorem resolver_returns_zero_and_negative :
    parseGasPrice id (some "") (suggests 0) =
      { result := some 0, queries := 1, warned := false } ∧
    NewJs.parseGasPrice id (some "") (suggests 0) =
      { result := some 0, queries := 1, warned := false } ∧
    parseGasPriceGweiInput id (some "") (suggests 0) =
      { result := some 0, queries := 1, warned := false } ∧
    parseGasPrice id (some "0") (suggests 100) =
      { result := some 0, queries := 0, warned := false } ∧
    parseGasPriceGweiInput id (some "0") (suggests 100) =
      { result := some 0, queries := 0, warned := false } ∧
    parseGasPrice id (some "-1") (suggests 100) =
      { result := some (-1000000000), queries := 0, warned := false } ∧
    parseGasPriceGweiInput id (some "-1") (suggests 100) =
      { result := some (-1000000000), queries := 0, warned := false } := by
  decide

theorem scaledGasPrice_isSome (num den : Nat) (answer : Option Nat)
    (h : answer.isSome = true) : (scaledGasPrice num den answer).isSome = true := by
  cases answer with
  | none => cases h
  | some gas => rfl

/-- C11, amended. The resolver makes no check of the sign of its result. For a
blank input and a suggested price `p` it returns `p` scaled by the multiplier
with floor division, which is never negative and is 0 exactly when `p = 0`.
For every input it returns a value whenever the endpoint answers its
`getGasPrice` calls: it fails only when such a call fails, never because the
value is zero or negative. -/
theorem resolver_has_no_sign_check (unicodeLower : List Char → List Char)
    (input : Option String) (getGasPrice : Nat → Option Nat) :
    (∀ p, isBlank input = true → getGasPrice 1 = some p →
      (parseGasPrice unicodeLower input getGasPrice).result =
        some ((p * 105 / 100 : Nat) : Int) ∧
      (NewJs.parseGasPrice unicodeLower input getGasPrice).result =
        some ((p * 120 / 100 : Nat) : Int) ∧
      (parseGasPriceGweiInput unicodeLower input getGasPrice).result =
        some ((p * 12 / 10 : Nat) : Int) ∧
      (p * 105 / 100 = 0 ↔ p = 0) ∧ (p * 120 / 100 = 0 ↔ p = 0) ∧
      (p * 12 / 10 = 0 ↔ p = 0)) ∧
    ((∀ k, (getGasPrice k).isSome = true) →
      (parseGasPrice unicodeLower input getGasPrice).result.isSome = true ∧
      (NewJs.parseGasPrice unicodeLower input getGasPrice).result.isSome = true ∧
      (parseGasPriceGweiInput unicodeLower input getGasPrice).result.isSome = true) := by
  constructor
  · intro p hb hp
    refine ⟨?_, ?_, ?_, by omega, by omega, by omega⟩
    · unfold parseGasPrice
      rw [if_pos hb, hp]; rfl
    · unfold NewJs.parseGasPrice
      rw [if_pos hb, hp]; rfl
    · unfold parseGasPriceGweiInput
      rw [if_pos hb, hp]
  · intro hall
    refine ⟨?_, ?_, ?_⟩
    · unfold parseGasPrice
      split
      · exact scaledGasPrice_isSome _ _ _ (hall 1)
      · split
        · rfl
        · exact scaledGasPrice_isSome _ _ _ (hall 1)
    · unfold NewJs.parseGasPrice
      split
      · exact scaledGasPrice_isSome _ _ _ (hall 1)
      · split
        · rfl
        · exact scaledGasPrice_isSome _ _ _ (hall 1)
    · unfold parseGasPriceGweiInput
      split
      · split
        · rfl
        · exact scaledGasPrice_isSome _ _ _ (hall 2)
      · split
        · rfl
        · exact scaledGasPrice_isSome _ _ _ (hall 1)

/-- C11, amended, at the empty input with a suggested price of 0: the result
is 0. -/
theorem resolver_has_no_sign_check_witness :
    isBlank (some "") = true ∧ suggests 0 1 = some 0 ∧
    (parseGasPrice id (some "") (suggests 0)).result = some 0 :=
  ⟨rfl, rfl,
   ((resolver_has_no_sign_check id (some "") (suggests 0)).1 0 rfl rfl).1⟩

theorem parseUnitsGwei_nan : parseUnitsGwei (numberToString .nan) = none := by
  decide

theorem parseUnitsGwei_infinity (negative : Bool) :
    parseUnitsGwei (numberToString (.infinity negative)) = none := by
  cases negative <;> decide

/-- C12. For a non-blank input whose text, lowered, with `gwei` removed and
trimmed, is parsed by `parseFloat` to `NaN` or to an infinity, and an endpoint
that suggests the price `p`: `parseUnits` throws, the `catch` prints its
warning, and the resolver returns what it returns for a blank input, `p`
scaled by the variant's multiplier, after one `getGasPrice` call. -/
theorem unparsable_input_falls_back (unicodeLower : List Char → List Char) (s : String)
    (getGasPrice : Nat → Option Nat) (p : Nat)
    (hnb : isBlank (some s) = false) (hp : getGasPrice 1 = some p) :
    ((parseFloat (jsTrim (removeFirst "gwei".toList
          (toLowerCase unicodeLower s.toList))) = .nan ∨
        ∃ negative, parseFloat (jsTrim (removeFirst "gwei".toList
          (toLowerCase unicodeLower s.toList))) = .infinity negative) →
      parseGasPrice unicodeLower (some s) getGasPrice =
        { result := some ((p * 105 / 100 : Nat) : Int), queries := 1, warned := true } ∧
      (parseGasPrice unicodeLower (some s) getGasPrice).result =
        (parseGasPrice unicodeLower none getGasPrice).result ∧
      NewJs.parseGasPrice unicodeLower (some s) getGasPrice =
        { result := some ((p * 120 / 100 : Nat) : Int), queries := 1, warned := true } ∧
      (NewJs.parseGasPrice unicodeLower (some s) getGasPrice).result =
        (NewJs.parseGasPrice unicodeLower none getGasPrice).result) ∧
    ((parseFloat (jsTrim (removeFirst "gwei".toList
          (toLowerCase unicodeLower (jsTrim s.toList)))) = .nan ∨
        ∃ negative, parseFloat (jsTrim (removeFirst "gwei".toList
          (toLowerCase unicodeLower (jsTrim s.toList)))) = .infinity negative) →
      parseGasPriceGweiInput unicodeLower (some s) getGasPrice =
        { result := some ((p * 12 / 10 : Nat) : Int), queries := 1, warned := true } ∧
      (parseGasPriceGweiInput unicodeLower (some s) getGasPrice).result =
        (parseGasPriceGweiInput unicodeLower none getGasPrice).result) := by
  have hthrow : ∀ x : JsNumber, (x = .nan ∨ ∃ negative, x = .infinity negative) →
      parseUnitsGwei (numberToString x) = none := by
    intro x hx
    rcases hx with h | ⟨negative, h⟩
    · rw [h]; exact parseUnitsGwei_nan
    · rw [h]; exact parseUnitsGwei_infinity negative
  have hnone5 : (parseGasPrice unicodeLower none getGasPrice).result =
      some ((p * 105 / 100 : Nat) : Int) := by
    unfold parseGasPrice
    rw [if_pos (show isBlank none = true from rfl), hp]; rfl
  have hnoneN : (NewJs.parseGasPrice unicodeLower none getGasPrice).result =
      some ((p * 120 / 100 : Nat) : Int) := by
    unfold NewJs.parseGasPrice
    rw [if_pos (show isBlank none = true from rfl), hp]; rfl
  have hnoneM : (parseGasPriceGweiInput unicodeLower none getGasPrice).result =
      some ((p * 12 / 10 : Nat) : Int) := by
    unfold parseGasPriceGweiInput
    rw [if_pos (show isBlank none = true from rfl), hp]
  constructor
  · intro hx
    have ht := hthrow _ hx
    have h5 : parseGasPrice unicodeLower (some s) getGasPrice =
        { result := some ((p * 105 / 100 : Nat) : Int), queries := 1, warned := true } := by
      unfold parseGasPrice
      rw [if_neg (by rw [hnb]; decide)]
      unfold gweiText
      simp only [Option.getD_some]
      rw [ht, hp]; rfl
    have hN : NewJs.parseGasPrice unicodeLower (some s) getGasPrice =
        { result := some ((p * 120 / 100 : Nat) : Int), queries := 1, warned := true } := by
      unfold NewJs.parseGasPrice
      rw [if_neg (by rw [hnb]; decide)]
      unfold gweiText
      simp only [Option.getD_some]
      rw [ht, hp]; rfl
    exact ⟨h5, by rw [h5, hnone5], hN, by rw [hN, hnoneN]⟩
  · intro hx
    have ht := hthrow _ hx
    have hM : parseGasPriceGweiInput unicodeLower (some s) getGasPrice =
        { result := some ((p * 12 / 10 : Nat) : Int), queries := 1, warned := true } := by
      unfold parseGasPriceGweiInput
      rw [if_neg (by rw [hnb]; decide)]
      unfold gweiTextMain
      simp only [Option.getD_some]
      rw [ht, hp]; rfl
    exact ⟨hM, by rw [hM, hnoneM]⟩

/-- C12 at the input `abc` with a suggested price of 100: `new5.js` returns
105, the value of the blank path, with the warning. -/
theorem unparsable_input_falls_back_witness :
    isBlank (some "abc") = false ∧ suggests 100 1 = some 100 ∧
    parseFloat (jsTrim (removeFirst "gwei".toList (toLowerCase id "abc".toList))) = .nan ∧
    parseGasPrice id (some "abc") (suggests 100) =
      { result := some 105, queries := 1, warned := true } :=
  ⟨by decide, rfl, by decide,
   ((unparsable_input_falls_back id "abc" (suggests 100) 100 (by decide) rfl).1
      (Or.inl (by decide))).1⟩


/-! ## Whole numbers of gwei -/

/-! ## Whole numbers through `parseFloat`, `toString` and `parseUnits` -/

theorem digitChar_toNat (d : Nat) (h : d < 10) : (Char.ofNat (48 + d)).toNat - 48 = d := by
  interval_cases d <;> rfl

theorem digitChar_isDigit (d : Nat) (h : d < 10) : (Char.ofNat (48 + d)).isDigit = true := by
  interval_cases d <;> rfl

theorem digitChar_not_space (d : Nat) (h : d < 10) :
    isJsWhiteSpace (Char.ofNat (48 + d)) = false := by
  interval_cases d <;> rfl

theorem natDigits_fuel : ∀ (f g n : Nat), n < f → n < g → natDigits f n = natDigits g n := by
  intro f
  induction f with
  | zero => intro g n h; omega
  | succ f ih =>
    intro g n hf hg
    cases g with
    | zero => omega
    | succ g =>
      rw [natDigits, natDigits]
      split
      · rfl
      · rw [ih g (n / 10) (by omega) (by omega)]

theorem natText_small (n : Nat) (h : n < 10) : natText n = [Char.ofNat (48 + n)] := by
  unfold natText
  rw [natDigits, if_pos h]

theorem natText_step (n : Nat) (h : 10 ≤ n) :
    natText n = natText (n / 10) ++ [Char.ofNat (48 + n % 10)] := by
  unfold natText
  rw [natDigits, if_neg (by omega)]
  rw [natDigits_fuel n (n / 10 + 1) (n / 10) (by omega) (by omega)]

theorem digitsValue_append (xs : List Char) (c : Char) :
    digitsValue (xs ++ [c]) = digitsValue xs * 10 + (c.toNat - 48) := by
  unfold digitsValue
  rw [List.foldl_append]
  rfl

theorem digitsValue_natText (n : Nat) : digitsValue (natText n) = n := by
  induction n using Nat.strong_induction_on with
  | _ n ih =>
    by_cases h : n < 10
    · rw [natText_small n h]
      show 0 * 10 + ((Char.ofNat (48 + n)).toNat - 48) = n
      rw [digitChar_toNat n h]; omega
    · rw [natText_step n (by omega), digitsValue_append, ih (n / 10) (by omega),
        digitChar_toNat _ (Nat.mod_lt _ (by decide))]
      omega

theorem natText_isDigit (n : Nat) : ∀ c ∈ natText n, c.isDigit = true := by
  induction n using Nat.strong_induction_on with
  | _ n ih =>
    by_cases h : n < 10
    · rw [natText_small n h]
      intro c hc
      rw [List.mem_singleton] at hc
      rw [hc]; exact digitChar_isDigit n h
    · rw [natText_step n (by omega)]
      intro c hc
      rcases List.mem_append.mp hc with hc | hc
      · exact ih (n / 10) (by omega) c hc
      · rw [List.mem_singleton] at hc
        rw [hc]; exact digitChar_isDigit _ (Nat.mod_lt _ (by decide))

theorem natText_ne_nil (n : Nat) : natText n ≠ [] := by
  by_cases h : n < 10
  · rw [natText_small n h]; exact List.cons_ne_nil _ _
  · rw [natText_step n (by omega)]
    intro hc
    have := congrArg List.length hc
    simp at this

theorem natText_length_bounds (n : Nat) :
    n < 10 ^ (natText n).length ∧ (0 < n → 10 ^ ((natText n).length - 1) ≤ n) := by
  induction n using Nat.strong_induction_on with
  | _ n ih =>
    by_cases h : n < 10
    · rw [natText_small n h]
      exact ⟨by simpa using h, by intro hp; simpa using hp⟩
    · obtain ⟨h1, h2⟩ := ih (n / 10) (by omega)
      rw [natText_step n (by omega)]
      simp only [List.length_append, List.length_singleton, Nat.add_sub_cancel]
      have hpos : 0 < (natText (n / 10)).length :=
        List.length_pos.mpr (natText_ne_nil _)
      constructor
      · rw [Nat.pow_succ]; omega
      · intro _
        have h3 := h2 (by omega)
        have : (natText (n / 10)).length = ((natText (n / 10)).length - 1) + 1 := by omega
        rw [this, Nat.pow_succ]
        omega

theorem natText_length_unique (s K : Nat) (hK : 1 ≤ K) (h1 : 10 ^ (K - 1) ≤ s)
    (h2 : s < 10 ^ K) : (natText s).length = K := by
  obtain ⟨b1, b2⟩ := natText_length_bounds s
  have hs : 0 < s := Nat.lt_of_lt_of_le (Nat.pow_pos (by decide)) h1
  have b3 := b2 hs
  have hpos : 0 < (natText s).length := List.length_pos.mpr (natText_ne_nil _)
  by_contra hne
  rcases Nat.lt_or_gt_of_ne hne with hlt | hgt
  · have : 10 ^ (natText s).length ≤ 10 ^ (K - 1) :=
      Nat.pow_le_pow_right (by decide) (by omega)
    omega
  · have : 10 ^ K ≤ 10 ^ ((natText s).length - 1) :=
      Nat.pow_le_pow_right (by decide) (by omega)
    omega

theorem natText_mul_ten (b : Nat) (hb : 0 < b) : natText (b * 10) = natText b ++ ['0'] := by
  rw [natText_step (b * 10) (by omega)]
  have h1 : b * 10 / 10 = b := by omega
  have h2 : b * 10 % 10 = 0 := by omega
  rw [h1, h2]

theorem natText_mul_pow (a : Nat) (ha : 0 < a) (j : Nat) :
    natText (a * 10 ^ j) = natText a ++ List.replicate j '0' := by
  induction j with
  | zero => simp
  | succ j ih =>
    rw [Nat.pow_succ, ← Nat.mul_assoc, natText_mul_ten _ (Nat.mul_pos ha (Nat.pow_pos (by decide))),
      ih, List.append_assoc]
    congr 1
    rw [List.replicate_succ']

theorem log2Fuel_spec : ∀ (f n : Nat), n ≤ f → n ≠ 0 →
    2 ^ log2Fuel f n ≤ n ∧ n < 2 ^ (log2Fuel f n + 1) := by
  intro f
  induction f with
  | zero => intro n h1 h2; omega
  | succ f ih =>
    intro n h1 h2
    rw [log2Fuel]
    split
    · rename_i h
      obtain ⟨a, b⟩ := ih (n / 2) (by omega) (by omega)
      constructor
      · rw [Nat.pow_succ]; omega
      · rw [Nat.pow_succ]; omega
    · have : n = 1 := by omega
      subst this
      exact ⟨by decide, by decide⟩

theorem floorLog2_spec (n : Nat) (h : n ≠ 0) :
    2 ^ floorLog2 n ≤ n ∧ n < 2 ^ (floorLog2 n + 1) :=
  log2Fuel_spec n n (le_refl _) h

theorem floorLog2_lt (n k : Nat) (h : n ≠ 0) (hk : n < 2 ^ k) : floorLog2 n < k := by
  by_contra hc
  have := (floorLog2_spec n h).1
  have : 2 ^ k ≤ 2 ^ floorLog2 n := Nat.pow_le_pow_right (by decide) (by omega)
  omega

theorem floorLog2_ge (n k : Nat) (hk : 2 ^ k ≤ n) : k ≤ floorLog2 n := by
  have hn : n ≠ 0 := by
    have := Nat.pow_pos (n := k) (show 0 < 2 by decide)
    omega
  by_contra hc
  have := (floorLog2_spec n hn).2
  have : 2 ^ (floorLog2 n + 1) ≤ 2 ^ k := Nat.pow_le_pow_right (by decide) (by omega)
  omega

theorem floorLog2_one : floorLog2 1 = 0 := rfl

theorem binaryExponent_one (v : Nat) (hv : v ≠ 0) :
    binaryExponent v 1 = (floorLog2 v : Int) := by
  obtain ⟨s1, _⟩ := floorLog2_spec v hv
  unfold binaryExponent
  simp only [floorLog2_one, Nat.cast_zero, sub_zero, Int.toNat_ofNat, one_mul]
  have hneg : (-(floorLog2 v : Int)).toNat = 0 := by omega
  rw [hneg]
  simp only [pow_zero, mul_one, s1, if_true]

theorem roundHalfEven_one (num : Nat) : roundHalfEven num 1 = num := by
  unfold roundHalfEven
  simp only [Nat.div_one, Nat.mod_one, mul_zero, Nat.lt_one_iff, if_true]

theorem normalizeDouble_small (m : Nat) (t : Int) (hm : m < 2 ^ 53) (ht : t ≤ 971) :
    normalizeDouble m t = some (m, t) := by
  unfold normalizeDouble
  have hne : ¬ (m = 2 ^ 53) := by omega
  simp only [if_neg hne]
  rw [if_neg (by omega)]

theorem normalizeDouble_exp (m : Nat) (t : Int) (m1 : Nat) (t1 : Int)
    (h : normalizeDouble m t = some (m1, t1)) : t ≤ t1 := by
  unfold normalizeDouble at h
  by_cases hm : m = 2 ^ 53
  · simp only [if_pos hm] at h
    split at h
    · cases h
    · simp only [Option.some.injEq, Prod.mk.injEq] at h
      omega
  · simp only [if_neg hm] at h
    split at h
    · cases h
    · simp only [Option.some.injEq, Prod.mk.injEq] at h
      omega

/-- A whole number below `2^53` is a double: rounding leaves its value as it
is. -/
theorem roundRatio_small (v : Nat) (h0 : 0 < v) (h : v < 2 ^ 53) :
    roundRatio v 1 =
      some (v * 2 ^ (52 - floorLog2 v), (floorLog2 v : Int) - 52) := by
  have he := floorLog2_lt v 53 (by omega) h
  obtain ⟨s1, s2⟩ := floorLog2_spec v (by omega)
  unfold roundRatio
  rw [binaryExponent_one v (by omega)]
  have ht : max ((floorLog2 v : Int) - 52) (-1074) = (floorLog2 v : Int) - 52 := by omega
  simp only [ht]
  have h1 : (-((floorLog2 v : Int) - 52)).toNat = 52 - floorLog2 v := by omega
  have h2 : ((floorLog2 v : Int) - 52).toNat = 0 := by omega
  rw [h1, h2]
  simp only [pow_zero, mul_one, roundHalfEven_one]
  have hm : v * 2 ^ (52 - floorLog2 v) < 2 ^ 53 := by
    calc v * 2 ^ (52 - floorLog2 v) < 2 ^ (floorLog2 v + 1) * 2 ^ (52 - floorLog2 v) :=
          Nat.mul_lt_mul_of_pos_right s2 (Nat.pow_pos (by decide))
      _ = 2 ^ 53 := by rw [← Nat.pow_add]; congr 1; omega
  exact normalizeDouble_small _ _ hm (by omega)

/-- A whole number from `2^53` on is rounded to a double with a positive
binary exponent, or to infinity. -/
theorem roundRatio_large (v : Nat) (h : 2 ^ 53 ≤ v) (m : Nat) (t : Int)
    (hr : roundRatio v 1 = some (m, t)) : 1 ≤ t := by
  have he := floorLog2_ge v 53 h
  have hv : v ≠ 0 := by
    have := Nat.pow_pos (n := 53) (show 0 < 2 by decide)
    omega
  unfold roundRatio at hr
  rw [binaryExponent_one v hv] at hr
  have ht : max ((floorLog2 v : Int) - 52) (-1074) = (floorLog2 v : Int) - 52 := by omega
  simp only [ht] at hr
  have := normalizeDouble_exp _ _ _ _ hr
  omega

/-- Among the whole numbers, only `n` itself is rounded to the double `n`,
for `0 < n < 2^53`. -/
theorem roundRatio_inj (n v : Nat) (hn0 : 0 < n) (hn : n < 2 ^ 53) (hv0 : 0 < v)
    (h : roundRatio v 1 = roundRatio n 1) : v = n := by
  rw [roundRatio_small n hn0 hn] at h
  by_cases hv : v < 2 ^ 53
  · rw [roundRatio_small v hv0 hv] at h
    simp only [Option.some.injEq, Prod.mk.injEq] at h
    obtain ⟨h1, h2⟩ := h
    have he : floorLog2 v = floorLog2 n := by omega
    rw [he] at h1
    exact Nat.eq_of_mul_eq_mul_right (Nat.pow_pos (by decide)) h1
  · have := roundRatio_large v (by omega) _ _ h
    have := floorLog2_lt n 53 (by omega) hn
    omega

theorem roundRatio_eq_iff (n v : Nat) (hn0 : 0 < n) (hn : n < 2 ^ 53) (hv0 : 0 < v) :
    roundRatio v 1 = some (n * 2 ^ (52 - floorLog2 n), (floorLog2 n : Int) - 52) ↔ v = n := by
  constructor
  · intro h
    rw [← roundRatio_small n hn0 hn] at h
    exact roundRatio_inj n v hn0 hn hv0 h
  · intro h
    rw [h]
    exact roundRatio_small n hn0 hn

theorem candidate_int (n k s : Nat) (hn0 : 0 < n) (hn : n < 2 ^ 53)
    (hk : k ≤ (natText n).length) (hs0 : 0 < s) (hs : s < 10 ^ k) :
    candidate (n * 2 ^ (52 - floorLog2 n)) ((floorLog2 n : Int) - 52)
        ((natText n).length : Int) k s =
      if s * 10 ^ ((natText n).length - k) = n then some (s, ((natText n).length : Int))
      else none := by
  unfold candidate
  have hne : ¬ (s = 10 ^ k) := by omega
  simp only [if_neg hne]
  have h1 : (((natText n).length : Int) - (k : Int)).toNat = (natText n).length - k := by omega
  have h2 : ((k : Int) - ((natText n).length : Int)).toNat = 0 := by omega
  rw [h1, h2, pow_zero]
  have hpos : 0 < s * 10 ^ ((natText n).length - k) :=
    Nat.mul_pos hs0 (Nat.pow_pos (by decide))
  by_cases hv : s * 10 ^ ((natText n).length - k) = n
  · rw [if_pos ((roundRatio_eq_iff n _ hn0 hn hpos).2 hv), if_pos hv]
  · rw [if_neg (fun h => hv ((roundRatio_eq_iff n _ hn0 hn hpos).1 h)), if_neg hv]

theorem candidate_top (n k : Nat) (hn0 : 0 < n) (hn : n < 2 ^ 53)
    (hk1 : 1 ≤ k) (hk : k ≤ (natText n).length) :
    candidate (n * 2 ^ (52 - floorLog2 n)) ((floorLog2 n : Int) - 52)
        ((natText n).length : Int) k (10 ^ k) = none := by
  unfold candidate
  simp only [if_true]
  have h1 : (((natText n).length : Int) + 1 - (k : Int)).toNat = (natText n).length + 1 - k := by
    omega
  have h2 : ((k : Int) - (((natText n).length : Int) + 1)).toNat = 0 := by omega
  rw [h1, h2, pow_zero, ← Nat.pow_add]
  have h3 : k - 1 + ((natText n).length + 1 - k) = (natText n).length := by omega
  rw [h3]
  have hlt := (natText_length_bounds n).1
  have hpos : 0 < 10 ^ (natText n).length := Nat.pow_pos (by decide)
  rw [if_neg]
  intro h
  have := (roundRatio_eq_iff n _ hn0 hn hpos).1 h
  omega

theorem shortestAt_int (n k : Nat) (hn0 : 0 < n) (hn : n < 2 ^ 53)
    (hk1 : 1 ≤ k) (hk : k ≤ (natText n).length) :
    shortestAt (n * 2 ^ (52 - floorLog2 n)) ((floorLog2 n : Int) - 52)
        ((natText n).length : Int) k =
      if n / 10 ^ ((natText n).length - k) * 10 ^ ((natText n).length - k) = n
      then some (n / 10 ^ ((natText n).length - k), ((natText n).length : Int))
      else none := by
  have he := floorLog2_lt n 53 (by omega) hn
  obtain ⟨b1, b2⟩ := natText_length_bounds n
  have b3 := b2 hn0
  have hp : 0 < 10 ^ ((natText n).length - k) := Nat.pow_pos (by decide)
  have hq : 0 < 2 ^ (52 - floorLog2 n) := Nat.pow_pos (by decide)
  have hsplit : 10 ^ (natText n).length = 10 ^ k * 10 ^ ((natText n).length - k) := by
    rw [← Nat.pow_add]; congr 1; omega
  have hsplit1 : 10 ^ ((natText n).length - 1) = 10 ^ (k - 1) * 10 ^ ((natText n).length - k) := by
    rw [← Nat.pow_add]; congr 1; omega
  have hlo_lt : n / 10 ^ ((natText n).length - k) < 10 ^ k := by
    rw [Nat.div_lt_iff_lt_mul hp]
    omega
  have hlo_pos : 0 < n / 10 ^ ((natText n).length - k) := by
    apply Nat.div_pos _ hp
    have : 1 ≤ 10 ^ (k - 1) := Nat.pow_pos (by decide)
    calc 10 ^ ((natText n).length - k) = 1 * 10 ^ ((natText n).length - k) := by rw [one_mul]
      _ ≤ 10 ^ (k - 1) * 10 ^ ((natText n).length - k) := Nat.mul_le_mul_right _ this
      _ ≤ n := by omega
  unfold shortestAt
  have h1 : (((natText n).length : Int) - (k : Int)).toNat = (natText n).length - k := by omega
  have h2 : ((k : Int) - ((natText n).length : Int)).toNat = 0 := by omega
  have h3 : ((floorLog2 n : Int) - 52).toNat = 0 := by omega
  have h4 : (-((floorLog2 n : Int) - 52)).toNat = 52 - floorLog2 n := by omega
  simp only [h1, h2, h3, h4, pow_zero, mul_one]
  have hlo : n * 2 ^ (52 - floorLog2 n) /
      (2 ^ (52 - floorLog2 n) * 10 ^ ((natText n).length - k)) =
      n / 10 ^ ((natText n).length - k) := by
    rw [Nat.mul_comm n, Nat.mul_div_mul_left _ _ hq]
  rw [hlo]
  have hup : candidate (n * 2 ^ (52 - floorLog2 n)) ((floorLog2 n : Int) - 52)
      ((natText n).length : Int) k (n / 10 ^ ((natText n).length - k) + 1) = none := by
    by_cases htop : n / 10 ^ ((natText n).length - k) + 1 = 10 ^ k
    · rw [htop]
      exact candidate_top n k hn0 hn hk1 hk
    · rw [candidate_int n k _ hn0 hn hk (by omega) (by omega)]
      rw [if_neg]
      intro h
      have := Nat.lt_succ_iff.2 (Nat.le_refl n)
      have hlt : n < (n / 10 ^ ((natText n).length - k) + 1) * 10 ^ ((natText n).length - k) := by
        have := Nat.lt_mul_div_succ n hp
        rw [Nat.mul_comm]
        exact this
      omega
  rw [hup, candidate_int n k _ hn0 hn hk hlo_pos hlo_lt]
  by_cases hv : n / 10 ^ ((natText n).length - k) * 10 ^ ((natText n).length - k) = n
  · simp only [if_pos hv]
  · simp only [if_neg hv]

theorem shortestFrom_succ (m : Nat) (t n0 : Int) (fuel k : Nat) :
    shortestFrom m t n0 (fuel + 1) k =
      match shortestAt m t n0 k with
      | some (s, n) => some (k, s, n)
      | none => shortestFrom m t n0 fuel (k + 1) := rfl

theorem shortestFrom_int (n : Nat) (hn0 : 0 < n) (hn : n < 2 ^ 53) :
    ∀ (fuel k : Nat), 1 ≤ k → k ≤ (natText n).length → (natText n).length < k + fuel →
      ∃ K, 1 ≤ K ∧ K ≤ (natText n).length ∧
        n / 10 ^ ((natText n).length - K) * 10 ^ ((natText n).length - K) = n ∧
        shortestFrom (n * 2 ^ (52 - floorLog2 n)) ((floorLog2 n : Int) - 52)
          ((natText n).length : Int) fuel k =
          some (K, n / 10 ^ ((natText n).length - K), ((natText n).length : Int)) := by
  intro fuel
  induction fuel with
  | zero => intro k _ h2 h3; omega
  | succ fuel ih =>
    intro k h1 h2 h3
    rw [shortestFrom_succ, shortestAt_int n k hn0 hn h1 h2]
    by_cases hv : n / 10 ^ ((natText n).length - k) * 10 ^ ((natText n).length - k) = n
    · rw [if_pos hv]
      exact ⟨k, h1, h2, hv, rfl⟩
    · rw [if_neg hv]
      have hk : k ≠ (natText n).length := by
        intro hc
        apply hv
        rw [hc, Nat.sub_self, pow_zero, Nat.div_one, Nat.mul_one]
      exact ih (k + 1) (by omega) (by omega) (by omega)

theorem natText_length_le (n : Nat) (hn : n < 2 ^ 53) : (natText n).length ≤ 16 := by
  by_contra hc
  by_cases hn0 : 0 < n
  · have b := (natText_length_bounds n).2 hn0
    have : 10 ^ 16 ≤ 10 ^ ((natText n).length - 1) :=
      Nat.pow_le_pow_right (by decide) (by omega)
    have h16 : (2 : Nat) ^ 53 < 10 ^ 16 := by norm_num
    omega
  · have h0 : n = 0 := by omega
    subst h0
    rw [natText_small 0 (by decide)] at hc
    exact hc (by simp)

theorem formatDecimal_int (n K : Nat) (hn0 : 0 < n) (hn : n < 2 ^ 53)
    (hK : K ≤ (natText n).length)
    (hv : n / 10 ^ ((natText n).length - K) * 10 ^ ((natText n).length - K) = n) :
    formatDecimal K (n / 10 ^ ((natText n).length - K)) ((natText n).length : Int) =
      natText n := by
  have hL := natText_length_le n hn
  have hs0 : 0 < n / 10 ^ ((natText n).length - K) := by
    rcases Nat.eq_zero_or_pos (n / 10 ^ ((natText n).length - K)) with h | h
    · rw [h, Nat.zero_mul] at hv; omega
    · exact h
  have htext := natText_mul_pow _ hs0 ((natText n).length - K)
  rw [hv] at htext
  have hlen : (natText (n / 10 ^ ((natText n).length - K))).length = K := by
    have := congrArg List.length htext
    rw [List.length_append, List.length_replicate] at this
    omega
  unfold formatDecimal padDigits
  rw [hlen, Nat.sub_self]
  have hc : ((K : Int) ≤ ((natText n).length : Int) ∧ ((natText n).length : Int) ≤ 21) :=
    ⟨by omega, by omega⟩
  simp only [if_pos hc, List.replicate_zero, List.nil_append]
  have h1 : (((natText n).length : Int) - (K : Int)).toNat = (natText n).length - K := by omega
  rw [h1]
  exact htext.symm

/-- The text of a whole number below `2^53`, as a Number value, is its decimal
digits. -/
theorem numberToString_int (n : Nat) (hn0 : 0 < n) (hn : n < 2 ^ 53) :
    numberToString (.finite false (n * 2 ^ (52 - floorLog2 n)) ((floorLog2 n : Int) - 52)) =
      natText n := by
  have he := floorLog2_lt n 53 (by omega) hn
  have hq : 0 < 2 ^ (52 - floorLog2 n) := Nat.pow_pos (by decide)
  have hL1 : 1 ≤ (natText n).length := by
    have := natText_ne_nil n
    cases h : natText n with
    | nil => exact absurd h this
    | cons a l => simp
  have hL := natText_length_le n hn
  have hm : ¬ (n * 2 ^ (52 - floorLog2 n) = 0) := by
    have := Nat.mul_pos hn0 hq
    omega
  rw [numberToString, if_neg hm]
  have h3 : ((floorLog2 n : Int) - 52).toNat = 0 := by omega
  have h4 : (-((floorLog2 n : Int) - 52)).toNat = 52 - floorLog2 n := by omega
  simp only [h3, h4, pow_zero, mul_one]
  have hB : 2 ^ (52 - floorLog2 n) ≤ n * 2 ^ (52 - floorLog2 n) :=
    Nat.le_mul_of_pos_left _ hn0
  rw [if_pos hB]
  unfold decimalExponentUp
  rw [Nat.mul_div_cancel _ hq]
  obtain ⟨K, k1, k2, k3, k4⟩ := shortestFrom_int n hn0 hn 17 1 (le_refl 1) hL1 (by omega)
  rw [k4]
  simp only [Bool.false_eq_true, if_false, List.nil_append]
  exact formatDecimal_int n K hn0 hn k2 k3

/-- The Number value of a string of decimal digits below `2^53` is written
back as the decimal digits of its value. -/
theorem numberToString_roundDecimal (n : Nat) (hn : n < 2 ^ 53) :
    numberToString (roundDecimal false n 0) = natText n := by
  unfold roundDecimal
  by_cases h0 : n = 0
  · subst h0
    rfl
  · rw [if_neg h0]
    have e1 : (0 : Int).toNat = 0 := rfl
    have e2 : (-(0 : Int)).toNat = 0 := rfl
    rw [e1, e2, pow_zero, mul_one, roundRatio_small n (by omega) hn]
    exact numberToString_int n (by omega) hn

theorem digit_ne (c : Char) (h : c.isDigit = true) (d : Char) (hd : d.isDigit = false) :
    c ≠ d := by
  intro hc
  rw [hc, hd] at h
  cases h

theorem takeWhile_all {α : Type} (p : α → Bool) : ∀ (l : List α), (∀ c ∈ l, p c = true) →
    l.takeWhile p = l
  | [], _ => rfl
  | a :: l, h => by
    rw [List.takeWhile_cons, h a (List.mem_cons_self _ _)]
    simp only [if_true]
    rw [takeWhile_all p l (fun c hc => h c (List.mem_cons_of_mem _ hc))]

theorem dropWhile_all {α : Type} (p : α → Bool) : ∀ (l : List α), (∀ c ∈ l, p c = true) →
    l.dropWhile p = []
  | [], _ => rfl
  | a :: l, h => by
    rw [List.dropWhile_cons, h a (List.mem_cons_self _ _)]
    simp only [if_true]
    exact dropWhile_all p l (fun c hc => h c (List.mem_cons_of_mem _ hc))

/-- The function `parseFixed` on the decimal digits of `n`, with 9 decimals, is
`n * 10^9`. -/
theorem parseUnitsGwei_natText (n : Nat) :
    parseUnitsGwei (natText n) = some ((n : Int) * 10 ^ 9) := by
  have hd := natText_isDigit n
  have hne := natText_ne_nil n
  obtain ⟨a, l, hal⟩ : ∃ a l, natText n = a :: l := by
    cases h : natText n with
    | nil => exact absurd h hne
    | cons a l => exact ⟨a, l, rfl⟩
  have ha : a.isDigit = true := hd a (by rw [hal]; exact List.mem_cons_self _ _)
  have hhead : ¬ ((natText n).head? = some '-') := by
    rw [hal]
    simp only [List.head?_cons, Option.some.injEq]
    exact digit_ne a ha '-' (by decide)
  have hall : (natText n).all (fun c => c.isDigit || c == '.') = true := by
    rw [List.all_eq_true]
    intro c hc
    rw [hd c hc]
    rfl
  have hdot : ∀ c ∈ natText n, (fun c => c != '.') c = true := by
    intro c hc
    simp only [bne_iff_ne, ne_eq]
    exact digit_ne c (hd c hc) '.' (by decide)
  have hbody : ¬ (natText n = ['.']) := by
    rw [hal]
    intro h
    simp only [List.cons.injEq] at h
    exact digit_ne a ha '.' (by decide) h.1
  have hempty : (natText n).isEmpty = false := by rw [hal]; rfl
  unfold parseUnitsGwei parseFixed
  simp only [if_neg hhead, hempty, hall, Bool.not_true, Bool.or_false, Bool.false_eq_true,
    if_false, if_neg hbody, takeWhile_all _ _ hdot, dropWhile_all _ _ hdot, List.drop_nil,
    List.any_nil, List.isEmpty_nil, if_true]
  have hv : List.foldl (fun acc c => acc * 10 + (c.toNat - 48)) 0 (natText n) = n :=
    digitsValue_natText n
  simp [hv, digitsValue]

theorem isDigit_range (c : Char) (h : c.isDigit = true) : 48 ≤ c.toNat ∧ c.toNat ≤ 57 := by
  unfold Char.isDigit at h
  simp only [Bool.and_eq_true, decide_eq_true_eq] at h
  exact ⟨h.1, h.2⟩

theorem toLower_of_not_upper (c : Char) (h : ¬ (65 ≤ c.toNat ∧ c.toNat ≤ 90)) :
    c.toLower = c := by
  unfold Char.toLower
  simp only [ge_iff_le]
  rw [if_neg h]

theorem whitespace_range (c : Char) (h : isJsWhiteSpace c = true) :
    c.toNat < 48 ∨ 128 ≤ c.toNat := by
  unfold isJsWhiteSpace at h
  simp only [Bool.or_eq_true, beq_iff_eq, Bool.and_eq_true, decide_eq_true_eq] at h
  omega

theorem whitespace_toLower (c : Char) (h : isJsWhiteSpace c = true) : c.toLower = c :=
  toLower_of_not_upper c (by have := whitespace_range c h; omega)

theorem digit_toLower (c : Char) (h : c.isDigit = true) : c.toLower = c :=
  toLower_of_not_upper c (by have := isDigit_range c h; omega)

theorem digit_not_whitespace (c : Char) (h : c.isDigit = true) : isJsWhiteSpace c = false := by
  cases hc : isJsWhiteSpace c with
  | false => rfl
  | true =>
    have := whitespace_range c hc
    have := isDigit_range c h
    omega

theorem toLower_ascii (c : Char) (h : c.toLower.toNat < 128) : c.toNat < 128 := by
  by_cases hu : 65 ≤ c.toNat ∧ c.toNat ≤ 90
  · omega
  · rw [toLower_of_not_upper c hu] at h
    exact h

theorem dropWhile_leading {α : Type} (p : α → Bool) : ∀ (ws l : List α),
    (∀ c ∈ ws, p c = true) → (ws ++ l).dropWhile p = l.dropWhile p
  | [], _, _ => rfl
  | a :: ws, l, h => by
    rw [List.cons_append, List.dropWhile_cons, h a (List.mem_cons_self _ _)]
    simp only [if_true]
    exact dropWhile_leading p ws l (fun c hc => h c (List.mem_cons_of_mem _ hc))

theorem dropWhile_stop {α : Type} (p : α → Bool) (a : α) (l : List α) (h : p a = false) :
    (a :: l).dropWhile p = a :: l := by
  rw [List.dropWhile_cons, h]
  simp

/-- The method `trim` strips the white space around a text that neither starts
nor ends with white space. -/
theorem jsTrim_core (w1 core w2 : List Char) (a b : Char) (l1 l2 : List Char)
    (h1 : ∀ c ∈ w1, isJsWhiteSpace c = true) (h2 : ∀ c ∈ w2, isJsWhiteSpace c = true)
    (hhead : core = a :: l1) (ha : isJsWhiteSpace a = false)
    (hlast : core = l2 ++ [b]) (hb : isJsWhiteSpace b = false) :
    jsTrim (w1 ++ (core ++ w2)) = core := by
  unfold jsTrim
  rw [dropWhile_leading _ w1 _ h1]
  have e1 : (core ++ w2).dropWhile isJsWhiteSpace = core ++ w2 := by
    rw [hhead, List.cons_append]
    exact dropWhile_stop _ _ _ ha
  rw [e1, List.reverse_append]
  rw [dropWhile_leading _ w2.reverse _ (fun c hc => h2 c (List.mem_reverse.1 hc))]
  have e2 : core.reverse.dropWhile isJsWhiteSpace = core.reverse := by
    rw [hlast, List.reverse_append, List.reverse_singleton, List.singleton_append]
    exact dropWhile_stop _ _ _ hb
  rw [e2, List.reverse_reverse]

theorem removeFirst_skip (pat : List Char) : ∀ (pre rest : List Char),
    (∀ c ∈ pre, ∀ tail, pat.isPrefixOf (c :: tail) = false) →
    removeFirst pat (pre ++ rest) = pre ++ removeFirst pat rest
  | [], _, _ => rfl
  | a :: pre, rest, h => by
    rw [List.cons_append, removeFirst, h a (List.mem_cons_self _ _)]
    simp only [Bool.false_eq_true, if_false, List.cons_append, List.cons.injEq, true_and]
    exact removeFirst_skip pat pre rest (fun c hc => h c (List.mem_cons_of_mem _ hc))

theorem gwei_not_here (c : Char) (tail : List Char) (h : c ≠ 'g') :
    "gwei".toList.isPrefixOf (c :: tail) = false := by
  have e : "gwei".toList = ['g', 'w', 'e', 'i'] := rfl
  rw [e, List.isPrefixOf]
  have : ('g' == c) = false := by
    rw [beq_eq_false_iff_ne]
    exact fun hc => h hc.symm
  rw [this]
  rfl

theorem removeFirst_gwei (post : List Char) :
    removeFirst "gwei".toList ("gwei".toList ++ post) = post := by
  have e : "gwei".toList = ['g', 'w', 'e', 'i'] := rfl
  rw [e]
  simp [removeFirst, List.isPrefixOf]

theorem map_toLower_id (l : List Char) (h : ∀ c ∈ l, c.toLower = c) :
    l.map Char.toLower = l := by
  induction l with
  | nil => rfl
  | cons a l ih =>
    rw [List.map_cons, h a (List.mem_cons_self _ _),
      ih (fun c hc => h c (List.mem_cons_of_mem _ hc))]

theorem toLowerCase_plain (unicodeLower : List Char → List Char) (s : List Char)
    (hU : ∀ s, (∀ c ∈ s, c.toNat < 128 ∨ isJsWhiteSpace c = true) →
      unicodeLower s = s.map Char.toLower)
    (hs : ∀ c ∈ s, c.toNat < 128 ∨ isJsWhiteSpace c = true) :
    toLowerCase unicodeLower s = s.map Char.toLower := by
  unfold toLowerCase
  split
  · rfl
  · exact hU s hs

/-- The text of a whole number read back by `parseFloat`: for decimal digits
`ds`, not empty, the Number value is that of `digitsValue ds`. -/
theorem parseFloat_digits (ds : List Char) (hne : ds ≠ [])
    (hd : ∀ c ∈ ds, c.isDigit = true) :
    parseFloat ds = roundDecimal false (digitsValue ds) 0 := by
  obtain ⟨a, l, hal⟩ : ∃ a l, ds = a :: l := by
    cases ds with
    | nil => exact absurd rfl hne
    | cons a l => exact ⟨a, l, rfl⟩
  have ha : a.isDigit = true := hd a (by rw [hal]; exact List.mem_cons_self _ _)
  have hr := isDigit_range a ha
  have e0 : ds.dropWhile isJsWhiteSpace = a :: l := by
    rw [hal]
    exact dropWhile_stop _ _ _ (digit_not_whitespace a ha)
  have hplus : a ≠ '+' := digit_ne a ha '+' (by decide)
  have hminus : a ≠ '-' := digit_ne a ha '-' (by decide)
  have hI : a ≠ 'I' := digit_ne a ha 'I' (by decide)
  unfold parseFloat
  rw [e0]
  have e1 : (match a :: l with
      | '+' :: rest => lexUnsigned false rest
      | '-' :: rest => lexUnsigned true rest
      | rest => lexUnsigned false rest) = lexUnsigned false (a :: l) := by
    split
    · rename_i h; simp only [List.cons.injEq] at h; exact absurd h.1 hplus
    · rename_i h; simp only [List.cons.injEq] at h; exact absurd h.1 hminus
    · rfl
  rw [e1, ← hal]
  unfold lexUnsigned
  have e2 : "Infinity".toList.isPrefixOf ds = false := by
    have e : "Infinity".toList = 'I' :: "nfinity".toList := rfl
    rw [e, hal, List.isPrefixOf]
    have : ('I' == a) = false := by
      rw [beq_eq_false_iff_ne]
      exact fun hc => hI hc.symm
    rw [this]
    rfl
  rw [e2]
  simp only [Bool.false_eq_true, if_false, takeWhile_all _ ds hd, dropWhile_all _ ds hd]
  have e3 : ds.isEmpty = false := by rw [hal]; rfl
  rw [e3]
  simp only [Bool.false_eq_true, if_false]
  rfl

theorem jsTrim_digits (w1 ds w2 : List Char)
    (h1 : ∀ c ∈ w1, isJsWhiteSpace c = true) (h2 : ∀ c ∈ w2, isJsWhiteSpace c = true)
    (hne : ds ≠ []) (hd : ∀ c ∈ ds, c.isDigit = true) :
    jsTrim (w1 ++ (ds ++ w2)) = ds := by
  obtain ⟨a, l, hal⟩ : ∃ a l, ds = a :: l := by
    cases ds with
    | nil => exact absurd rfl hne
    | cons a l => exact ⟨a, l, rfl⟩
  have hlast : ds = ds.dropLast ++ [ds.getLast hne] := (List.dropLast_append_getLast hne).symm
  exact jsTrim_core w1 ds w2 a (ds.getLast hne) l ds.dropLast h1 h2 hal
    (digit_not_whitespace a (hd a (by rw [hal]; exact List.mem_cons_self _ _))) hlast
    (digit_not_whitespace _ (hd _ (List.getLast_mem hne)))

theorem unit_shape (unit : List Char) (h : unit.map Char.toLower = "gwei".toList) :
    (∀ c ∈ unit, c.toNat < 128) ∧ ∃ l d, unit = l ++ [d] ∧ isJsWhiteSpace d = false := by
  have e : "gwei".toList = ['g', 'w', 'e', 'i'] := rfl
  rw [e] at h
  constructor
  · intro c hc
    apply toLower_ascii
    have hm : c.toLower ∈ unit.map Char.toLower := List.mem_map_of_mem _ hc
    rw [h] at hm
    simp only [List.mem_cons, List.mem_singleton, List.not_mem_nil, or_false] at hm
    rcases hm with h1 | h1 | h1 | h1 <;> rw [h1] <;> decide
  · have hlen : unit.length = 4 := by
      have := congrArg List.length h
      simpa using this
    obtain ⟨a, b, c, d, habcd⟩ : ∃ a b c d, unit = [a, b, c, d] := by
      rcases unit with _ | ⟨a, _ | ⟨b, _ | ⟨c, _ | ⟨d, _ | ⟨x, u⟩⟩⟩⟩⟩
      · simp at hlen
      · simp at hlen
      · simp at hlen
      · simp at hlen
      · exact ⟨a, b, c, d, rfl⟩
      · simp at hlen
    rw [habcd] at h
    simp only [List.map_cons, List.map_nil, List.cons.injEq, and_true] at h
    refine ⟨[a, b, c], d, habcd, ?_⟩
    cases hw : isJsWhiteSpace d with
    | false => rfl
    | true =>
      have h4 := h.2.2.2
      rw [whitespace_toLower d hw] at h4
      rw [h4] at hw
      exact absurd hw (by decide)

/-- The text between `replace("gwei", "")` and `parseFloat`: for decimal digits
with white space around them and an optional unit `gwei` in any letter case,
lower-casing, removing the unit and trimming leave the digits. -/
theorem gwei_number_text (unicodeLower : List Char → List Char)
    (w1 ds sp unit w2 : List Char)
    (hU : ∀ s, (∀ c ∈ s, c.toNat < 128 ∨ isJsWhiteSpace c = true) →
      unicodeLower s = s.map Char.toLower)
    (hw1 : ∀ c ∈ w1, isJsWhiteSpace c = true) (hsp : ∀ c ∈ sp, isJsWhiteSpace c = true)
    (hw2 : ∀ c ∈ w2, isJsWhiteSpace c = true)
    (hne : ds ≠ []) (hd : ∀ c ∈ ds, c.isDigit = true)
    (hunit : unit = [] ∨ unit.map Char.toLower = "gwei".toList) :
    jsTrim (removeFirst "gwei".toList
      (toLowerCase unicodeLower (w1 ++ (ds ++ (sp ++ (unit ++ w2)))))) = ds := by
  have hdig128 : ∀ c ∈ ds, c.toNat < 128 := by
    intro c hc
    have := isDigit_range c (hd c hc)
    omega
  have hunit128 : ∀ c ∈ unit, c.toNat < 128 := by
    rcases hunit with h | h
    · rw [h]; intro c hc; cases hc
    · exact (unit_shape unit h).1
  have hchars : ∀ c ∈ w1 ++ (ds ++ (sp ++ (unit ++ w2))),
      c.toNat < 128 ∨ isJsWhiteSpace c = true := by
    intro c hc
    simp only [List.mem_append] at hc
    rcases hc with h | h | h | h | h
    · exact Or.inr (hw1 c h)
    · exact Or.inl (hdig128 c h)
    · exact Or.inr (hsp c h)
    · exact Or.inl (hunit128 c h)
    · exact Or.inr (hw2 c h)
  rw [toLowerCase_plain unicodeLower _ hU hchars]
  simp only [List.map_append]
  rw [map_toLower_id w1 (fun c hc => whitespace_toLower c (hw1 c hc)),
    map_toLower_id ds (fun c hc => digit_toLower c (hd c hc)),
    map_toLower_id sp (fun c hc => whitespace_toLower c (hsp c hc)),
    map_toLower_id w2 (fun c hc => whitespace_toLower c (hw2 c hc))]
  have hwg : ∀ c, isJsWhiteSpace c = true → c ≠ 'g' := by
    intro c hc hg
    rw [hg] at hc
    exact absurd hc (by decide)
  have hdg : ∀ c, c.isDigit = true → c ≠ 'g' := fun c hc => digit_ne c hc 'g' (by decide)
  have hspw : ∀ c ∈ sp ++ w2, isJsWhiteSpace c = true := by
    intro c hc
    rcases List.mem_append.1 hc with h | h
    · exact hsp c h
    · exact hw2 c h
  rcases hunit with h | h
  · rw [h, List.map_nil, List.nil_append]
    have hskip := removeFirst_skip "gwei".toList (w1 ++ (ds ++ (sp ++ w2))) [] (by
      intro c hc tail
      apply gwei_not_here
      simp only [List.mem_append] at hc
      rcases hc with h | h | h | h
      · exact hwg c (hw1 c h)
      · exact hdg c (hd c h)
      · exact hwg c (hsp c h)
      · exact hwg c (hw2 c h))
    rw [List.append_nil] at hskip
    rw [hskip]
    have hnil : removeFirst "gwei".toList [] = [] := rfl
    rw [hnil, List.append_nil]
    exact jsTrim_digits w1 ds (sp ++ w2) hw1 hspw hne hd
  · rw [h]
    have hassoc : w1 ++ (ds ++ (sp ++ ("gwei".toList ++ w2))) =
        (w1 ++ (ds ++ sp)) ++ ("gwei".toList ++ w2) := by
      simp only [List.append_assoc]
    rw [hassoc, removeFirst_skip "gwei".toList (w1 ++ (ds ++ sp)) _ (by
      intro c hc tail
      apply gwei_not_here
      simp only [List.mem_append] at hc
      rcases hc with h | h | h
      · exact hwg c (hw1 c h)
      · exact hdg c (hd c h)
      · exact hwg c (hsp c h)), removeFirst_gwei]
    have hassoc2 : (w1 ++ (ds ++ sp)) ++ w2 = w1 ++ (ds ++ (sp ++ w2)) := by
      simp only [List.append_assoc]
    rw [hassoc2]
    exact jsTrim_digits w1 ds (sp ++ w2) hw1 hspw hne hd

/-- The same text in `main.js`, which trims the input before it lower-cases
it. -/
theorem gwei_number_text_main (unicodeLower : List Char → List Char)
    (w1 ds sp unit w2 : List Char)
    (hU : ∀ s, (∀ c ∈ s, c.toNat < 128 ∨ isJsWhiteSpace c = true) →
      unicodeLower s = s.map Char.toLower)
    (hw1 : ∀ c ∈ w1, isJsWhiteSpace c = true) (hsp : ∀ c ∈ sp, isJsWhiteSpace c = true)
    (hw2 : ∀ c ∈ w2, isJsWhiteSpace c = true)
    (hne : ds ≠ []) (hd : ∀ c ∈ ds, c.isDigit = true)
    (hunit : unit = [] ∨ unit.map Char.toLower = "gwei".toList) :
    jsTrim (removeFirst "gwei".toList
      (toLowerCase unicodeLower (jsTrim (w1 ++ (ds ++ (sp ++ (unit ++ w2))))))) = ds := by
  have hnil : ∀ c ∈ ([] : List Char), isJsWhiteSpace c = true := by
    intro c hc; cases hc
  rcases hunit with h | h
  · have hspw : ∀ c ∈ sp ++ ([] ++ w2), isJsWhiteSpace c = true := by
      intro c hc
      simp only [List.mem_append, List.not_mem_nil, false_or] at hc
      rcases hc with h | h
      · exact hsp c h
      · exact hw2 c h
    rw [h, jsTrim_digits w1 ds (sp ++ ([] ++ w2)) hw1 hspw hne hd]
    have := gwei_number_text unicodeLower [] ds [] [] [] hU hnil hnil hnil hne hd (Or.inl rfl)
    simp only [List.append_nil, List.nil_append] at this
    exact this
  · obtain ⟨a, l, hal⟩ : ∃ a l, ds = a :: l := by
      cases ds with
      | nil => exact absurd rfl hne
      | cons a l => exact ⟨a, l, rfl⟩
    obtain ⟨_, l2, d, hl2, hdw⟩ := unit_shape unit h
    have hassoc : w1 ++ (ds ++ (sp ++ (unit ++ w2))) = w1 ++ ((ds ++ (sp ++ unit)) ++ w2) := by
      simp only [List.append_assoc]
    have hcore : ds ++ (sp ++ unit) = (ds ++ (sp ++ l2)) ++ [d] := by
      rw [hl2]
      simp only [List.append_assoc]
    have hhead : ds ++ (sp ++ unit) = a :: (l ++ (sp ++ unit)) := by
      rw [hal]; rfl
    rw [hassoc, jsTrim_core w1 (ds ++ (sp ++ unit)) w2 a d _ _ hw1 hw2 hhead
      (digit_not_whitespace a (hd a (by rw [hal]; exact List.mem_cons_self _ _))) hcore hdw]
    have := gwei_number_text unicodeLower [] ds sp unit [] hU hnil hsp hnil hne hd (Or.inr h)
    simp only [List.append_nil, List.nil_append] at this
    exact this

theorem isBlank_gwei_input (w1 ds rest : List Char)
    (hw1 : ∀ c ∈ w1, isJsWhiteSpace c = true)
    (hne : ds ≠ []) (hd : ∀ c ∈ ds, c.isDigit = true) :
    isBlank (some (String.mk (w1 ++ (ds ++ rest)))) = false := by
  obtain ⟨a, l, hal⟩ : ∃ a l, ds = a :: l := by
    cases ds with
    | nil => exact absurd rfl hne
    | cons a l => exact ⟨a, l, rfl⟩
  have ha := digit_not_whitespace a (hd a (by rw [hal]; exact List.mem_cons_self _ _))
  unfold isBlank
  have e0 : (String.mk (w1 ++ (ds ++ rest))).toList = w1 ++ (ds ++ rest) := rfl
  simp only [e0]
  have e1 : (w1 ++ (ds ++ rest)).isEmpty = false := by
    rw [hal]
    cases w1 <;> rfl
  have e2 : (jsTrim (w1 ++ (ds ++ rest))).isEmpty = false := by
    unfold jsTrim
    rw [dropWhile_leading _ w1 _ hw1, hal, List.cons_append, dropWhile_stop _ _ _ ha]
    cases hx : (a :: (l ++ rest)).reverse.dropWhile isJsWhiteSpace with
    | cons x y => simp
    | nil =>
      rw [List.dropWhile_eq_nil_iff] at hx
      have := hx a (List.mem_reverse.2 (List.mem_cons_self _ _))
      rw [ha] at this
      cases this
  rw [e1, e2]
  rfl

/-- C14: a whole number below `2^53` written in decimal digits `ds`, with white
space `w1` before it and, after it, white space `sp`, an optional unit `gwei`
in any letter case, and white space `w2`. The three variants of the resolver
return the number times `10^9`, make no `getGasPrice` call and print no
warning. Leading zeros in `ds` are allowed. The case mapping of the runtime for
text outside ASCII is only assumed to leave white space as it is. -/
theorem whole_gwei_input_is_scaled (unicodeLower : List Char → List Char)
    (w1 ds sp unit w2 : List Char) (getGasPrice : Nat → Option Nat)
    (hU : ∀ s, (∀ c ∈ s, c.toNat < 128 ∨ isJsWhiteSpace c = true) →
      unicodeLower s = s.map Char.toLower)
    (hw1 : ∀ c ∈ w1, isJsWhiteSpace c = true) (hsp : ∀ c ∈ sp, isJsWhiteSpace c = true)
    (hw2 : ∀ c ∈ w2, isJsWhiteSpace c = true)
    (hne : ds ≠ []) (hd : ∀ c ∈ ds, c.isDigit = true) (hn : digitsValue ds < 2 ^ 53)
    (hunit : unit = [] ∨ unit.map Char.toLower = "gwei".toList) :
    parseGasPrice unicodeLower (some (String.mk (w1 ++ (ds ++ (sp ++ (unit ++ w2))))))
        getGasPrice =
      { result := some ((digitsValue ds : Int) * 10 ^ 9), queries := 0, warned := false } ∧
    NewJs.parseGasPrice unicodeLower (some (String.mk (w1 ++ (ds ++ (sp ++ (unit ++ w2))))))
        getGasPrice =
      { result := some ((digitsValue ds : Int) * 10 ^ 9), queries := 0, warned := false } ∧
    parseGasPriceGweiInput unicodeLower
        (some (String.mk (w1 ++ (ds ++ (sp ++ (unit ++ w2)))))) getGasPrice =
      { result := some ((digitsValue ds : Int) * 10 ^ 9), queries := 0, warned := false } := by
  have hblank := isBlank_gwei_input w1 ds (sp ++ (unit ++ w2)) hw1 hne hd
  have hnot : ¬ (isBlank (some (String.mk (w1 ++ (ds ++ (sp ++ (unit ++ w2)))))) = true) := by
    rw [hblank]
    exact Bool.false_ne_true
  have htext : gweiText unicodeLower (String.mk (w1 ++ (ds ++ (sp ++ (unit ++ w2))))) =
      natText (digitsValue ds) := by
    unfold gweiText
    have e0 : (String.mk (w1 ++ (ds ++ (sp ++ (unit ++ w2))))).toList =
        w1 ++ (ds ++ (sp ++ (unit ++ w2))) := rfl
    rw [e0, gwei_number_text unicodeLower w1 ds sp unit w2 hU hw1 hsp hw2 hne hd hunit,
      parseFloat_digits ds hne hd, numberToString_roundDecimal _ hn]
  have htextM : gweiTextMain unicodeLower (String.mk (w1 ++ (ds ++ (sp ++ (unit ++ w2))))) =
      natText (digitsValue ds) := by
    unfold gweiTextMain
    have e0 : (String.mk (w1 ++ (ds ++ (sp ++ (unit ++ w2))))).toList =
        w1 ++ (ds ++ (sp ++ (unit ++ w2))) := rfl
    rw [e0, gwei_number_text_main unicodeLower w1 ds sp unit w2 hU hw1 hsp hw2 hne hd hunit,
      parseFloat_digits ds hne hd, numberToString_roundDecimal _ hn]
  refine ⟨?_, ?_, ?_⟩
  · unfold parseGasPrice
    rw [if_neg hnot]
    simp only [Option.getD_some]
    rw [htext, parseUnitsGwei_natText]
  · unfold NewJs.parseGasPrice
    rw [if_neg hnot]
    simp only [Option.getD_some]
    rw [htext, parseUnitsGwei_natText]
  · unfold parseGasPriceGweiInput
    rw [if_neg hnot]
    simp only [Option.getD_some]
    rw [htextM, parseUnitsGwei_natText]

/-- C14 at the input `5 gwei`: the three variants return 5000000000, whatever
the endpoint suggests, without a `getGasPrice` call. -/
theorem whole_gwei_input_is_scaled_witness :
    digitsValue ['5'] < 2 ^ 53 ∧
    parseGasPrice (List.map Char.toLower) (some "5 gwei") (suggests 7) =
      { result := some 5000000000, queries := 0, warned := false } ∧
    NewJs.parseGasPrice (List.map Char.toLower) (some "5 gwei") (suggests 7) =
      { result := some 5000000000, queries := 0, warned := false } ∧
    parseGasPriceGweiInput (List.map Char.toLower) (some "5 gwei") (suggests 7) =
      { result := some 5000000000, queries := 0, warned := false } :=
  ⟨by decide,
   whole_gwei_input_is_scaled (List.map Char.toLower) [] ['5'] [' '] "gwei".toList []
     (suggests 7) (fun _ _ => rfl) (by decide) (by decide) (by decide) (by decide)
     (by decide) (by decide) (Or.inr (by decide))⟩


/-! ## The ledger that phase 1 leaves -/

theorem afterAttempts_indices (submit : Nat → Option String) (n : Nat) :
    (∀ tx ∈ (afterAttempts submit n).pendingTxs, 1 ≤ tx.index ∧ tx.index ≤ n) ∧
    ((afterAttempts submit n).pendingTxs.map (fun tx => tx.index)).Pairwise (fun a b => a < b) ∧
    (∀ (j : Nat) (tx : PendingTx), (afterAttempts submit n).pendingTxs[j]? = some tx →
      j + 1 ≤ tx.index) := by
  induction n with
  | zero =>
    refine ⟨?_, ?_, ?_⟩
    · intro tx h; cases h
    · exact List.Pairwise.nil
    · intro j tx h; simp [afterAttempts, DispatchState.init] at h
  | succ n ih =>
    obtain ⟨h1, h2, h3⟩ := ih
    have hc := afterAttempts_attemptCount submit n
    have ht := afterAttempts_tally submit n
    rw [afterAttempts]
    cases hs : submit (n + 1) with
    | none =>
      simp only [attempt]
      refine ⟨?_, h2, h3⟩
      intro tx htx
      have := h1 tx htx
      omega
    | some hash =>
      simp only [attempt, hc]
      refine ⟨?_, ?_, ?_⟩
      · intro tx htx
        rcases List.mem_append.1 htx with h | h
        · have := h1 tx h
          omega
        · simp only [List.mem_singleton] at h
          rw [h]
          exact ⟨by simp, by simp⟩
      · rw [List.map_append, List.pairwise_append]
        refine ⟨h2, by simp, ?_⟩
        intro a ha b hb
        simp only [List.map_cons, List.map_nil, List.mem_singleton] at hb
        obtain ⟨tx, htx, rfl⟩ := List.mem_map.1 ha
        have := h1 tx htx
        omega
      · intro j tx hj
        by_cases hlt : j < (afterAttempts submit n).pendingTxs.length
        · rw [List.getElem?_append_left hlt] at hj
          exact h3 j tx hj
        · rw [List.getElem?_append_right (by omega)] at hj
          have hlen : j - (afterAttempts submit n).pendingTxs.length = 0 := by
            by_contra hne
            rw [List.getElem?_eq_none (by simp; omega)] at hj
            cases hj
          rw [hlen] at hj
          simp only [List.getElem?_cons_zero, Option.some.injEq] at hj
          rw [← hj]
          simp only
          omega

/-- C27: the ledger at the end of the dispatch loop, for every `total` and all
submission outcomes. It has `successCount` entries, all with `checked ==
false`; the `index` values grow strictly along the ledger; the entry at
position `j` (from 0) has an index of at least `j + 1`; every index is at least
1 and at most `2 * total`. -/
theorem ledger_after_dispatch (p : MintParams) (total : Int) (dropStatus : DropStatus)
    (dateNow : Nat) (submit : Nat → Option String) :
    (trickyMintHybridSend p total dropStatus dateNow submit).1.pendingTxs.length =
      (trickyMintHybridSend p total dropStatus dateNow submit).1.successCount ∧
    (∀ tx ∈ (trickyMintHybridSend p total dropStatus dateNow submit).1.pendingTxs,
      tx.checked = false) ∧
    ((trickyMintHybridSend p total dropStatus dateNow submit).1.pendingTxs.map
      (fun tx => tx.index)).Pairwise (fun a b => a < b) ∧
    (∀ (j : Nat) (tx : PendingTx),
      (trickyMintHybridSend p total dropStatus dateNow submit).1.pendingTxs[j]? = some tx →
      j + 1 ≤ tx.index) ∧
    (∀ tx ∈ (trickyMintHybridSend p total dropStatus dateNow submit).1.pendingTxs,
      1 ≤ tx.index ∧ (tx.index : Int) ≤ 2 * total) := by
  obtain ⟨N, hN, _, hguard, _⟩ := trickyMintHybridSend_run p total dropStatus dateNow submit
  rw [hN]
  obtain ⟨h1, h2, h3⟩ := afterAttempts_indices submit N
  refine ⟨(afterAttempts_tally submit N).1, afterAttempts_unchecked submit N, h2, h3, ?_⟩
  intro tx htx
  obtain ⟨a, b⟩ := h1 tx htx
  refine ⟨a, ?_⟩
  have hpos : 0 < N := by omega
  have hg := hguard (N - 1) (by omega)
  unfold loopGuard at hg
  simp only [Bool.and_eq_true, decide_eq_true_eq] at hg
  have hc := afterAttempts_attemptCount submit (N - 1)
  rw [hc] at hg
  have : ((N - 1 : Nat) : Int) = (N : Int) - 1 := by omega
  omega


/-! ## Ticks one after another: what the counters can reach -/

theorem afterAttempts_successCount_step (submit : Nat → Option String) (n : Nat) :
    (afterAttempts submit (n + 1)).successCount ≤ (afterAttempts submit n).successCount + 1 := by
  rw [afterAttempts]
  cases submit (n + 1) with
  | none => simp [attempt]
  | some h => simp [attempt]

theorem send_successCount_le (p : MintParams) (total : Int) (dropStatus : DropStatus)
    (dateNow : Nat) (submit : Nat → Option String) (h : 0 ≤ total) :
    ((trickyMintHybridSend p total dropStatus dateNow submit).1.successCount : Int) ≤ total := by
  obtain ⟨N, hN, _, hguard, _⟩ := trickyMintHybridSend_run p total dropStatus dateNow submit
  rw [hN]
  cases N with
  | zero => simpa [afterAttempts, DispatchState.init] using h
  | succ n =>
    have hg := hguard n (by omega)
    unfold loopGuard at hg
    simp only [Bool.and_eq_true, decide_eq_true_eq] at hg
    have := afterAttempts_successCount_step submit n
    omega

theorem pollTick_length (total : Int) (successCount : Nat) (answer : Nat → ReceiptAnswer)
    (st : PollerState) :
    (pollTick total successCount answer st).pendingTxs.length = st.pendingTxs.length := by
  by_cases h : st.intervalActive = true
  · rw [pollTick_pendingTxs total successCount answer st h]
    simp [tickLedger]
  · have : pollTick total successCount answer st = st := by
      unfold pollTick
      rw [if_neg h]
    rw [this]

theorem pollTicks_length (total : Int) (successCount : Nat)
    (answers : Nat → Nat → ReceiptAnswer) (st : PollerState) :
    ∀ n, (pollTicks total successCount answers n st).pendingTxs.length =
      st.pendingTxs.length := by
  intro n
  induction n with
  | zero => rfl
  | succ n ih => rw [pollTicks, pollTick_length, ih]

theorem countUnchecked_eq_zero (txs : List PendingTx) (h : countUnchecked txs = 0) :
    ∀ tx ∈ txs, tx.checked = true := by
  intro tx htx
  unfold countUnchecked at h
  rw [List.length_eq_zero, List.filter_eq_nil_iff] at h
  have := h tx htx
  simpa using this

theorem pollTicks_tally_send (p : MintParams) (total : Int) (dropStatus : DropStatus)
    (dateNow : Nat) (submit : Nat → Option String) (answers : Nat → Nat → ReceiptAnswer)
    (n : Nat) :
    (trickyMintHybrid p total dropStatus dateNow submit answers n).2.2.confirmedCount +
      countFailed (trickyMintHybrid p total dropStatus dateNow submit answers n).2.2.output +
      countUnchecked
        (trickyMintHybrid p total dropStatus dateNow submit answers n).2.2.pendingTxs =
      (trickyMintHybridSend p total dropStatus dateNow submit).1.successCount ∧
    (trickyMintHybrid p total dropStatus dateNow submit answers n).2.2.pendingTxs.length =
      (trickyMintHybridSend p total dropStatus dateNow submit).1.successCount := by
  obtain ⟨N, hN, _, _, _⟩ := trickyMintHybridSend_run p total dropStatus dateNow submit
  have e : (trickyMintHybrid p total dropStatus dateNow submit answers n).2.2 =
      pollTicks total (trickyMintHybridSend p total dropStatus dateNow submit).1.successCount
        answers n (PollerState.start (trickyMintHybridSend p total dropStatus dateNow submit).1) :=
    rfl
  rw [e]
  constructor
  · rw [hN]
    exact (pollTicks_tally total _ answers submit N n).1
  · rw [pollTicks_length]
    show (trickyMintHybridSend p total dropStatus dateNow submit).1.pendingTxs.length = _
    rw [hN]
    exact (afterAttempts_tally submit N).1

theorem pollTicks_stopped_all_checked (p : MintParams) (total : Int)
    (dropStatus : DropStatus) (dateNow : Nat) (submit : Nat → Option String)
    (answers : Nat → Nat → ReceiptAnswer) (h : 0 ≤ total) :
    ∀ n, (trickyMintHybrid p total dropStatus dateNow submit answers n).2.2.intervalActive =
        false →
      countUnchecked
        (trickyMintHybrid p total dropStatus dateNow submit answers n).2.2.pendingTxs = 0 := by
  intro n
  induction n with
  | zero => intro hc; cases hc
  | succ n ih =>
    intro hstop
    have e : (trickyMintHybrid p total dropStatus dateNow submit answers (n + 1)).2.2 =
        pollTick total (trickyMintHybridSend p total dropStatus dateNow submit).1.successCount
          (answers n) (trickyMintHybrid p total dropStatus dateNow submit answers n).2.2 := rfl
    by_cases hact :
        (trickyMintHybrid p total dropStatus dateNow submit answers n).2.2.intervalActive = true
    · obtain ⟨t1, _, _, t4, _⟩ := tick_stops_iff total
        (trickyMintHybridSend p total dropStatus dateNow submit).1.successCount (answers n)
        (trickyMintHybrid p total dropStatus dateNow submit answers n).2.2 hact
      rw [← e] at t1 t4
      rcases t1.1 hstop with h0 | hc
      · rw [← t4]; exact h0
      · obtain ⟨ta, _⟩ := pollTicks_tally_send p total dropStatus dateNow submit answers (n + 1)
        have := send_successCount_le p total dropStatus dateNow submit h
        omega
    · have hst : pollTick total
          (trickyMintHybridSend p total dropStatus dateNow submit).1.successCount (answers n)
          (trickyMintHybrid p total dropStatus dateNow submit answers n).2.2 =
          (trickyMintHybrid p total dropStatus dateNow submit answers n).2.2 := by
        unfold pollTick
        rw [if_neg hact]
      rw [e, hst]
      rw [e, hst] at hstop
      exact ih hstop

/-- C26: a run of `trickyMintHybrid` with `total >= 0` whose poller ticks run
one after another, observed after any number `n` of ticks. `confirmedCount` is
at most the number of ledger entries, which is at most `total`. When the poller
has stopped, every ledger entry has `checked == true`. When the next tick runs
and ends with `confirmedCount == total`, its `stillPending` is 0 and it stops
the poller. -/
theorem sequential_ticks_bounds (p : MintParams) (total : Int) (dropStatus : DropStatus)
    (dateNow : Nat) (submit : Nat → Option String) (answers : Nat → Nat → ReceiptAnswer)
    (n : Nat) (h : 0 ≤ total) :
    (trickyMintHybrid p total dropStatus dateNow submit answers n).2.2.confirmedCount ≤
      (trickyMintHybrid p total dropStatus dateNow submit answers n).2.2.pendingTxs.length ∧
    ((trickyMintHybrid p total dropStatus dateNow submit answers n).2.2.pendingTxs.length
      : Int) ≤ total ∧
    ((trickyMintHybrid p total dropStatus dateNow submit answers n).2.2.intervalActive = false →
      ∀ tx ∈ (trickyMintHybrid p total dropStatus dateNow submit answers n).2.2.pendingTxs,
        tx.checked = true) ∧
    ((trickyMintHybrid p total dropStatus dateNow submit answers n).2.2.intervalActive = true →
      ((trickyMintHybrid p total dropStatus dateNow submit answers (n + 1)).2.2.confirmedCount
        : Int) = total →
      tickStillPending (answers n)
        (trickyMintHybrid p total dropStatus dateNow submit answers n).2.2.pendingTxs = 0 ∧
      (trickyMintHybrid p total dropStatus dateNow submit answers (n + 1)).2.2.intervalActive =
        false) := by
  obtain ⟨ta, tl⟩ := pollTicks_tally_send p total dropStatus dateNow submit answers n
  have hle := send_successCount_le p total dropStatus dateNow submit h
  refine ⟨by omega, by omega, ?_, ?_⟩
  · intro hstop
    exact countUnchecked_eq_zero _
      (pollTicks_stopped_all_checked p total dropStatus dateNow submit answers h n hstop)
  · intro hact hc
    have e : (trickyMintHybrid p total dropStatus dateNow submit answers (n + 1)).2.2 =
        pollTick total (trickyMintHybridSend p total dropStatus dateNow submit).1.successCount
          (answers n) (trickyMintHybrid p total dropStatus dateNow submit answers n).2.2 := rfl
    obtain ⟨t1, _, _, t4, _⟩ := tick_stops_iff total
      (trickyMintHybridSend p total dropStatus dateNow submit).1.successCount (answers n)
      (trickyMintHybrid p total dropStatus dateNow submit answers n).2.2 hact
    rw [← e] at t1 t4
    obtain ⟨ta1, _⟩ := pollTicks_tally_send p total dropStatus dateNow submit answers (n + 1)
    refine ⟨by rw [t4]; omega, t1.2 (Or.inr hc)⟩

/-- C26 at a run with `total = 2`, every submission accepted and every receipt
successful, before the first tick: that tick ends with `confirmedCount == 2`,
a `stillPending` of 0, and stops the poller. -/
theorem sequential_ticks_bounds_witness :
    (0 : Int) ≤ 2 ∧
    (trickyMintHybrid exampleParams 2 activeStatus 150000 acceptAll
      (fun _ _ => .receipt 1) 0).2.2.pendingTxs.length = 2 ∧
    tickStillPending (fun _ => ReceiptAnswer.receipt 1)
      (trickyMintHybrid exampleParams 2 activeStatus 150000 acceptAll
        (fun _ _ => .receipt 1) 0).2.2.pendingTxs = 0 ∧
    (trickyMintHybrid exampleParams 2 activeStatus 150000 acceptAll
      (fun _ _ => .receipt 1) 1).2.2.intervalActive = false :=
  ⟨by decide, by decide,
   ((sequential_ticks_bounds exampleParams 2 activeStatus 150000 acceptAll
      (fun _ _ => .receipt 1) 0 (by decide)).2.2.2 (by decide) (by decide)).1,
   ((sequential_ticks_bounds exampleParams 2 activeStatus 150000 acceptAll
      (fun _ _ => .receipt 1) 0 (by decide)).2.2.2 (by decide) (by decide)).2⟩


/-! ## `getProviderWithFallback`: the first failure ends the call -/

/-- With `spinner` bound in the `catch` block the loop is a fallback: it
returns the provider of the first URL that is up, after calling `getNetwork`
for that URL and all the URLs before it, and ends with `All RPCs failed` exactly
when no URL is up. -/
theorem tryRpcs_in_scope (getNetwork : String → Bool) :
    ∀ (list : List String),
      (∀ (pre : List String) (rpcUrl : String) (post : List String),
        list = pre ++ rpcUrl :: post → (∀ u ∈ pre, getNetwork u = false) →
        getNetwork rpcUrl = true →
        tryRpcs true getNetwork list = (.provider rpcUrl, pre ++ [rpcUrl])) ∧
      ((tryRpcs true getNetwork list).1 = .allRpcsFailed ↔
        ∀ u ∈ list, getNetwork u = false) := by
  intro list
  induction list with
  | nil =>
    constructor
    · intro pre rpcUrl post h
      cases pre <;> cases h
    · simp [tryRpcs]
  | cons a rest ih =>
    obtain ⟨ih1, ih2⟩ := ih
    constructor
    · intro pre rpcUrl post h hpre hup
      cases pre with
      | nil =>
        simp only [List.nil_append, List.cons.injEq] at h
        rw [tryRpcs, h.1, if_pos hup]
        rfl
      | cons b pre' =>
        simp only [List.cons_append, List.cons.injEq] at h
        have hb : getNetwork a = false := by
          rw [h.1]; exact hpre b (List.mem_cons_self _ _)
        rw [tryRpcs, hb]
        simp only [Bool.false_eq_true, if_false, if_true]
        rw [ih1 pre' rpcUrl post h.2 (fun u hu => hpre u (List.mem_cons_of_mem _ hu)) hup, h.1]
        rfl
    · rw [tryRpcs]
      cases ha : getNetwork a with
      | true =>
        simp only [if_true]
        constructor
        · intro h; cases h
        · intro h
          have := h a (List.mem_cons_self _ _)
          rw [ha] at this
          cases this
      | false =>
        simp only [Bool.false_eq_true, if_false, if_true]
        rw [ih2]
        constructor
        · intro h u hu
          rcases List.mem_cons.1 hu with rfl | hu
          · exact ha
          · exact h u hu
        · intro h u hu
          exact h u (List.mem_cons_of_mem _ hu)

/-- C23: `getProviderWithFallback` of `main.js` calls `getNetwork` for the first
URL only. For a list `rpcUrl :: rest` it returns the provider of `rpcUrl` when
that call succeeds and throws a `ReferenceError` when it fails, whatever the
other URLs would answer; it never throws `All RPCs failed`. A missing,
non-array or empty entry throws `No RPCs configured`. For the list of two URLs
of which only the second is up, the call throws the `ReferenceError`, while the
same loop with `spinner` in scope returns the provider of the second URL. -/
theorem first_rpc_failure_aborts :
    (∀ (getNetwork : String → Bool) (rpcUrl : String) (rest : List String),
      getProviderWithFallback (.urls (rpcUrl :: rest)) getNetwork =
        (if getNetwork rpcUrl then (.provider rpcUrl, [rpcUrl])
         else (.referenceError, [rpcUrl]))) ∧
    (∀ (getNetwork : String → Bool) (entry : RpcEntry),
      (getProviderWithFallback entry getNetwork).1 ≠ .allRpcsFailed) ∧
    (∀ (getNetwork : String → Bool),
      getProviderWithFallback .missing getNetwork = (.noRpcsConfigured, []) ∧
      getProviderWithFallback .notArray getNetwork = (.noRpcsConfigured, []) ∧
      getProviderWithFallback (.urls []) getNetwork = (.noRpcsConfigured, [])) ∧
    getProviderWithFallback (.urls ["https://rpc-a", "https://rpc-b"]) secondRpcUp =
      (.referenceError, ["https://rpc-a"]) ∧
    tryRpcs true secondRpcUp ["https://rpc-a", "https://rpc-b"] =
      (.provider "https://rpc-b", ["https://rpc-a", "https://rpc-b"]) := by
  have h1 : ∀ (getNetwork : String → Bool) (rpcUrl : String) (rest : List String),
      getProviderWithFallback (.urls (rpcUrl :: rest)) getNetwork =
        (if getNetwork rpcUrl then (.provider rpcUrl, [rpcUrl])
         else (.referenceError, [rpcUrl])) := by
    intro getNetwork rpcUrl rest
    unfold getProviderWithFallback
    simp only [List.length_cons, Nat.add_one_ne_zero, if_false]
    rw [tryRpcs]
    cases getNetwork rpcUrl <;> simp
  refine ⟨h1, ?_, fun _ => ⟨rfl, rfl, rfl⟩, by decide, by decide⟩
  intro getNetwork entry
  cases entry with
  | missing => simp [getProviderWithFallback]
  | notArray => simp [getProviderWithFallback]
  | urls list =>
    cases list with
    | nil => simp [getProviderWithFallback]
    | cons a rest =>
      rw [h1]
      cases getNetwork a <;> simp



/-! ## The wallet pass of `new5.js` -/

theorem connectRpc_congr (w w' : WalletWorld) (h1 : w'.getNetwork = w.getNetwork)
    (h2 : w'.getNetworkMs = w.getNetworkMs) :
    ∀ rpcs, connectRpc w' rpcs = connectRpc w rpcs := by
  intro rpcs
  induction rpcs with
  | nil => rfl
  | cons rpc rest ih => rw [connectRpc, connectRpc, ih, h1, h2]

/-- A pass of the wallet loop reaches `trickyMintHybrid` exactly when an
endpoint answered, the drop, the balance and the gas price were obtained, the
gas limit is a number `BigNumber.from` accepts, and the user answered `y`. The
call then gets the price of the drop, the resolved gas price and the chosen gas
limit. -/
theorem walletPass_sent (unicodeLower : List Char → List Char)
    (lowBalance : Nat → Nat → Int → Int → Int → Bool) (cfg : RunConfig) (w : WalletWorld)
    (start : Nat) (r : DispatchState × List Effect)
    (h : (walletPass unicodeLower lowBalance cfg w start).sent = some r) :
    ∃ (publicDrop : PublicDrop) (balance : Nat) (gasPrice gasLimit : Int)
      (clockAtCheck clockAtGate : Nat),
      (connectRpc w cfg.rpcs).1 = true ∧
      w.getPublicDrop = some publicDrop ∧ w.getBalance = some balance ∧
      (parseGasPrice unicodeLower (some cfg.gasInput) w.getGasPrice).result = some gasPrice ∧
      bigNumberFromNumber (chosenGasLimit cfg) = some gasLimit ∧
      w.confirm = "y" ∧
      r = trickyMintHybridSend
        { nftAddr := cfg.nftAddr, price := publicDrop.mintPrice, gasPrice := gasPrice,
          gasLimit := gasLimit }
        cfg.total (checkDropStatus publicDrop clockAtCheck) clockAtGate w.submit := by
  unfold walletPass at h
  dsimp only at h
  split at h
  · cases h
  · rename_i hc
    split at h
    · cases h
    · rename_i publicDrop hdrop
      split at h
      · cases h
      · rename_i balance hbal
        split at h
        · cases h
        · rename_i gasPrice hgas
          split at h
          · cases h
          · rename_i gasLimit hlim
            split at h
            · cases h
            · rename_i hy
              simp only [Option.some.injEq] at h
              refine ⟨publicDrop, balance, gasPrice, gasLimit, _, _, ?_, hdrop, hbal, hgas,
                hlim, ?_, h.symm⟩
              · cases hx : (connectRpc w cfg.rpcs).1 with
                | true => rfl
                | false => exact absurd hx hc
              · exact Decidable.of_not_not hy

/-- C22: in `new5.js` the balance of the wallet decides nothing but the
`Low balance` warning. Two passes of the wallet loop that differ in the balance
alone make the same awaited calls, reach `trickyMintHybrid` both or neither,
and run the same phase 1: the same `mintMulti` calls and the same ledger. -/
theorem balance_never_blocks (unicodeLower : List Char → List Char)
    (lowBalance : Nat → Nat → Int → Int → Int → Bool) (cfg : RunConfig) (w : WalletWorld)
    (start : Nat) (balance balance' : Nat) :
    (walletPass unicodeLower lowBalance cfg { w with getBalance := some balance } start).sent =
      (walletPass unicodeLower lowBalance cfg { w with getBalance := some balance' }
        start).sent ∧
    (walletPass unicodeLower lowBalance cfg { w with getBalance := some balance } start).steps =
      (walletPass unicodeLower lowBalance cfg { w with getBalance := some balance' }
        start).steps ∧
    ((walletPass unicodeLower lowBalance cfg { w with getBalance := some balance }
        start).sent.isSome =
      (walletPass unicodeLower lowBalance cfg { w with getBalance := some balance' }
        start).sent.isSome) := by
  have key : (walletPass unicodeLower lowBalance cfg { w with getBalance := some balance }
        start).sent =
      (walletPass unicodeLower lowBalance cfg { w with getBalance := some balance' }
        start).sent ∧
    (walletPass unicodeLower lowBalance cfg { w with getBalance := some balance } start).steps =
      (walletPass unicodeLower lowBalance cfg { w with getBalance := some balance' }
        start).steps := by
    unfold walletPass
    rw [connectRpc_congr w { w with getBalance := some balance } rfl rfl,
      connectRpc_congr w { w with getBalance := some balance' } rfl rfl]
    dsimp only
    split
    · exact ⟨rfl, rfl⟩
    · split
      · exact ⟨rfl, rfl⟩
      · split
        · exact ⟨rfl, rfl⟩
        · split
          · exact ⟨rfl, rfl⟩
          · split
            · exact ⟨rfl, rfl⟩
            · exact ⟨rfl, rfl⟩
  exact ⟨key.1, key.2, by rw [key.1]⟩

/-- C22 on a wallet with a balance of 0 and on one with a balance of `10^18`,
for a token price of 5: the first pass prints the warning, the second does
not, and both make the same `mintMulti` call. -/
theorem balance_never_blocks_witness :
    (walletPass (List.map Char.toLower) exactLowBalance exampleConfig (exampleWorld 0)
      150000).lowBalanceWarning = true ∧
    (walletPass (List.map Char.toLower) exactLowBalance exampleConfig
      (exampleWorld (10 ^ 18)) 150000).lowBalanceWarning = false ∧
    (walletPass (List.map Char.toLower) exactLowBalance exampleConfig (exampleWorld 0)
      150000).sent =
      (walletPass (List.map Char.toLower) exactLowBalance exampleConfig
        (exampleWorld (10 ^ 18)) 150000).sent ∧
    ((walletPass (List.map Char.toLower) exactLowBalance exampleConfig (exampleWorld 0)
      150000).sent.map (fun r => r.2)) =
      some [Effect.mintMulti 1 "0xNFT" 5 105 150000] :=
  ⟨by decide, by decide,
   (balance_never_blocks (List.map Char.toLower) exactLowBalance exampleConfig
      (exampleWorld 0) 150000 0 (10 ^ 18)).1,
   by decide⟩

/-! ## What a purchase transaction carries -/

theorem send_effects_mint (p : MintParams) (total : Int) (dropStatus : DropStatus)
    (dateNow : Nat) (submit : Nat → Option String) :
    ∀ e ∈ (trickyMintHybridSend p total dropStatus dateNow submit).2,
      e.isMint = true → e = mintCall p := by
  intro e he hm
  have hsplit : e ∈ waitForDrop dropStatus dateNow ++
      (dispatchLoop p total submit (total * 2).toNat DispatchState.init).2 := he
  rcases List.mem_append.1 hsplit with h | h
  · obtain ⟨ms, hms⟩ := waitForDrop_effects_kind dropStatus dateNow e h
    rw [hms] at hm
    cases hm
  · rcases dispatchLoop_effects_kind p total submit _ _ e h with h1 | h1
    · exact h1
    · rw [h1] at hm
      cases hm

theorem bigNumberFromNumber_some (value : Option Int) (v : Int)
    (h : bigNumberFromNumber value = some v) : value = some v := by
  unfold bigNumberFromNumber at h
  cases value with
  | none => cases h
  | some x =>
    dsimp only at h
    split at h
    · cases h
    · exact h

theorem mainJs_mintLoop_mem (nftAddr : String) (quantity value : Nat) (gasPrice : Int)
    (attempts : Nat → MainJs.Attempt) :
    ∀ (fuel k : Nat) (e : Effect),
      e ∈ MainJs.mintLoop nftAddr quantity value gasPrice attempts fuel k →
      ∃ (j estimatedGas : Nat), (attempts j).estimatedGas = some estimatedGas ∧
        e = .mintMulti quantity nftAddr value gasPrice
          ((estimatedGas * 12 / 10 : Nat) : Int) := by
  intro fuel
  induction fuel with
  | zero => intro k e h; cases h
  | succ fuel ih =>
    intro k e h
    rw [MainJs.mintLoop] at h
    rcases List.mem_append.1 h with h1 | h1
    · unfold MainJs.attempt at h1
      split at h1
      · cases h1
      · split at h1
        · cases h1
        · rename_i est hest
          split at h1
          · cases h1
          · simp only [Option.toList_some, List.mem_singleton] at h1
            exact ⟨k + 1, est, hest, h1⟩
    · split at h1
      · cases h1
      · exact ih (k + 1) e h1

/-- C21: the value of every purchase transaction is the `mintPrice` of the drop
times the quantity passed to `mintMulti`, and it carries the resolved gas price
and the chosen gas limit. In `new5.js` every `mintMulti` call of phase 1 asks
for 1 token with the value `mintPrice`, the gas price that `parseGasPrice`
returned and the gas limit chosen from the answer to the gas limit question.
In `new.js` the one call asks for `total` tokens with the value
`mintPrice * total`, the gas price that `parseGasPrice` returned and 120 % of
the gas estimate. In `main.js` every transaction of the mint loop asks for
`total` tokens with the value `mintPrice * total`, the gas price that
`parseGasPriceGweiInput` returned and 12 / 10 of the gas estimate of its
pass. -/
theorem submission_value_is_price_times_quantity
    (unicodeLower : List Char → List Char) :
    (∀ (lowBalance : Nat → Nat → Int → Int → Int → Bool) (cfg : RunConfig) (w : WalletWorld)
        (start : Nat) (r : DispatchState × List Effect),
      (walletPass unicodeLower lowBalance cfg w start).sent = some r →
      ∃ (publicDrop : PublicDrop) (gasPrice gasLimit : Int),
        w.getPublicDrop = some publicDrop ∧
        (parseGasPrice unicodeLower (some cfg.gasInput) w.getGasPrice).result =
          some gasPrice ∧
        chosenGasLimit cfg = some gasLimit ∧
        ∀ e ∈ r.2, e.isMint = true →
          e = .mintMulti 1 cfg.nftAddr (publicDrop.mintPrice * 1) gasPrice gasLimit) ∧
    (∀ (nftAddr : String) (total : Option Int) (gasInput : String) (w : NewJs.World)
        (e : Effect),
      NewJs.walletPass unicodeLower nftAddr total gasInput w = some e →
      ∃ (publicDrop : PublicDrop) (quantity : Nat) (gasPrice : Int) (gasEstimate : Nat),
        w.getPublicDrop = some publicDrop ∧ total = some (quantity : Int) ∧
        (NewJs.parseGasPrice unicodeLower (some gasInput) w.getGasPrice).result =
          some gasPrice ∧
        w.estimateGas = some gasEstimate ∧
        e = .mintMulti quantity nftAddr (publicDrop.mintPrice * quantity) gasPrice
          ((gasEstimate * 120 / 100 : Nat) : Int)) ∧
    (∀ (gasInput : String) (getGasPrice : Nat → Option Nat) (nftAddr : String)
        (total : Option Int) (publicDrop : Option PublicDrop) (balance : Option Nat)
        (attempts : Nat → MainJs.Attempt) (fuel : Nat) (e : Effect),
      e ∈ MainJs.run unicodeLower gasInput getGasPrice nftAddr total publicDrop balance
        attempts fuel →
      ∃ (drop : PublicDrop) (quantity : Nat) (gasPrice : Int) (j estimatedGas : Nat),
        publicDrop = some drop ∧ total = some (quantity : Int) ∧
        (parseGasPriceGweiInput unicodeLower (some gasInput) getGasPrice).result =
          some gasPrice ∧
        (attempts j).estimatedGas = some estimatedGas ∧
        e = .mintMulti quantity nftAddr (drop.mintPrice * quantity) gasPrice
          ((estimatedGas * 12 / 10 : Nat) : Int)) := by
  refine ⟨?_, ?_, ?_⟩
  · intro lowBalance cfg w start r h
    obtain ⟨publicDrop, balance, gasPrice, gasLimit, c1, c2, _, hdrop, _, hgas, hlim, _, hr⟩ :=
      walletPass_sent unicodeLower lowBalance cfg w start r h
    refine ⟨publicDrop, gasPrice, gasLimit, hdrop, hgas,
      bigNumberFromNumber_some _ _ hlim, ?_⟩
    intro e he hm
    rw [hr] at he
    rw [send_effects_mint _ _ _ _ _ e he hm, Nat.mul_one]
    rfl
  · intro nftAddr total gasInput w e h
    unfold NewJs.walletPass at h
    dsimp only at h
    split at h
    · cases h
    · split at h
      · cases h
      · rename_i publicDrop hdrop
        split at h
        · cases h
        · split at h
          · cases h
          · rename_i quantity hq
            split at h
            · cases h
            · split at h
              · cases h
              · rename_i gasPrice hgas
                split at h
                · cases h
                · rename_i hneg
                  split at h
                  · cases h
                  · rename_i gasEstimate hest
                    split at h
                    · cases h
                    · simp only [Option.some.injEq] at h
                      have hq0 : (0 : Int) ≤ quantity := by omega
                      have hcast : ((quantity.toNat : Nat) : Int) = quantity :=
                        Int.toNat_of_nonneg hq0
                      refine ⟨publicDrop, quantity.toNat, gasPrice, gasEstimate, hdrop, ?_,
                        hgas, hest, ?_⟩
                      · rw [hcast]
                        exact bigNumberFromNumber_some _ _ hq
                      · rw [← h]
                        congr 1
                        have : ((publicDrop.mintPrice : Int) * quantity) =
                            ((publicDrop.mintPrice * quantity.toNat : Nat) : Int) := by
                          rw [Nat.cast_mul, hcast]
                        rw [this, Int.toNat_natCast]
  · intro gasInput getGasPrice nftAddr total publicDrop balance attempts fuel e h
    unfold MainJs.run at h
    dsimp only at h
    split at h
    · cases h
    · rename_i gasPrice hgas
      split at h
      · cases h
      · rename_i drop
        split at h
        · cases h
        · rename_i quantity hq
          split at h
          · cases h
          · split at h
            · cases h
            · split at h
              · cases h
              · rename_i hneg
                obtain ⟨j, est, hj, he⟩ := mainJs_mintLoop_mem _ _ _ _ _ _ _ e h
                have hq0 : (0 : Int) ≤ quantity := by omega
                have hcast : ((quantity.toNat : Nat) : Int) = quantity :=
                  Int.toNat_of_nonneg hq0
                refine ⟨drop, quantity.toNat, gasPrice, j, est, rfl, ?_, hgas, hj, ?_⟩
                · rw [hcast]
                  exact bigNumberFromNumber_some _ _ hq
                · rw [he]
                  congr 1
                  have : ((drop.mintPrice : Int) * quantity) =
                      ((drop.mintPrice * quantity.toNat : Nat) : Int) := by
                    rw [Nat.cast_mul, hcast]
                  rw [this, Int.toNat_natCast]

/-- C21 on three runs with a token price of 5. In `new5.js`, with blank gas
answers and a suggested gas price of 100, the call is `mintMulti(1)` with value
5, gas price 105 and gas limit 150000. In `new.js`, with `total = 3` and the
gas input `2 gwei`, the call is `mintMulti(3)` with value 15, gas price
2000000000 and gas limit 120000. In `main.js`, with `total = 3` and a blank gas
input, the two transactions sent carry value 15 and gas price 120. -/
theorem submission_value_is_price_times_quantity_witness :
    (walletPass (List.map Char.toLower) exactLowBalance exampleConfig (exampleWorld 0)
      150000).sent.map (fun r => r.2) = some [Effect.mintMulti 1 "0xNFT" 5 105 150000] ∧
    NewJs.walletPass (List.map Char.toLower) "0xNFT" (some 3) "2 gwei" NewJs.exampleWorld =
      some (Effect.mintMulti 3 "0xNFT" 15 2000000000 120000) ∧
    MainJs.run (List.map Char.toLower) "" (suggests 100) "0xNFT" (some 3) (some exampleDrop)
        (some 1000) MainJs.exampleAttempts 10 =
      [Effect.mintMulti 3 "0xNFT" 15 120 120000, Effect.mintMulti 3 "0xNFT" 15 120 108000] ∧
    (∃ (publicDrop : PublicDrop) (quantity : Nat) (gasPrice : Int) (gasEstimate : Nat),
      NewJs.exampleWorld.getPublicDrop = some publicDrop ∧
      (some 3 : Option Int) = some (quantity : Int) ∧
      (NewJs.parseGasPrice (List.map Char.toLower) (some "2 gwei")
        NewJs.exampleWorld.getGasPrice).result = some gasPrice ∧
      NewJs.exampleWorld.estimateGas = some gasEstimate ∧
      Effect.mintMulti 3 "0xNFT" 15 2000000000 120000 =
        .mintMulti quantity "0xNFT" (publicDrop.mintPrice * quantity) gasPrice
          ((gasEstimate * 120 / 100 : Nat) : Int)) :=
  ⟨by decide, by decide, by decide,
   (submission_value_is_price_times_quantity (List.map Char.toLower)).2.1 "0xNFT" (some 3)
     "2 gwei" NewJs.exampleWorld _ (by decide)⟩

/-! ## The wallet loop on the clock -/

theorem elapsed_cons (s : Step) (rest : List Step) :
    elapsed (s :: rest) = s.ms + elapsed rest := by
  simp [elapsed]

theorem stamp_bounds : ∀ (steps : List Step) (t : Nat),
    ∀ x ∈ stamp t steps, t ≤ x.1 ∧ x.1 ≤ t + elapsed steps := by
  intro steps
  induction steps with
  | nil => intro t x hx; cases hx
  | cons s rest ih =>
    intro t x hx
    rw [stamp] at hx
    rw [elapsed_cons]
    rcases List.mem_cons.1 hx with h | h
    · rw [h]
      exact ⟨le_refl _, by simp only; omega⟩
    · have := ih (t + s.ms) x h
      omega

theorem walletLoop_cons (unicodeLower : List Char → List Char)
    (lowBalance : Nat → Nat → Int → Int → Int → Bool) (cfg : RunConfig) (w : WalletWorld)
    (rest : List WalletWorld) (clock : Nat) :
    walletLoop unicodeLower lowBalance cfg (w :: rest) clock =
      if w.validKey = false then []
      else
        { start := clock, pass := walletPass unicodeLower lowBalance cfg w clock,
          finish := clock + elapsed (walletPass unicodeLower lowBalance cfg w clock).steps,
          world := w } ::
          walletLoop unicodeLower lowBalance cfg rest
            (clock + elapsed (walletPass unicodeLower lowBalance cfg w clock).steps) := rfl

theorem walletLoop_record (unicodeLower : List Char → List Char)
    (lowBalance : Nat → Nat → Int → Int → Int → Bool) (cfg : RunConfig) :
    ∀ (worlds : List WalletWorld) (clock i : Nat) (r : WalletRecord),
      (walletLoop unicodeLower lowBalance cfg worlds clock)[i]? = some r →
      clock ≤ r.start ∧ r.finish = r.start + elapsed r.pass.steps ∧
      r.pass = walletPass unicodeLower lowBalance cfg r.world r.start := by
  intro worlds
  induction worlds with
  | nil => intro clock i r h; simp [walletLoop] at h
  | cons w rest ih =>
    intro clock i r h
    rw [walletLoop_cons] at h
    split at h
    · simp at h
    · cases i with
      | zero =>
        simp only [List.getElem?_cons_zero, Option.some.injEq] at h
        rw [← h]
        exact ⟨le_refl _, rfl, rfl⟩
      | succ i =>
        simp only [List.getElem?_cons_succ] at h
        have := ih _ i r h
        exact ⟨by omega, this.2.1, this.2.2⟩

theorem walletLoop_next (unicodeLower : List Char → List Char)
    (lowBalance : Nat → Nat → Int → Int → Int → Bool) (cfg : RunConfig) :
    ∀ (worlds : List WalletWorld) (clock i : Nat) (r r' : WalletRecord),
      (walletLoop unicodeLower lowBalance cfg worlds clock)[i]? = some r →
      (walletLoop unicodeLower lowBalance cfg worlds clock)[i + 1]? = some r' →
      r'.start = r.finish := by
  intro worlds
  induction worlds with
  | nil => intro clock i r r' h; simp [walletLoop] at h
  | cons w rest ih =>
    intro clock i r r' h h'
    rw [walletLoop_cons] at h h'
    split at h
    · simp at h
    · rename_i hv
      rw [if_neg hv] at h'
      simp only [List.getElem?_cons_succ] at h'
      cases i with
      | zero =>
        simp only [List.getElem?_cons_zero, Option.some.injEq] at h
        rw [← h]
        cases rest with
        | nil => simp [walletLoop] at h'
        | cons w2 rest2 =>
          rw [walletLoop_cons] at h'
          split at h'
          · simp at h'
          · simp only [List.getElem?_cons_zero, Option.some.injEq] at h'
            rw [← h']
      | succ i =>
        simp only [List.getElem?_cons_succ] at h
        exact ih _ i r r' h h'

theorem walletLoop_later (unicodeLower : List Char → List Char)
    (lowBalance : Nat → Nat → Int → Int → Int → Bool) (cfg : RunConfig) :
    ∀ (worlds : List WalletWorld) (clock i j : Nat) (r r' : WalletRecord), i < j →
      (walletLoop unicodeLower lowBalance cfg worlds clock)[i]? = some r →
      (walletLoop unicodeLower lowBalance cfg worlds clock)[j]? = some r' →
      r.finish ≤ r'.start := by
  intro worlds
  induction worlds with
  | nil => intro clock i j r r' _ h; simp [walletLoop] at h
  | cons w rest ih =>
    intro clock i j r r' hij h h'
    rw [walletLoop_cons] at h h'
    split at h
    · simp at h
    · rename_i hv
      rw [if_neg hv] at h'
      cases j with
      | zero => omega
      | succ j =>
        simp only [List.getElem?_cons_succ] at h'
        cases i with
        | zero =>
          simp only [List.getElem?_cons_zero, Option.some.injEq] at h
          rw [← h]
          exact (walletLoop_record unicodeLower lowBalance cfg rest _ j r' h').1
        | succ i =>
          simp only [List.getElem?_cons_succ] at h
          exact ih _ i j r r' (by omega) h h'

theorem pollerAt_before_first_tick (cfg : RunConfig) (r : WalletRecord) (t : Nat)
    (h1 : r.finish ≤ t) (h2 : t < r.finish + 2000) :
    pollerAt cfg r t = r.pass.sent.map (fun d => PollerState.start d.1) := by
  unfold pollerAt
  rw [if_neg (by omega)]
  have : (t - r.finish) / 2000 = 0 := Nat.div_eq_of_lt (by omega)
  rw [this]
  rfl

theorem walletLoop_worlds (unicodeLower : List Char → List Char)
    (lowBalance : Nat → Nat → Int → Int → Int → Bool) (cfg : RunConfig) :
    ∀ (worlds : List WalletWorld) (clock : Nat),
      (walletLoop unicodeLower lowBalance cfg worlds clock).map (fun r => r.world) =
        worlds.takeWhile (fun w => w.validKey) := by
  intro worlds
  induction worlds with
  | nil => intro clock; rfl
  | cons w rest ih =>
    intro clock
    rw [walletLoop_cons]
    cases hv : w.validKey with
    | false => simp [List.takeWhile, hv]
    | true =>
      simp only [Bool.true_eq_false, if_false, List.map_cons, List.takeWhile, hv]
      rw [ih]

/-- The statement of C25 fails on a run of two wallets that each send one
transaction. The second wallet connects at time 151500, the instant at which
the first wallet called `setInterval`, and its `mintMulti` call begins at
152800; at that time the poller of the first wallet has not run once: its
interval is active and its entry is unchecked. The poller of the first wallet
stops at 153500, when the second pass is over. -/
theorem next_wallet_starts_before_poller_ends :
    (walletLoop (List.map Char.toLower) exactLowBalance exampleConfig
        [exampleWorld 0, exampleWorld 0] 150000).map
        (fun r => (stamp r.start r.pass.steps, r.finish)) =
      [([(150000, .getNetwork "https://rpc-a"), (150120, .getPublicDrop "0xNFT"),
         (150200, .getBalance), (150260, .getGasPrice), (150300, .question),
         (151300, .engine (.mintMulti 1 "0xNFT" 5 105 150000))], 151500),
       ([(151500, .getNetwork "https://rpc-a"), (151620, .getPublicDrop "0xNFT"),
         (151700, .getBalance), (151760, .getGasPrice), (151800, .question),
         (152800, .engine (.mintMulti 1 "0xNFT" 5 105 150000))], 153000)] ∧
    (walletLoop (List.map Char.toLower) exactLowBalance exampleConfig
        [exampleWorld 0, exampleWorld 0] 150000).map
        (fun r => (pollerAt exampleConfig r 152800).map
          (fun st => (st.intervalActive, countUnchecked st.pendingTxs))) =
      [some (true, 1), none] ∧
    (walletLoop (List.map Char.toLower) exactLowBalance exampleConfig
        [exampleWorld 0, exampleWorld 0] 150000).map
        (fun r => (pollerAt exampleConfig r 153500).map
          (fun st => (st.intervalActive, countUnchecked st.pendingTxs))) =
      [some (false, 0), some (true, 1)] := by
  refine ⟨by decide, by decide, by decide⟩

/-- C25, amended: the wallet loop of `new5.js` waits for the dispatch of a
wallet, not for its poller. Every awaited call of a pass (connection, price
fetch, balance, gas price, question, waits and `mintMulti` calls) begins
between the start and the end of the pass, and a later pass starts no earlier
than an earlier pass ends, the next one at the very time the previous one ends.
When the previous pass reached `trickyMintHybrid`, then at the start of the
next pass, and at every time from the end of the previous pass to less than
2000 ms after it, the poller of the previous wallet is in the state in which it
was started, with its interval active and the ledger as dispatch left it. The
loop makes one pass for each wallet, in order, up to the first private key
that `new ethers.Wallet` rejects, and none for that wallet or a later one. -/
theorem wallets_wait_for_dispatch_only (unicodeLower : List Char → List Char)
    (lowBalance : Nat → Nat → Int → Int → Int → Bool) (cfg : RunConfig)
    (worlds : List WalletWorld) (clock : Nat) :
    (∀ (i : Nat) (r : WalletRecord),
      (walletLoop unicodeLower lowBalance cfg worlds clock)[i]? = some r →
      r.pass = walletPass unicodeLower lowBalance cfg r.world r.start ∧
      r.finish = r.start + elapsed r.pass.steps ∧
      ∀ x ∈ stamp r.start r.pass.steps, r.start ≤ x.1 ∧ x.1 ≤ r.finish) ∧
    (∀ (i j : Nat) (r r' : WalletRecord), i < j →
      (walletLoop unicodeLower lowBalance cfg worlds clock)[i]? = some r →
      (walletLoop unicodeLower lowBalance cfg worlds clock)[j]? = some r' →
      r.finish ≤ r'.start) ∧
    (∀ (i : Nat) (r r' : WalletRecord),
      (walletLoop unicodeLower lowBalance cfg worlds clock)[i]? = some r →
      (walletLoop unicodeLower lowBalance cfg worlds clock)[i + 1]? = some r' →
      r'.start = r.finish ∧
      ∀ d, r.pass.sent = some d →
        pollerAt cfg r r'.start = some (PollerState.start d.1) ∧
        (PollerState.start d.1).intervalActive = true ∧
        (PollerState.start d.1).pendingTxs = d.1.pendingTxs) ∧
    (∀ (i : Nat) (r : WalletRecord) (d : DispatchState × List Effect) (t : Nat),
      (walletLoop unicodeLower lowBalance cfg worlds clock)[i]? = some r →
      r.pass.sent = some d → r.finish ≤ t → t < r.finish + 2000 →
      pollerAt cfg r t = some (PollerState.start d.1)) ∧
    (walletLoop unicodeLower lowBalance cfg worlds clock).map (fun r => r.world) =
      worlds.takeWhile (fun w => w.validKey) := by
  refine ⟨?_, ?_, ?_, ?_, walletLoop_worlds unicodeLower lowBalance cfg worlds clock⟩
  · intro i r h
    obtain ⟨_, h2, h3⟩ := walletLoop_record unicodeLower lowBalance cfg worlds clock i r h
    refine ⟨h3, h2, ?_⟩
    intro x hx
    have := stamp_bounds r.pass.steps r.start x hx
    omega
  · exact walletLoop_later unicodeLower lowBalance cfg worlds clock
  · intro i r r' h h'
    have hs := walletLoop_next unicodeLower lowBalance cfg worlds clock i r r' h h'
    refine ⟨hs, ?_⟩
    intro d hd
    refine ⟨?_, rfl, rfl⟩
    rw [hs, pollerAt_before_first_tick cfg r r.finish (le_refl _) (by omega), hd]
    rfl
  · intro i r d t _ hd h1 h2
    rw [pollerAt_before_first_tick cfg r t h1 h2, hd]
    rfl


/-! ## The poller starts when the dispatch loop has ended -/

theorem entryAfter_hash (ans : ReceiptAnswer) (tx : PendingTx) :
    (entryAfter ans tx).hash = tx.hash := by
  cases ans <;> rfl

theorem set_hashes (txs : List PendingTx) (i : Nat) (tx tx' : PendingTx)
    (h : txs.get? i = some tx) (hh : tx'.hash = tx.hash) :
    (txs.set i tx').map (fun t => t.hash) = txs.map (fun t => t.hash) := by
  rw [List.get?_eq_getElem?] at h
  apply List.ext_getElem?
  intro n
  rw [List.getElem?_map, List.getElem?_map, List.getElem?_set]
  split
  · rename_i hin
    subst hin
    split
    · rw [h]
      simp [hh]
    · rename_i hlt
      rw [List.getElem?_eq_none (by omega)]
  · rfl

theorem pollStep_hashes (total : Int) (successCount : Nat) (w : EventLoop) (ev : PollEvent) :
    (pollStep total successCount w ev).shared.pendingTxs.map (fun t => t.hash) =
      w.shared.pendingTxs.map (fun t => t.hash) := by
  cases ev with
  | timer =>
    unfold pollStep
    dsimp only
    split
    · rw [resume_pendingTxs]
    · rfl
  | answer k ans =>
    unfold pollStep
    dsimp only
    split
    · rfl
    · rename_i s _
      split
      · rfl
      · rename_i tx htx
        rw [resume_pendingTxs]
        dsimp only
        apply set_hashes _ _ tx _ htx
        rw [(afterAwait_spec ans tx _).1]
        exact entryAfter_hash ans tx

theorem runEvents_hashes (total : Int) (successCount : Nat) :
    ∀ (events : List PollEvent) (w : EventLoop),
      (runEvents total successCount events w).shared.pendingTxs.map (fun t => t.hash) =
        w.shared.pendingTxs.map (fun t => t.hash) := by
  intro events
  induction events with
  | nil => intro w; rfl
  | cons ev rest ih =>
    intro w
    have hcons : runEvents total successCount (ev :: rest) w =
        runEvents total successCount rest (pollStep total successCount w ev) := rfl
    rw [hcons, ih, pollStep_hashes]

theorem tickLedger_hashes (answer : Nat → ReceiptAnswer) (txs : List PendingTx) :
    (tickLedger answer txs).map (fun t => t.hash) = txs.map (fun t => t.hash) := by
  unfold tickLedger
  rw [List.map_map]
  have : ((fun t : PendingTx => t.hash) ∘
      fun jt : Nat × PendingTx => if jt.2.checked then jt.2 else entryAfter (answer jt.1) jt.2) =
      fun jt => jt.2.hash := by
    funext jt
    simp only [Function.comp]
    split
    · rfl
    · exact entryAfter_hash _ _
  rw [this]
  have h2 : (fun jt : Nat × PendingTx => jt.2.hash) =
      (fun t : PendingTx => t.hash) ∘ Prod.snd := rfl
  rw [h2, ← List.map_map, List.enum_map_snd]

theorem pollTicks_hashes (total : Int) (successCount : Nat)
    (answers : Nat → Nat → ReceiptAnswer) (st : PollerState) :
    ∀ n, (pollTicks total successCount answers n st).pendingTxs.map (fun t => t.hash) =
      st.pendingTxs.map (fun t => t.hash) := by
  intro n
  induction n with
  | zero => rfl
  | succ n ih =>
    rw [pollTicks]
    by_cases h : (pollTicks total successCount answers n st).intervalActive = true
    · rw [pollTick_pendingTxs _ _ _ _ h, tickLedger_hashes, ih]
    · have : pollTick total successCount (answers n)
          (pollTicks total successCount answers n st) =
          pollTicks total successCount answers n st := by
        unfold pollTick
        rw [if_neg h]
      rw [this, ih]

theorem countMint_queries (es : List Effect) (h : ∀ e ∈ es, e.isReceiptQuery = true) :
    countMint es = 0 := by
  unfold countMint
  rw [List.length_eq_zero, List.filter_eq_nil_iff]
  intro e he
  have := h e he
  cases e with
  | sleep ms => simp [Effect.isMint]
  | mintMulti q a v g l => cases this
  | getTransactionReceipt hash => simp [Effect.isMint]

/-- The statement of C24 fails on a run with `total = 2` in which both
submissions are accepted and the first tick finds both receipts. The
transaction `0xaa` is in the ledger before the second and last `mintMulti`
call, yet its receipt query comes after that call: the trace is the two
`mintMulti` calls with the 50 ms wait between them, then the two queries. -/
theorem queries_follow_last_submission :
    trickyMintHybridTrace exampleParams 2 activeStatus 150000 acceptAll
        (fun _ _ => .receipt 1) 1 =
      [.mintMulti 1 "0xNFT" 5 7 150000, .sleep 50, .mintMulti 1 "0xNFT" 5 7 150000,
       .getTransactionReceipt "0xaa", .getTransactionReceipt "0xbb"] ∧
    (dispatchLoop exampleParams 2 acceptAll 1 DispatchState.init).1.pendingTxs =
      [{ hash := "0xaa", index := 1, checked := false }] := by
  refine ⟨by decide, by decide⟩

/-- C24, amended: in `trickyMintHybrid` the dispatch loop and the poller run
one after the other. In the trace of a run, every receipt query comes after all
the `mintMulti` calls of the run, the last one included, and no `mintMulti`
call follows it. The poller, with ticks one after another or with overlapping
runs of its callback, works on the ledger as the dispatch loop left it: the
list of hashes never changes while it runs. -/
theorem poller_starts_after_dispatch (p : MintParams) (total : Int)
    (dropStatus : DropStatus) (dateNow : Nat) (submit : Nat → Option String) :
    (∀ (answers : Nat → Nat → ReceiptAnswer) (ticks : Nat) (pre post : List Effect)
        (e : Effect),
      trickyMintHybridTrace p total dropStatus dateNow submit answers ticks =
        pre ++ e :: post →
      e.isReceiptQuery = true →
      countMint pre = (trickyMintHybridSend p total dropStatus dateNow submit).1.attemptCount ∧
      countMint post = 0) ∧
    (∀ (answers : Nat → Nat → ReceiptAnswer) (ticks : Nat),
      (trickyMintHybrid p total dropStatus dateNow submit answers ticks).2.2.pendingTxs.map
          (fun t => t.hash) =
        (trickyMintHybridSend p total dropStatus dateNow submit).1.pendingTxs.map
          (fun t => t.hash)) ∧
    (∀ (events : List PollEvent),
      (runEvents total (trickyMintHybridSend p total dropStatus dateNow submit).1.successCount
          events (EventLoop.start (trickyMintHybridSend p total dropStatus dateNow submit).1)
        ).shared.pendingTxs.map (fun t => t.hash) =
        (trickyMintHybridSend p total dropStatus dateNow submit).1.pendingTxs.map
          (fun t => t.hash)) := by
  have hq := send_effects_no_query p total dropStatus dateNow submit
  have hpoll : ∀ (answers : Nat → Nat → ReceiptAnswer) (ticks : Nat),
      ∀ e ∈ (trickyMintHybrid p total dropStatus dateNow submit answers ticks).2.2.effects,
        e.isReceiptQuery = true :=
    fun answers ticks => pollTicks_effects_queries total _ answers _ ticks
  obtain ⟨N, hN, _, _, hcount⟩ := trickyMintHybridSend_run p total dropStatus dateNow submit
  have hattempts : countMint (trickyMintHybridSend p total dropStatus dateNow submit).2 =
      (trickyMintHybridSend p total dropStatus dateNow submit).1.attemptCount := by
    rw [hcount, hN, afterAttempts_attemptCount]
  refine ⟨?_, ?_, ?_⟩
  · intro answers ticks pre post e htrace he
    have hsplit : (trickyMintHybridSend p total dropStatus dateNow submit).2 ++
        (trickyMintHybrid p total dropStatus dateNow submit answers ticks).2.2.effects =
        pre ++ e :: post := htrace
    rcases List.append_eq_append_iff.mp hsplit with ⟨a', ha1, ha2⟩ | ⟨c', hc1, hc2⟩
    · have ha' : ∀ x ∈ a', x.isReceiptQuery = true := by
        intro x hx
        apply hpoll answers ticks
        rw [ha2]
        exact List.mem_append_left _ hx
      have hpost : ∀ x ∈ post, x.isReceiptQuery = true := by
        intro x hx
        apply hpoll answers ticks
        rw [ha2]
        exact List.mem_append_right _ (List.mem_cons_of_mem _ hx)
      rw [ha1, countMint_append, countMint_queries a' ha', hattempts,
        countMint_queries post hpost]
      exact ⟨rfl, rfl⟩
    · cases c' with
      | nil =>
        rw [List.append_nil] at hc1
        rw [List.nil_append] at hc2
        have hpost : ∀ x ∈ post, x.isReceiptQuery = true := by
          intro x hx
          apply hpoll answers ticks
          rw [← hc2]
          exact List.mem_cons_of_mem _ hx
        rw [← hc1, hattempts, countMint_queries post hpost]
        exact ⟨rfl, rfl⟩
      | cons x rest =>
        have hx : e = x := by
          simp only [List.cons_append, List.cons.injEq] at hc2
          exact hc2.1
        have hmem : e ∈ (trickyMintHybridSend p total dropStatus dateNow submit).2 := by
          rw [hc1, hx]
          exact List.mem_append_right _ (List.mem_cons_self _ _)
        have := hq e hmem
        rw [he] at this
        cases this
  · intro answers ticks
    exact pollTicks_hashes total _ answers _ ticks
  · intro events
    exact runEvents_hashes total _ events _

/-! ## The gate's wait on the clock -/

theorem timerDelay_in_range (ms : Int) (h1 : 1 ≤ ms) (h2 : ms ≤ 2147483647) :
    timerDelay ms = ms.toNat := by
  unfold timerDelay
  rw [if_neg (by omega)]

theorem timerDelay_overflow (ms : Int) (h : 2147483647 < ms) : timerDelay ms = 1 := by
  unfold timerDelay
  rw [if_pos (Or.inr h)]

/-- C10: the time for which the gate of `trickyMintHybrid` suspends the flow.
For a `DROP_NOT_STARTED` status with start time `S` and the clock at
`n = dateNow / 1000` whole seconds, the waits before the first `mintMulti` call
last `(S - n) * 1000` ms when `S > n` and that number is at most 2147483647,
1 ms when `S > n` and it is larger, and 0 ms when `S <= n`. For the drop
`farDrop`, which opens 30 days after the gate is reached, the flow hands
2592000000 to `setTimeout`, is suspended for 1 ms, and its `mintMulti` call
begins at 151301 ms, long before the start of the drop at 2592151000 ms. -/
theorem far_drop_wait_is_cut_short :
    (∀ (p : MintParams) (total : Int) (dropStatus : DropStatus) (dateNow : Nat)
        (submit : Nat → Option String) (submitMs : Nat → Nat) (S : Nat),
      dropStatus.reason = .DROP_NOT_STARTED → dropStatus.startTime = some S →
      elapsed (engineSteps submitMs 0
        ((trickyMintHybridSend p total dropStatus dateNow submit).2.takeWhile
          (fun e => !e.isMint))) =
        if S > dateNow / 1000 then
          (if (S - dateNow / 1000) * 1000 ≤ 2147483647 then (S - dateNow / 1000) * 1000 else 1)
        else 0) ∧
    (checkDropStatus farDrop 150200).reason = .DROP_NOT_STARTED ∧
    (walletPass (List.map Char.toLower) exactLowBalance exampleConfig farDropWorld
        150000).sent.map (fun r => r.2) =
      some [.sleep 2592000000, .mintMulti 1 "0xNFT" 5 105 150000] ∧
    timerDelay 2592000000 = 1 ∧
    stamp 150000 (walletPass (List.map Char.toLower) exactLowBalance exampleConfig
        farDropWorld 150000).steps =
      [(150000, .getNetwork "https://rpc-a"), (150120, .getPublicDrop "0xNFT"),
       (150200, .getBalance), (150260, .getGasPrice), (150300, .question),
       (151300, .engine (.sleep 2592000000)),
       (151301, .engine (.mintMulti 1 "0xNFT" 5 105 150000))] ∧
    151301 < farDrop.startTime * 1000 := by
  refine ⟨?_, by decide, by decide, by decide, by decide, by decide⟩
  intro p total dropStatus dateNow submit submitMs S h1 h2
  rw [((gate_single_wait p total dropStatus dateNow submit).1 S h1 h2).2]
  by_cases hS : S > dateNow / 1000
  · rw [if_pos hS, if_pos hS]
    have hsteps : engineSteps submitMs 0
        [Effect.sleep (((S : Int) - ((dateNow / 1000 : Nat) : Int)) * 1000)] =
        [{ call := .engine (.sleep (((S : Int) - ((dateNow / 1000 : Nat) : Int)) * 1000)),
           ms := timerDelay (((S : Int) - ((dateNow / 1000 : Nat) : Int)) * 1000) }] := rfl
    rw [hsteps]
    have hel : ∀ s : Step, elapsed [s] = s.ms := by
      intro s
      simp [elapsed]
    rw [hel]
    dsimp only
    have hcast : (((S : Int) - ((dateNow / 1000 : Nat) : Int)) * 1000) =
        (((S - dateNow / 1000) * 1000 : Nat) : Int) := by
      omega
    rw [hcast]
    by_cases hle : (S - dateNow / 1000) * 1000 ≤ 2147483647
    · rw [if_pos hle, timerDelay_in_range _ (by omega) (by omega), Int.toNat_natCast]
    · rw [if_neg hle, timerDelay_overflow _ (by omega)]
  · rw [if_neg hS, if_neg hS]
    rfl

/-! ## The scenario in which every receipt is there at once, with two runs of
the callback in flight -/

/-- C18: the scenario with `total = 3`, three accepted submissions and a
receipt with status 1 for every query, when the first query takes longer than
the interval. Phase 1 makes three attempts and leaves three entries. A second
run of the callback starts before `0xaa` is marked, both runs count `0xaa`,
and the first run ends with `confirmedCount = 4`: it stops the poller and
prints `Final Result: 4/3`. A first tick that runs alone ends with
`confirmedCount = 3`. -/
theorem overlapping_first_tick_overcounts :
    (trickyMintHybridSend exampleParams 3 activeStatus 150000 acceptThree).1 =
      { successCount := 3, attemptCount := 3,
        pendingTxs := [{ hash := "0xaa", index := 1, checked := false },
                       { hash := "0xbb", index := 2, checked := false },
                       { hash := "0xcc", index := 3, checked := false }] } ∧
    (runEvents 3 3 overlapThreeConfirmed
      (EventLoop.start (trickyMintHybridSend exampleParams 3 activeStatus 150000
        acceptThree).1)).shared.confirmedCount = 4 ∧
    (runEvents 3 3 overlapThreeConfirmed
      (EventLoop.start (trickyMintHybridSend exampleParams 3 activeStatus 150000
        acceptThree).1)).shared.intervalActive = false ∧
    finalReport (runEvents 3 3 overlapThreeConfirmed
      (EventLoop.start (trickyMintHybridSend exampleParams 3 activeStatus 150000
        acceptThree).1)).shared.output = [.finalResult 4 3] ∧
    (pollTick 3 3 (fun _ => .receipt 1)
      (PollerState.start (trickyMintHybridSend exampleParams 3 activeStatus 150000
        acceptThree).1)).confirmedCount = 3 := by
  refine ⟨by decide, by decide, by decide, by decide, by decide⟩

end OSMINT
